import Mathlib

/-!
# SM4 / SM4-GCM: a shallow embedding of `project1`

Embedding conventions.

* `uint8_t` and `uint32_t` values are natural numbers; every C operation that can
  leave the machine range is followed by an explicit `% 256`, `% 2 ^ 32` or `% 2 ^ 64`.
* A byte buffer is a `List Nat`; reading index `i` is `getD i 0`, writing is `List.set`.
  A pointer argument that the code tests against `NULL` is an `Option (List Nat)`.
* The sources are x86 code (`sm4_aesni.c` and `sm4_gfni.c` use x86 intrinsics), so
  `memcpy` between `uint8_t[16]` and `uint32_t[4]` is a little-endian load or store.
* `for` loops with a constant trip count are folds over `List.range`.
-/

namespace SM4

/-! ## Scalar SM4 (`src/sm4_gcm.c`, lines 6-106) -/

/-- The table `Sbox` of `src/sm4_gcm.c`, lines 6-23, byte for byte. -/
def Sbox : List Nat := [
  0xD6,0x90,0xE9,0xFE,0xCC,0xE1,0x3D,0xB7,0x16,0xB6,0x14,0xC2,0x28,0xFB,0x2C,0x05,
  0x2B,0x67,0x9A,0x76,0x2A,0xBE,0x04,0xC3,0xAA,0x44,0x13,0x26,0x49,0x86,0x06,0x99,
  0x9C,0x42,0x50,0xF4,0x91,0xEF,0x98,0x7A,0x33,0x54,0x0B,0x43,0xED,0xCF,0xAC,0x62,
  0xE4,0xB3,0x1C,0xA9,0xC9,0x08,0xE8,0x95,0x80,0xDF,0x94,0xFA,0x75,0x8F,0x3F,0xA6,
  0x47,0x07,0xA7,0xFC,0xF3,0x73,0x17,0xBA,0x83,0x59,0x3C,0x19,0xE6,0x85,0x4F,0xA8,
  0x68,0x6B,0x81,0xB2,0x71,0x64,0xDA,0x8B,0xF8,0xEB,0x0F,0x4B,0x70,0x56,0x9D,0x35,
  0x1E,0x24,0x0E,0x5E,0x63,0x58,0xD1,0xA2,0x25,0x22,0x7C,0x3B,0x01,0x21,0x78,0x87,
  0xD4,0x00,0x46,0x57,0x9F,0xD3,0x27,0x52,0x4C,0x36,0x02,0xE7,0xA0,0xC4,0xC8,0x9E,
  0xEA,0xBF,0x8A,0xD2,0x40,0xC7,0x31,0xB1,0x12,0x10,0x59,0x29,0x72,0xC0,0x3B,0xEE,
  0x7B,0xFB,0x7E,0x03,0x1B,0x11,0x0C,0x55,0x6D,0x8D,0x74,0x1F,0x4D,0x2D,0x8E,0x4E,
  0x09,0xCF,0x2F,0x5B,0x66,0xC1,0x1A,0x79,0x6D,0xCD,0x8C,0x9A,0x6E,0x73,0x6F,0xAC,
  0xAA,0xD8,0x32,0x64,0x81,0x90,0x41,0x58,0x28,0x92,0xDA,0x3A,0x0A,0x49,0x06,0x24,
  0x13,0x26,0x49,0x86,0x06,0x99,0x9C,0x42,0x50,0xF4,0x91,0xEF,0x98,0x7A,0x33,0x54,
  0x0B,0x43,0xED,0xCF,0xAC,0x62,0xE4,0xB3,0x1C,0xA9,0xC9,0x08,0xE8,0x95,0x80,0xDF,
  0x94,0xFA,0x75,0x8F,0x3F,0xA6,0x47,0x07,0xA7,0xFC,0xF3,0x73,0x17,0xBA,0x83,0x59,
  0x3C,0x19,0xE6,0x85,0x4F,0xA8,0x68,0x6B,0x81,0xB2,0x71,0x64,0xDA,0x8B,0xF8,0xEB]

/-- The constants `FK` of `src/sm4_gcm.c`, lines 25-27. -/
def FK : List Nat := [0xA3B1BAC6, 0x56AA3350, 0x677D9197, 0xB27022DC]

/-- The constants `CK` of `src/sm4_gcm.c`, lines 29-38. -/
def CK : List Nat := [
  0x00070E15, 0x1C232A31, 0x383F464D, 0x545B6269,
  0x70777E85, 0x8C939AA1, 0xA8AFB6BD, 0xC4CBD2D9,
  0xE0E7EEF5, 0xFC030A11, 0x181F262D, 0x343B4249,
  0x50575E65, 0x6C737A81, 0x888F969D, 0xA4ABB2B9,
  0xC0C7CED5, 0xDCE3EAF1, 0xF8FF060D, 0x141B2229,
  0x30373E45, 0x4C535A61, 0x686F767D, 0x848B9299,
  0xA0A7AEB5, 0xBCC3CAD1, 0xD8DFE6ED, 0xF4FB0209,
  0x10171E25, 0x2C333A41, 0x484F565D, 0x646B7279]

/-- Little-endian read of the `uint32_t` at word index `k` of a byte buffer
(`memcpy(MK, key, 16)` on x86, or `((const uint32_t*)input)[k]`). -/
def load32 (buf : List Nat) (k : Nat) : Nat :=
  buf.getD (4 * k) 0 % 256 + (buf.getD (4 * k + 1) 0 % 256) * 2 ^ 8 +
    (buf.getD (4 * k + 2) 0 % 256) * 2 ^ 16 + (buf.getD (4 * k + 3) 0 % 256) * 2 ^ 24

/-- Little-endian bytes of a `uint32_t` (`((uint32_t*)output)[k] = w` on x86). -/
def store32 (w : Nat) : List Nat :=
  [w % 256, w / 2 ^ 8 % 256, w / 2 ^ 16 % 256, w / 2 ^ 24 % 256]

/-- Byte substitution `sm4_sbox`: `Sbox[x]` for a `uint8_t` index. -/
def sm4_sbox (x : Nat) : Nat := Sbox.getD x 0

/-- Linear transform `sm4_L` on a `uint32_t`; each left shift is truncated to 32 bits. -/
def sm4_L (x : Nat) : Nat :=
  x ^^^ (((x <<< 2) % 2 ^ 32) ||| (x >>> 30)) ^^^ (((x <<< 10) % 2 ^ 32) ||| (x >>> 22)) ^^^
    (((x <<< 18) % 2 ^ 32) ||| (x >>> 14)) ^^^ (((x <<< 24) % 2 ^ 32) ||| (x >>> 8))

/-- The four bytes of a `uint32_t` replaced by their `sm4_sbox` images, in place
(`bytes[k] = sm4_sbox(bytes[k])` for `k = 0..3` through a `uint8_t*` view of the word). -/
def sub_bytes (x : Nat) : Nat :=
  sm4_sbox (x % 256) + sm4_sbox (x / 2 ^ 8 % 256) * 2 ^ 8 +
    sm4_sbox (x / 2 ^ 16 % 256) * 2 ^ 16 + sm4_sbox (x / 2 ^ 24 % 256) * 2 ^ 24

/-- Round function `sm4_T`: S-box on every byte, then `sm4_L`. -/
def sm4_T (x : Nat) : Nat := sm4_L (sub_bytes x)

/-- One iteration of the key-schedule loop on the window `(K[i], K[i+1], K[i+2], K[i+3])`:
the new window is `(K[i+1], K[i+2], K[i+3], K[i+4])`. -/
def key_step (ck : Nat) (w : Nat × Nat × Nat × Nat) : Nat × Nat × Nat × Nat :=
  let t := sub_bytes (w.2.1 ^^^ w.2.2.1 ^^^ w.2.2.2 ^^^ ck)
  (w.2.1, w.2.2.1, w.2.2.2,
    w.1 ^^^ (t ^^^ (((t <<< 13) % 2 ^ 32) ||| (t >>> 19)) ^^^ (((t <<< 23) % 2 ^ 32) ||| (t >>> 9))))

/-- The loop of `sm4_key_extension`: state is the window of `K` and the round keys
written so far (`rk[i] = K[i+4]`). -/
def key_loop (w : Nat × Nat × Nat × Nat) : (Nat × Nat × Nat × Nat) × List Nat :=
  (List.range 32).foldl
    (fun (s : (Nat × Nat × Nat × Nat) × List Nat) i =>
      let w1 := key_step (CK.getD i 0) s.1
      (w1, s.2 ++ [w1.2.2.2]))
    (w, [])

/-- Key expansion `sm4_key_extension(key, rk)`: returns the 32 words written to `rk`. -/
def sm4_key_extension (key : List Nat) : List Nat :=
  (key_loop (load32 key 0 ^^^ FK.getD 0 0, load32 key 1 ^^^ FK.getD 1 0,
    load32 key 2 ^^^ FK.getD 2 0, load32 key 3 ^^^ FK.getD 3 0)).2

/-- One iteration of the round loop on the window `(X[i], X[i+1], X[i+2], X[i+3])`. -/
def round_step (k : Nat) (w : Nat × Nat × Nat × Nat) : Nat × Nat × Nat × Nat :=
  (w.2.1, w.2.2.1, w.2.2.2, w.1 ^^^ sm4_T (w.2.1 ^^^ w.2.2.1 ^^^ w.2.2.2 ^^^ k))

/-- The 32 rounds of `sm4_encrypt_block`, reading `rk[i]` in round `i`; the result is
`(X[32], X[33], X[34], X[35])`. -/
def round_loop (rk : List Nat) (w : Nat × Nat × Nat × Nat) : Nat × Nat × Nat × Nat :=
  (List.range 32).foldl (fun s i => round_step (rk.getD i 0) s) w

/-- Block encryption `sm4_encrypt_block(key, input, output, rk)`: returns the 16 bytes
written to `output` (`X[35], X[34], X[33], X[32]`). The argument `key` is unused, as in
the source. -/
def sm4_encrypt_block (_key input rk : List Nat) : List Nat :=
  let x := round_loop rk (load32 input 0, load32 input 1, load32 input 2, load32 input 3)
  store32 x.2.2.2 ++ store32 x.2.2.1 ++ store32 x.2.1 ++ store32 x.1

/-! ## GCM mode (`src/sm4_gcm.c`, lines 108-314) -/

/-- Bytes written by `memcpy(dst, src, n)`: the first `n` bytes of `dst` become the first
`n` bytes of `src`. -/
def memcpy (dst src : List Nat) (n : Nat) : List Nat := src.take n ++ dst.drop n

/-- Bytes written by `memset(dst + off, v, n)`. -/
def memset (dst : List Nat) (off v n : Nat) : List Nat :=
  dst.take off ++ List.replicate n v ++ dst.drop (off + n)

/-- Result of `memcmp(a, b, n)`: zero when the first `n` bytes agree, otherwise the
difference of the first pair of bytes that differ. -/
def memcmp : List Nat → List Nat → Nat → Int
  | _, _, 0 => 0
  | a, b, n + 1 =>
    if a.headD 0 = b.headD 0 then memcmp a.tail b.tail n
    else (a.headD 0 : Int) - (b.headD 0 : Int)

/-- Function `xor_128(a, b, out)`: the 16 bytes written to `out`. -/
def xor_128 (a b : List Nat) : List Nat :=
  (List.range 16).map (fun i => a.getD i 0 ^^^ b.getD i 0)

/-- The loop of `increment_counter` entered with index `i - 1`: `++counter[i-1]` on a
`uint8_t`, stop unless it wrapped to zero. -/
def increment_counter_from : Nat → List Nat → List Nat
  | 0, counter => counter
  | i + 1, counter =>
    let v := (counter.getD i 0 + 1) % 256
    if v ≠ 0 then counter.set i v else increment_counter_from i (counter.set i v)

/-- Function `increment_counter(counter)`: the loop starts at index 15. -/
def increment_counter (counter : List Nat) : List Nat := increment_counter_from 16 counter

/-- The inner loop of `gf_mult` (`j = 15` down to `0`): shift the 16 bytes of `tmp` left
by one bit; returns the shifted bytes and the final `carry`. -/
def shift_left_one (tmp : List Nat) : List Nat × Nat :=
  (List.range 16).foldl
    (fun (s : List Nat × Nat) n =>
      let j := 15 - n
      let new_carry := (s.1.getD j 0 >>> 7) &&& 1
      (s.1.set j (((s.1.getD j 0 <<< 1) % 256) ||| s.2), new_carry))
    (tmp, 0)

/-- Iteration `i` of the outer loop of `gf_mult` on the state `(p, tmp)`. -/
def gf_mult_step (b : List Nat) (s : List Nat × List Nat) (i : Nat) : List Nat × List Nat :=
  let bit_pos := 127 - i
  let b_bit := (b.getD (bit_pos / 8) 0 >>> (7 - bit_pos % 8)) &&& 1
  let p := if b_bit ≠ 0 then xor_128 s.1 s.2 else s.1
  let sh := shift_left_one s.2
  let tmp := if sh.2 ≠ 0 then sh.1.set 15 (sh.1.getD 15 0 ^^^ 0x87) else sh.1
  (p, tmp)

/-- Function `gf_mult(a, b, out)`: the 16 bytes written to `out`. The operands are copied before
`out` is written, so `out` may alias `a`. -/
def gf_mult (a b : List Nat) : List Nat :=
  ((List.range 128).foldl (gf_mult_step b) (List.replicate 16 0, memcpy (List.replicate 16 0) a 16)).1

/-- One of the two block loops of `ghash` (lines 164-173 for the AAD, lines 176-185 for the
ciphertext; the two bodies are the same text): absorbs `data_len` bytes of `data` into
`(state, block)`. Arithmetic on `size_t` is modulo `2 ^ 64`. -/
def ghash_loop (H data : List Nat) (data_len : Nat) (s : List Nat × List Nat) :
    List Nat × List Nat :=
  (List.range ((data_len + 15) % 2 ^ 64 / 16)).foldl
    (fun (s : List Nat × List Nat) i =>
      let len0 := if i = (data_len + 15) % 2 ^ 64 / 16 - 1 then data_len % 16 else 16
      let len := if len0 = 0 then 16 else len0
      let block1 := memcpy s.2 (data.drop (i * 16)) len
      let block2 := if len < 16 then memset block1 len 0 (16 - len) else block1
      (gf_mult (xor_128 s.1 block2) H, block2))
    s

/-- The length block built at lines 188-192 of `ghash`. -/
def len_block (aad_len ciphertext_len : Nat) : List Nat :=
  (List.range 8).map (fun i => (((aad_len * 8) % 2 ^ 64) >>> (56 - i * 8)) % 256) ++
    (List.range 8).map (fun i => (((ciphertext_len * 8) % 2 ^ 64) >>> (56 - i * 8)) % 256)

/-- Function `ghash(H, aad, aad_len, ciphertext, ciphertext_len, hash)`: the 16 bytes written to
`hash`. -/
def ghash (H aad : List Nat) (aad_len : Nat) (ciphertext : List Nat) (ciphertext_len : Nat) :
    List Nat :=
  let s1 := ghash_loop H aad aad_len (List.replicate 16 0, List.replicate 16 0)
  let s2 := ghash_loop H ciphertext ciphertext_len s1
  gf_mult (xor_128 s2.1 (len_block aad_len ciphertext_len)) H

/-- The counter block built at lines 218-223 (and 274-279): `IV || 00 00 00 01`. -/
def initial_counter (iv : List Nat) : List Nat :=
  ((((memcpy (List.replicate 16 0) iv 12).set 12 0).set 13 0).set 14 0).set 15 1

/-- Iteration `i` of the CTR loop (lines 233-243 of `sm4_gcm_encrypt`, lines 301-311 of
`sm4_gcm_decrypt`; the same text with source and destination renamed) on the state
`(counter, dst)`. Arithmetic on `size_t` is modulo `2 ^ 64`. -/
def ctr_step (key rk src : List Nat) (src_len : Nat) (s : List Nat × List Nat) (i : Nat) :
    List Nat × List Nat :=
  let counter := increment_counter s.1
  let keystream := sm4_encrypt_block key counter rk
  let len0 := if i = (src_len + 15) % 2 ^ 64 / 16 - 1 then src_len % 16 else 16
  let len := if len0 = 0 then 16 else len0
  (counter, (List.range len).foldl
    (fun dst j => dst.set (i * 16 + j) (src.getD (i * 16 + j) 0 ^^^ keystream.getD j 0)) s.2)

/-- The CTR loop: `num_blocks = (src_len + 15) / 16` iterations of `ctr_step`. -/
def ctr_loop (key rk src : List Nat) (src_len : Nat) (s : List Nat × List Nat) :
    List Nat × List Nat :=
  (List.range ((src_len + 15) % 2 ^ 64 / 16)).foldl (ctr_step key rk src src_len) s

/-- One-shot `sm4_gcm_encrypt`. Returns the return code and the contents of the
`ciphertext` and `tag` buffers after the call. `aad` is not tested against `NULL` by the
source and is a plain buffer here. -/
def sm4_gcm_encrypt (key iv : Option (List Nat)) (iv_len : Nat) (aad : List Nat) (aad_len : Nat)
    (plaintext : Option (List Nat)) (plaintext_len : Nat)
    (ciphertext tag : Option (List Nat)) (tag_len : Nat) :
    Int × Option (List Nat) × Option (List Nat) :=
  match key, iv, plaintext, ciphertext, tag with
  | some key, some iv, some plaintext, some ciphertext, some tag =>
    if tag_len = 0 ∨ tag_len > 16 then (-1, some ciphertext, some tag)
    else if iv_len ≠ 12 then (-1, some ciphertext, some tag)
    else
      let rk := sm4_key_extension key
      let H := sm4_encrypt_block key (List.replicate 16 0) rk
      let counter := initial_counter iv
      let J0 := sm4_encrypt_block key counter rk
      let c := (ctr_loop key rk plaintext plaintext_len (counter, ciphertext)).2
      let hash := ghash H aad aad_len c plaintext_len
      let t := (List.range tag_len).foldl
        (fun t i => t.set i (hash.getD i 0 ^^^ J0.getD i 0)) tag
      (0, some c, some t)
  | _, _, _, _, _ => (-1, ciphertext, tag)

/-- One-shot `sm4_gcm_decrypt`. Returns the return code and the contents of the
`plaintext` buffer after the call. -/
def sm4_gcm_decrypt (key iv : Option (List Nat)) (iv_len : Nat) (aad : List Nat) (aad_len : Nat)
    (ciphertext : Option (List Nat)) (ciphertext_len : Nat)
    (tag : Option (List Nat)) (tag_len : Nat) (plaintext : Option (List Nat)) :
    Int × Option (List Nat) :=
  match key, iv, ciphertext, tag, plaintext with
  | some key, some iv, some ciphertext, some tag, some plaintext =>
    if tag_len = 0 ∨ tag_len > 16 then (-1, some plaintext)
    else if iv_len ≠ 12 then (-1, some plaintext)
    else
      let rk := sm4_key_extension key
      let H := sm4_encrypt_block key (List.replicate 16 0) rk
      let counter := initial_counter iv
      let J0 := sm4_encrypt_block key counter rk
      let hash := ghash H aad aad_len ciphertext ciphertext_len
      let computed_tag := (List.range 16).map (fun i => hash.getD i 0 ^^^ J0.getD i 0)
      if memcmp computed_tag tag tag_len ≠ 0 then (-1, some plaintext)
      else (0, some (ctr_loop key rk ciphertext ciphertext_len (counter, plaintext)).2)
  | _, _, _, _, _ => (-1, plaintext)

/-! ## SIMD variants (`src/sm4_aesni.c`, `src/sm4_gfni.c`)

A `__m128i` register is four 32-bit lanes, lane 0 lowest; byte `i` of the register is
byte `i % 4` (little-endian) of lane `i / 4`. The intrinsics follow the Intel
Intrinsics Guide. -/

/-- A `__m128i` value. -/
structure M128 where
  l0 : Nat
  l1 : Nat
  l2 : Nat
  l3 : Nat
deriving DecidableEq, Repr

/-- Lane `j` of a register. -/
def M128.lane (a : M128) (j : Nat) : Nat :=
  match j with
  | 0 => a.l0
  | 1 => a.l1
  | 2 => a.l2
  | _ => a.l3

/-- Byte `i` (0..15) of a register. -/
def M128.byte (a : M128) (i : Nat) : Nat := a.lane (i / 4) / 2 ^ (8 * (i % 4)) % 256

/-- Apply a function to every lane. -/
def M128.map (f : Nat → Nat) (a : M128) : M128 := ⟨f a.l0, f a.l1, f a.l2, f a.l3⟩

/-- Apply a byte function to each of the four bytes of a 32-bit lane. -/
def map_bytes (f : Nat → Nat) (x : Nat) : Nat :=
  f (x % 256) + f (x / 2 ^ 8 % 256) * 2 ^ 8 + f (x / 2 ^ 16 % 256) * 2 ^ 16 +
    f (x / 2 ^ 24 % 256) * 2 ^ 24

/-- Intrinsic `_mm_xor_si128`. -/
def _mm_xor_si128 (a b : M128) : M128 :=
  ⟨a.l0 ^^^ b.l0, a.l1 ^^^ b.l1, a.l2 ^^^ b.l2, a.l3 ^^^ b.l3⟩

/-- Intrinsic `_mm_slli_epi32`: every lane shifted left, truncated to 32 bits. -/
def _mm_slli_epi32 (a : M128) (n : Nat) : M128 := a.map (fun x => (x <<< n) % 2 ^ 32)

/-- Intrinsic `_mm_srli_epi32`: every lane shifted right. -/
def _mm_srli_epi32 (a : M128) (n : Nat) : M128 := a.map (fun x => x >>> n)

/-- Intrinsic `_mm_rol_epi32`: every lane rotated left. -/
def _mm_rol_epi32 (a : M128) (n : Nat) : M128 :=
  a.map (fun x => ((x <<< n) % 2 ^ 32) ||| (x >>> (32 - n)))

/-- Intrinsic `_mm_set1_epi32`. -/
def _mm_set1_epi32 (w : Nat) : M128 := ⟨w, w, w, w⟩

/-- Intrinsic `_mm_setr_epi32`. -/
def _mm_setr_epi32 (e0 e1 e2 e3 : Nat) : M128 := ⟨e0, e1, e2, e3⟩

/-- Intrinsic `_mm_loadu_si128`: 16 bytes of memory into a register. -/
def _mm_loadu_si128 (mem : List Nat) : M128 :=
  ⟨load32 mem 0, load32 mem 1, load32 mem 2, load32 mem 3⟩

/-- Intrinsic `_mm_setr_epi8`: a register holds 16 bytes, taken in order from the arguments. -/
def _mm_setr_epi8 (es : List Nat) : M128 := _mm_loadu_si128 es

/-- Selector `_MM_SHUFFLE(z, y, x, w)` of the intrinsics header. -/
def _MM_SHUFFLE (z y x w : Nat) : Nat := (z <<< 6) ||| (y <<< 4) ||| (x <<< 2) ||| w

/-- Intrinsic `_mm_shuffle_epi32`: lane `j` of the result is the lane of `a` selected by bits
`2j+1..2j` of the immediate. -/
def _mm_shuffle_epi32 (a : M128) (imm : Nat) : M128 :=
  ⟨a.lane (imm % 4), a.lane (imm / 4 % 4), a.lane (imm / 16 % 4), a.lane (imm / 64 % 4)⟩

/-- Intrinsic `_mm_cvtsi32_si128`: the word in lane 0, the other lanes zero. -/
def _mm_cvtsi32_si128 (w : Nat) : M128 := ⟨w, 0, 0, 0⟩

/-- Intrinsic `_mm_cvtsi128_si32`: lane 0. -/
def _mm_cvtsi128_si32 (a : M128) : Nat := a.l0

/-- Intrinsic `_mm_shuffle_epi8(a, b)` (PSHUFB): result byte `i` is zero when bit 7 of byte `i` of
`b` is set, otherwise byte `b[i] & 0x0F` of `a`. -/
def _mm_shuffle_epi8 (a b : M128) : M128 :=
  b.map (map_bytes (fun x => if x &&& 0x80 ≠ 0 then 0 else a.byte (x &&& 0x0F)))

/-- The register `sbox_ni` of `src/sm4_aesni.c`, lines 22-36. The initialiser lists 208
bytes; a `__m128i` holds 16, and `_mm_shuffle_epi8` addresses only bytes 0..15. -/
def sbox_ni : M128 := _mm_setr_epi8 [
  0xD6,0x90,0xE9,0xFE,0xCC,0xE1,0x3D,0xB7,0x16,0xB6,0x14,0xC2,0x28,0xFB,0x2C,0x05,
  0x2B,0x67,0x9A,0x76,0x2A,0xBE,0x04,0xC3,0xAA,0x44,0x13,0x26,0x49,0x86,0x06,0x99,
  0x9C,0x42,0x50,0xF4,0x91,0xEF,0x98,0x7A,0x33,0x54,0x0B,0x43,0xED,0xCF,0xAC,0x62,
  0xE4,0xB3,0x1C,0xA9,0xC9,0x08,0xE8,0x95,0x80,0xDF,0x94,0xFA,0x75,0x8F,0x3F,0xA6,
  0x47,0x07,0xA7,0xFC,0xF3,0x73,0x17,0xBA,0x83,0x59,0x3C,0x19,0xE6,0x85,0x4F,0xA8,
  0x68,0x6B,0x81,0xB2,0x71,0x64,0xDA,0x8B,0xF8,0xEB,0x0F,0x4B,0x70,0x56,0x9D,0x35,
  0x1E,0x24,0x0E,0x5E,0x63,0x58,0xD1,0xA2,0x25,0x22,0x7C,0x3B,0x01,0x21,0x78,0x87,
  0xD4,0x00,0x46,0x57,0x9F,0xD3,0x27,0x52,0x4C,0x36,0x02,0xE7,0xA0,0xC4,0xC8,0x9E,
  0xEA,0xBF,0x8A,0xD2,0x40,0xC7,0x31,0xB1,0x12,0x10,0x59,0x29,0x72,0xC0,0x3B,0xEE,
  0x7B,0xFB,0x7E,0x03,0x1B,0x11,0x0C,0x55,0x6D,0x8D,0x74,0x1F,0x4D,0x2D,0x8E,0x4E,
  0x09,0xCF,0x2F,0x5B,0x66,0xC1,0x1A,0x79,0x6D,0xCD,0x8C,0x9A,0x6E,0x73,0x6F,0xAC,
  0xAA,0xD8,0x32,0x64,0x81,0x90,0x41,0x58,0x28,0x92,0xDA,0x3A,0x0A,0x49,0x06,0x24,
  0x13,0x26,0x49,0x86,0x06,0x99,0x9C,0x42,0x50,0xF4,0x91,0xEF,0x98,0x7A,0x33,0x54]

/-- Function `sm4_L_ni`: the linear transform from shift pairs combined by xor. -/
def sm4_L_ni (x : M128) : M128 :=
  let t1 := _mm_xor_si128 (_mm_slli_epi32 x 2) (_mm_srli_epi32 x 30)
  let t2 := _mm_xor_si128 (_mm_slli_epi32 x 10) (_mm_srli_epi32 x 22)
  let t3 := _mm_xor_si128 (_mm_slli_epi32 x 18) (_mm_srli_epi32 x 14)
  let t4 := _mm_xor_si128 (_mm_slli_epi32 x 24) (_mm_srli_epi32 x 8)
  _mm_xor_si128 (_mm_xor_si128 (_mm_xor_si128 (_mm_xor_si128 x t1) t2) t3) t4

/-- The four initial registers `K[0..3]` of the SIMD key schedules (lines 75-87 of
`sm4_aesni.c`, lines 63-75 of `sm4_gfni.c`). -/
def key_init_simd (key : List Nat) : M128 × M128 × M128 × M128 :=
  let MK := _mm_loadu_si128 key
  let FK_ni := _mm_setr_epi32 (FK.getD 0 0) (FK.getD 1 0) (FK.getD 2 0) (FK.getD 3 0)
  (_mm_xor_si128 (_mm_shuffle_epi32 MK (_MM_SHUFFLE 0 0 0 0))
      (_mm_shuffle_epi32 FK_ni (_MM_SHUFFLE 0 0 0 0)),
    _mm_xor_si128 (_mm_shuffle_epi32 MK (_MM_SHUFFLE 1 1 1 1))
      (_mm_shuffle_epi32 FK_ni (_MM_SHUFFLE 1 1 1 1)),
    _mm_xor_si128 (_mm_shuffle_epi32 MK (_MM_SHUFFLE 2 2 2 2))
      (_mm_shuffle_epi32 FK_ni (_MM_SHUFFLE 2 2 2 2)),
    _mm_xor_si128 (_mm_shuffle_epi32 MK (_MM_SHUFFLE 3 3 3 3))
      (_mm_shuffle_epi32 FK_ni (_MM_SHUFFLE 3 3 3 3)))

/-- The key-schedule loop shared by both SIMD files: `body` maps
`t = K[i+1] ^ K[i+2] ^ K[i+3] ^ CK[i]` to the register xored into `K[i]`. -/
def key_loop_simd (body : M128 → M128) (w : M128 × M128 × M128 × M128) : List M128 :=
  ((List.range 32).foldl
    (fun (s : (M128 × M128 × M128 × M128) × List M128) i =>
      let t := _mm_xor_si128 (_mm_xor_si128 (_mm_xor_si128 s.1.2.1 s.1.2.2.1) s.1.2.2.2)
        (_mm_set1_epi32 (CK.getD i 0))
      let k4 := _mm_xor_si128 s.1.1 (body t)
      ((s.1.2.1, s.1.2.2.1, s.1.2.2.2, k4), s.2 ++ [k4]))
    (w, [])).2

/-- Function `sm4_key_extension_ni`: the 32 registers written to `rk`. -/
def sm4_key_extension_ni (key : List Nat) : List M128 :=
  key_loop_simd
    (fun t0 =>
      let t := _mm_shuffle_epi8 sbox_ni t0
      let t13 := _mm_slli_epi32 t 13
      let t19 := _mm_srli_epi32 t 19
      let t23 := _mm_slli_epi32 t 23
      let t9 := _mm_srli_epi32 t 9
      _mm_xor_si128 (_mm_xor_si128 t (_mm_xor_si128 t13 t19)) (_mm_xor_si128 t23 t9))
    (key_init_simd key)

/-- One iteration of the SIMD round loop on `(X[i], X[i+1], X[i+2], X[i+3])`; `tf` is the
substitution followed by the linear transform. -/
def round_step_simd (tf : M128 → M128) (rk : M128) (w : M128 × M128 × M128 × M128) :
    M128 × M128 × M128 × M128 :=
  let t := _mm_xor_si128 (_mm_xor_si128 w.2.1 w.2.2.1) (_mm_xor_si128 w.2.2.2 rk)
  (w.2.1, w.2.2.1, w.2.2.2, _mm_xor_si128 w.1 (tf t))

/-- The body shared by the SIMD block functions: load the four input words into lane 0,
run 32 rounds with round key `rkAt i` in round `i`, store lane 0 of
`X[35], X[34], X[33], X[32]`. -/
def block_simd (tf : M128 → M128) (rkAt : Nat → M128) (input : List Nat) : List Nat :=
  let x := (List.range 32).foldl (fun s i => round_step_simd tf (rkAt i) s)
    (_mm_cvtsi32_si128 (load32 input 0), _mm_cvtsi32_si128 (load32 input 1),
      _mm_cvtsi32_si128 (load32 input 2), _mm_cvtsi32_si128 (load32 input 3))
  store32 (_mm_cvtsi128_si32 x.2.2.2) ++ store32 (_mm_cvtsi128_si32 x.2.2.1) ++
    store32 (_mm_cvtsi128_si32 x.2.1) ++ store32 (_mm_cvtsi128_si32 x.1)

/-- Function `sm4_encrypt_aesni(key, input, output)`: the 16 bytes written to `output`. -/
def sm4_encrypt_aesni (key input : List Nat) : List Nat :=
  let rk := sm4_key_extension_ni key
  block_simd (fun t => sm4_L_ni (_mm_shuffle_epi8 sbox_ni t)) (fun i => rk.getD i ⟨0, 0, 0, 0⟩)
    input

/-- Function `sm4_decrypt_aesni(key, input, output)`: round `i` uses `rk[31 - i]`. -/
def sm4_decrypt_aesni (key input : List Nat) : List Nat :=
  let rk := sm4_key_extension_ni key
  block_simd (fun t => sm4_L_ni (_mm_shuffle_epi8 sbox_ni t))
    (fun i => rk.getD (31 - i) ⟨0, 0, 0, 0⟩) input

/-- Parity of the bits of a byte. -/
def parity8 (x : Nat) : Nat :=
  (x + x / 2 + x / 4 + x / 8 + x / 16 + x / 32 + x / 64 + x / 128) % 2

/-- Helper `affine_byte` of GF2P8AFFINEQB: bit `i` of the result is
`parity(matrix.byte[7 - i] AND x) XOR b.bit[i]`; `rows k` is byte `k` of the matrix
quadword. -/
def affine_byte (rows : Nat → Nat) (b x : Nat) : Nat :=
  (List.range 8).foldl
    (fun acc i => acc + ((parity8 (rows (7 - i) &&& x)) ^^^ (b / 2 ^ i % 2)) * 2 ^ i) 0

/-- The GF2P8AFFINEQB operation called at line 41 of `sm4_gfni.c`: bytes of lanes 0 and 1
use the low quadword of `A` as matrix, bytes of lanes 2 and 3 the high quadword. -/
def _mm_gf2p8affineqb_epi64_epi8 (x A : M128) (b : Nat) : M128 :=
  ⟨map_bytes (affine_byte (fun k => A.byte k) b) x.l0,
    map_bytes (affine_byte (fun k => A.byte k) b) x.l1,
    map_bytes (affine_byte (fun k => A.byte (8 + k)) b) x.l2,
    map_bytes (affine_byte (fun k => A.byte (8 + k)) b) x.l3⟩

/-- Function `sm4_sbox_gfni`: the matrix is the first 16 bytes of `Sbox` (rows 0-11 of the table
in `sm4_gfni.c` equal rows 0-11 of `Sbox`), the constant is the byte `0x80` of `mask`. -/
def sm4_sbox_gfni (x : M128) : M128 :=
  _mm_gf2p8affineqb_epi64_epi8 x (_mm_loadu_si128 Sbox) 0x80

/-- Function `sm4_L_gfni`: the linear transform from rotate instructions. -/
def sm4_L_gfni (x : M128) : M128 :=
  let x2 := _mm_rol_epi32 x 2
  let x10 := _mm_rol_epi32 x 10
  let x18 := _mm_rol_epi32 x 18
  let x24 := _mm_rol_epi32 x 24
  _mm_xor_si128 (_mm_xor_si128 (_mm_xor_si128 (_mm_xor_si128 x x2) x10) x18) x24

/-- Function `sm4_key_extension_gfni`: the 32 registers written to `rk`. -/
def sm4_key_extension_gfni (key : List Nat) : List M128 :=
  key_loop_simd
    (fun t0 =>
      let t := sm4_sbox_gfni t0
      let t13 := _mm_rol_epi32 t 13
      let t23 := _mm_rol_epi32 t 23
      _mm_xor_si128 t (_mm_xor_si128 t13 t23))
    (key_init_simd key)

/-- Function `sm4_encrypt_gfni(key, input, output)`: the 16 bytes written to `output`. -/
def sm4_encrypt_gfni (key input : List Nat) : List Nat :=
  let rk := sm4_key_extension_gfni key
  block_simd (fun t => sm4_L_gfni (sm4_sbox_gfni t)) (fun i => rk.getD i ⟨0, 0, 0, 0⟩) input

/-! ## Constant tables of the SIMD files

`src/sm4_aesni.c` (lines 6-19) and `src/sm4_gfni.c` (lines 6-19) each define their own
`FK` and `CK`. -/

namespace Aesni

/-- The constants `FK` of `src/sm4_aesni.c`, lines 6-8. -/
def FK : List Nat := [0xA3B1BAC6, 0x56AA3350, 0x677D9197, 0xB27022DC]

/-- The constants `CK` of `src/sm4_aesni.c`, lines 10-19. -/
def CK : List Nat := [
  0x00070E15, 0x1C232A31, 0x383F464D, 0x545B6269,
  0x70777E85, 0x8C939AA1, 0xA8AFB6BD, 0xC4CBD2D9,
  0xE0E7EEF5, 0xFC030A11, 0x181F262D, 0x343B4249,
  0x50575E65, 0x6C737A81, 0x888F969D, 0xA4ABB2B9,
  0xC0C7CED5, 0xDCE3EAF1, 0xF8FF060D, 0x141B2229,
  0x30373E45, 0x4C535A61, 0x686F767D, 0x848B9299,
  0xA0A7AEB5, 0xBCC3CAD1, 0xD8DFE6ED, 0xF4FB0209,
  0x10171E25, 0x2C333A41, 0x484F565D, 0x646B7279]

end Aesni

namespace Gfni

/-- The constants `FK` of `src/sm4_gfni.c`, lines 6-8. -/
def FK : List Nat := [0xA3B1BAC6, 0x56AA3350, 0x677D9197, 0xB27022DC]

/-- The constants `CK` of `src/sm4_gfni.c`, lines 10-19. -/
def CK : List Nat := [
  0x00070E15, 0x1C232A31, 0x383F464D, 0x545B6269,
  0x70777E85, 0x8C939AA1, 0xA8AFB6BD, 0xC4CBD2D9,
  0xE0E7EEF5, 0xFC030A11, 0x181F262D, 0x343B4249,
  0x50575E65, 0x6C737A81, 0x888F969D, 0xA4ABB2B9,
  0xC0C7CED5, 0xDCE3EAF1, 0xF8FF060D, 0x141B2229,
  0x30373E45, 0x4C535A61, 0x686F767D, 0x848B9299,
  0xA0A7AEB5, 0xBCC3CAD1, 0xD8DFE6ED, 0xF4FB0209,
  0x10171E25, 0x2C333A41, 0x484F565D, 0x646B7279]

end Gfni

/-! ## Streaming GCM (`sm4_gcm.c` at the top of `project1`, lines 1-281)

The block function `sm4_encrypt_advanced(key, in, out)` is declared in `sm4_advanced.h`,
which is not among the sources: it is the parameter `E`, with `E key block` the 16 bytes
written to `out`. The fields of `sm4_gcm_ctx` that are `uint8_t[16]` arrays are lists of
16 bytes. A result `none` stands for an access outside an array (undefined behaviour). -/

namespace Streaming

/-- The context `sm4_gcm_ctx` (lines 6-16). -/
structure sm4_gcm_ctx where
  key : List Nat
  H : List Nat
  J0 : List Nat
  counter : List Nat
  tag : List Nat
  buf : List Nat
  buf_len : Nat
  auth_len : Nat
  cipher_len : Nat
deriving DecidableEq, Repr

/-- The big-endian `uint64_t` assembled from the 8 bytes at offset `off` (lines 26-42). -/
def load64 (x : List Nat) (off : Nat) : Nat :=
  (x.getD off 0 <<< 56) ||| (x.getD (off + 1) 0 <<< 48) ||| (x.getD (off + 2) 0 <<< 40) |||
    (x.getD (off + 3) 0 <<< 32) ||| (x.getD (off + 4) 0 <<< 24) |||
    (x.getD (off + 5) 0 <<< 16) ||| (x.getD (off + 6) 0 <<< 8) ||| x.getD (off + 7) 0

/-- One iteration of the loop of `gcm_mult` (lines 45-63) on `(xh, xl, yh, yl, zh, zl)`,
all `uint64_t`. -/
def gcm_mult_step (s : Nat × Nat × Nat × Nat × Nat × Nat) : Nat × Nat × Nat × Nat × Nat × Nat :=
  let xh := s.1
  let xl := s.2.1
  let yh := s.2.2.1
  let yl := s.2.2.2.1
  let zh := s.2.2.2.2.1
  let zl := s.2.2.2.2.2
  let zh1 := if yl &&& 1 ≠ 0 then zh ^^^ xh else zh
  let zl1 := if yl &&& 1 ≠ 0 then zl ^^^ xl else zl
  let carry := if xl &&& 1 ≠ 0 then 1 else 0
  let xl1 := (xl >>> 1) ||| (((xh &&& 1) <<< 63) % 2 ^ 64)
  let xh1 := xh >>> 1
  let xh2 := if carry ≠ 0 then xh1 ^^^ 0xE100000000000000 else xh1
  let yl1 := (yl >>> 1) ||| (((yh &&& 1) <<< 63) % 2 ^ 64)
  let yh1 := yh >>> 1
  (xh2, xl1, yh1, yl1, zh1, zl1)

/-- Function `gcm_mult(x, y, res)` (lines 19-72): the 16 bytes written to `res`. The loop
runs `for (i = 0; i < 64; i++)`. -/
def gcm_mult (x y : List Nat) : List Nat :=
  let s := (List.range 64).foldl (fun s _ => gcm_mult_step s)
    (load64 x 0, load64 x 8, load64 y 0, load64 y 8, 0, 0)
  (List.range 8).map (fun i => (s.2.2.2.2.1 >>> (56 - i * 8)) &&& 0xFF) ++
    (List.range 8).map (fun i => (s.2.2.2.2.2 >>> (56 - i * 8)) &&& 0xFF)

/-- Bytes written by `memcpy(dst + off, src, n)`. -/
def memcpy_at (dst : List Nat) (off : Nat) (src : List Nat) (n : Nat) : List Nat :=
  dst.take off ++ src.take n ++ dst.drop (off + n)

/-- The loop `while (len >= 16)` of `sm4_gcm_update_aad` (lines 142-150) on the context,
the offset reached in `aad` and the remaining `len`; `fuel` bounds the number of
iterations and `len` is always enough. -/
def aad_loop : Nat → sm4_gcm_ctx → List Nat → Nat → Nat → sm4_gcm_ctx × Nat × Nat
  | 0, ctx, _, off, len => (ctx, off, len)
  | fuel + 1, ctx, aad, off, len =>
    if len ≥ 16 then
      aad_loop fuel
        { ctx with
          tag := gcm_mult (xor_128 ctx.tag (aad.drop off)) ctx.H
          auth_len := (ctx.auth_len + 16) % 2 ^ 64 }
        aad (off + 16) (len - 16)
    else (ctx, off, len)

/-- Function `sm4_gcm_update_aad(ctx, aad, len)` (lines 119-158): the context after the
call. -/
def sm4_gcm_update_aad (ctx : sm4_gcm_ctx) (aad : List Nat) (len : Nat) : sm4_gcm_ctx :=
  let s1 : sm4_gcm_ctx × Nat × Nat :=
    if ctx.buf_len > 0 then
      let fill0 := (2 ^ 64 + 16 - ctx.buf_len) % 2 ^ 64
      let fill := if fill0 > len then len else fill0
      let ctx1 := { ctx with
        buf := memcpy_at ctx.buf ctx.buf_len aad fill
        buf_len := (ctx.buf_len + fill) % 2 ^ 64 }
      let ctx2 :=
        if ctx1.buf_len = 16 then
          { ctx1 with tag := gcm_mult (xor_128 ctx1.tag ctx1.buf) ctx1.H, buf_len := 0 }
        else ctx1
      (ctx2, fill, len - fill)
    else (ctx, 0, len)
  let s2 := aad_loop s1.2.2 s1.1 aad s1.2.1 s1.2.2
  if s2.2.2 > 0 then
    { s2.1 with
      buf := memcpy s2.1.buf (aad.drop s2.2.1) s2.2.2
      buf_len := s2.2.2
      auth_len := (s2.1.auth_len + s2.2.2) % 2 ^ 64 }
  else s2.1

/-- Function `sm4_gcm_init` (lines 75-116): the return code and the context after the
call. When `iv_len` is not 12 the branch at lines 95-98 is empty and `J0` keeps the
bytes it had. -/
def sm4_gcm_init (E : List Nat → List Nat → List Nat) (ctx : sm4_gcm_ctx) (key : List Nat)
    (key_len : Nat) (iv : List Nat) (iv_len : Nat) (aad : List Nat) (aad_len : Nat) :
    Int × sm4_gcm_ctx :=
  if key_len ≠ 16 then (-1, ctx)
  else
    let ctx1 := { ctx with key := memcpy ctx.key key 16, H := E key (List.replicate 16 0) }
    let ctx2 :=
      if iv_len = 12 then
        { ctx1 with J0 := ((((memcpy ctx1.J0 iv 12).set 12 0).set 13 0).set 14 0).set 15 1 }
      else ctx1
    let ctx3 := { ctx2 with
      counter := memcpy ctx2.counter ctx2.J0 16
      tag := memset ctx2.tag 0 0 16
      buf_len := 0
      auth_len := 0
      cipher_len := 0 }
    (0, if aad_len > 0 then sm4_gcm_update_aad ctx3 aad aad_len else ctx3)

/-- The counter loop `for (i = 15; i >= 0; i--) if (++ctx->counter[i] != 0) break;` of
lines 171-173 and 209-211, entered with index `i - 1`. The index is a `size_t`: after
index 0 has wrapped, `i--` gives `SIZE_MAX`, the test `i >= 0` still holds and the next
access is outside the array. -/
def counter_loop : Nat → List Nat → Option (List Nat)
  | 0, _ => none
  | i + 1, counter =>
    let v := (counter.getD i 0 + 1) % 256
    if v ≠ 0 then some (counter.set i v) else counter_loop i (counter.set i v)

/-- The loop `while (len > 0)` of the streaming `sm4_gcm_encrypt` (lines 166-195);
`off` is the distance the pointers `plaintext` and `ciphertext` have advanced. `fuel`
bounds the number of iterations and `len` is always enough. -/
def encrypt_loop (E : List Nat → List Nat → List Nat) :
    Nat → sm4_gcm_ctx → List Nat → List Nat → Nat → Nat → Option (sm4_gcm_ctx × List Nat)
  | 0, ctx, _, ciphertext, _, len => if len = 0 then some (ctx, ciphertext) else none
  | fuel + 1, ctx, plaintext, ciphertext, off, len =>
    if len = 0 then some (ctx, ciphertext)
    else
      let keystream := E ctx.key ctx.counter
      match counter_loop 16 ctx.counter with
      | none => none
      | some counter =>
        let block_len := if len < 16 then len else 16
        let ciphertext1 := (List.range block_len).foldl
          (fun c i => c.set (off + i) (plaintext.getD (off + i) 0 ^^^ keystream.getD i 0))
          ciphertext
        let temp := memcpy (memset (List.replicate 16 0) 0 0 16) (ciphertext1.drop off) block_len
        encrypt_loop E fuel
          { ctx with
            counter := counter
            tag := gcm_mult (xor_128 ctx.tag temp) ctx.H
            cipher_len := (ctx.cipher_len + block_len) % 2 ^ 64 }
          plaintext ciphertext1 (off + block_len) (len - block_len)

/-- The streaming `sm4_gcm_encrypt(ctx, plaintext, ciphertext, len)` (lines 161-196): the
context and the ciphertext buffer after the call. -/
def sm4_gcm_encrypt (E : List Nat → List Nat → List Nat) (ctx : sm4_gcm_ctx)
    (plaintext ciphertext : List Nat) (len : Nat) : Option (sm4_gcm_ctx × List Nat) :=
  encrypt_loop E len ctx plaintext ciphertext 0 len

/-- The loop `while (len > 0)` of the streaming `sm4_gcm_decrypt` (lines 204-233). -/
def decrypt_loop (E : List Nat → List Nat → List Nat) :
    Nat → sm4_gcm_ctx → List Nat → List Nat → Nat → Nat → Option (sm4_gcm_ctx × List Nat)
  | 0, ctx, _, plaintext, _, len => if len = 0 then some (ctx, plaintext) else none
  | fuel + 1, ctx, ciphertext, plaintext, off, len =>
    if len = 0 then some (ctx, plaintext)
    else
      let keystream := E ctx.key ctx.counter
      match counter_loop 16 ctx.counter with
      | none => none
      | some counter =>
        let block_len := if len < 16 then len else 16
        let temp := memcpy (memset (List.replicate 16 0) 0 0 16) (ciphertext.drop off) block_len
        let plaintext1 := (List.range block_len).foldl
          (fun p i => p.set (off + i) (ciphertext.getD (off + i) 0 ^^^ keystream.getD i 0))
          plaintext
        decrypt_loop E fuel
          { ctx with
            counter := counter
            tag := gcm_mult (xor_128 ctx.tag temp) ctx.H
            cipher_len := (ctx.cipher_len + block_len) % 2 ^ 64 }
          ciphertext plaintext1 (off + block_len) (len - block_len)

/-- The streaming `sm4_gcm_decrypt(ctx, ciphertext, plaintext, len)` (lines 199-234): the
context and the plaintext buffer after the call. -/
def sm4_gcm_decrypt (E : List Nat → List Nat → List Nat) (ctx : sm4_gcm_ctx)
    (ciphertext plaintext : List Nat) (len : Nat) : Option (sm4_gcm_ctx × List Nat) :=
  decrypt_loop E len ctx ciphertext plaintext 0 len

/-- Function `sm4_gcm_final(ctx, tag, tag_len)` (lines 237-281): the context and the `tag`
buffer after the call. -/
def sm4_gcm_final (E : List Nat → List Nat → List Nat) (ctx : sm4_gcm_ctx) (tag : List Nat)
    (tag_len : Nat) : sm4_gcm_ctx × List Nat :=
  let ctx1 :=
    if ctx.buf_len > 0 then
      let buf := (List.range (16 - ctx.buf_len)).foldl
        (fun b j => b.set (ctx.buf_len + j) 0) ctx.buf
      { ctx with buf := buf, tag := gcm_mult (xor_128 ctx.tag buf) ctx.H }
    else ctx
  let auth_bits := (ctx1.auth_len * 8) % 2 ^ 64
  let cipher_bits := (ctx1.cipher_len * 8) % 2 ^ 64
  let len_block := (List.range 8).map (fun i => (auth_bits >>> (56 - i * 8)) &&& 0xFF) ++
    (List.range 8).map (fun i => (cipher_bits >>> (56 - i * 8)) &&& 0xFF)
  let tag1 := gcm_mult (xor_128 ctx1.tag len_block) ctx1.H
  let j0_encrypted := E ctx1.key ctx1.J0
  let tag2 := xor_128 tag1 j0_encrypted
  let n := if tag_len > 16 then 16 else tag_len
  ({ ctx1 with tag := tag2 }, memcpy tag tag2 n)

end Streaming

/-! ## Reference definitions used in the statements -/

/-- A block zero-padded to 16 bytes. -/
def pad16 (blk : List Nat) : List Nat := blk ++ List.replicate (16 - blk.length) 0

/-- The 16-byte blocks of a byte string, in order; the last one may be short, and an empty
string has no block. -/
def blocks16 (data : List Nat) : List (List Nat) :=
  (List.range ((data.length + 15) / 16)).map (fun i => (data.drop (16 * i)).take 16)

/-- Absorb the blocks of `data` into the GHASH state: for each block in order, zero-padded,
`Y := gf_mult (Y xor block) H`. -/
def absorb_ref (H Y data : List Nat) : List Nat :=
  (blocks16 data).foldl (fun Y blk => gf_mult (xor_128 Y (pad16 blk)) H) Y

/-- The 8 bytes of `n` as a big-endian 64-bit integer. -/
def len64_be (n : Nat) : List Nat :=
  [n / 2 ^ 56 % 256, n / 2 ^ 48 % 256, n / 2 ^ 40 % 256, n / 2 ^ 32 % 256,
    n / 2 ^ 24 % 256, n / 2 ^ 16 % 256, n / 2 ^ 8 % 256, n % 256]

/-- The reference fold of GHASH as the specification words it: start from zero, absorb the
blocks of the AAD, then the blocks of the ciphertext, then the length block. -/
def ghash_ref (H aad ct : List Nat) : List Nat :=
  let Y := absorb_ref H (absorb_ref H (List.replicate 16 0) aad) ct
  gf_mult (xor_128 Y (len64_be (8 * aad.length) ++ len64_be (8 * ct.length))) H

/-- The specification's `inc32(blk, i)`: bytes 0..11 are kept and bytes 12..15, read as a
big-endian 32-bit integer, are increased by `i` modulo `2 ^ 32`. -/
def inc32 (blk : List Nat) (i : Nat) : List Nat :=
  let c := (blk.getD 12 0 * 2 ^ 24 + blk.getD 13 0 * 2 ^ 16 + blk.getD 14 0 * 2 ^ 8 +
    blk.getD 15 0 + i) % 2 ^ 32
  blk.take 12 ++ [c / 2 ^ 24 % 256, c / 2 ^ 16 % 256, c / 2 ^ 8 % 256, c % 256]

/-- The specification's `E_K`: scalar block encryption under the schedule of `key`. -/
def E_K (key b : List Nat) : List Nat := sm4_encrypt_block key b (sm4_key_extension key)

/-- The hash subkey `H = E_K(0^128)`. -/
def hash_subkey (key : List Nat) : List Nat := E_K key (List.replicate 16 0)

/-- The initial counter block `J0 = IV || 00 00 00 01` of a 12-byte IV. -/
def J0 (iv : List Nat) : List Nat := iv ++ [0, 0, 0, 1]

/-- A byte buffer of exactly 16 bytes. -/
def IsBlock (b : List Nat) : Prop := b.length = 16 ∧ ∀ x ∈ b, x < 256

instance (b : List Nat) : Decidable (IsBlock b) :=
  inferInstanceAs (Decidable (b.length = 16 ∧ ∀ x ∈ b, x < 256))

/-- The key and the plaintext of the GM/T 0002-2012 single-block example. -/
def gmt_key : List Nat :=
  [0x01, 0x23, 0x45, 0x67, 0x89, 0xAB, 0xCD, 0xEF, 0xFE, 0xDC, 0xBA, 0x98, 0x76, 0x54, 0x32, 0x10]

/-- The ciphertext of the GM/T 0002-2012 single-block example. -/
def gmt_cipher : List Nat :=
  [0x68, 0x1E, 0xDF, 0x34, 0xD2, 0x06, 0x96, 0x5E, 0x86, 0xB3, 0xE9, 0x4F, 0x53, 0x6E, 0x42, 0x46]

/-- The inputs of `main` (lines 318-322): IV, AAD and the 32-byte plaintext buffer. -/
def main_iv : List Nat := [0, 1, 2, 3, 4, 5, 6, 7, 8, 9, 10, 11]

/-- The AAD of `main`. -/
def main_aad : List Nat := [0x11, 0x22, 0x33, 0x44, 0x55, 0x66, 0x77, 0x88]

/-- The plaintext buffer of `main`: the 23 characters of the string, then zero bytes. -/
def main_plaintext : List Nat :=
  [0x73, 0x6D, 0x34, 0x2D, 0x67, 0x63, 0x6D, 0x74, 0x65, 0x73, 0x74, 0x61, 0x6E, 0x64, 0x68, 0x6F,
    0x77, 0x61, 0x72, 0x65, 0x79, 0x6F, 0x75, 0, 0, 0, 0, 0, 0, 0, 0, 0]

/-- The plaintext of the specification's vector (d): the 23 bytes of
"sm4-gcmtestandhowareyou". -/
def vector_d_plaintext : List Nat :=
  [0x73, 0x6D, 0x34, 0x2D, 0x67, 0x63, 0x6D, 0x74, 0x65, 0x73, 0x74, 0x61, 0x6E, 0x64, 0x68, 0x6F,
    0x77, 0x61, 0x72, 0x65, 0x79, 0x6F, 0x75]

/-- The first 16 bytes of the plaintext of vector (d): one full block. -/
def block_plaintext : List Nat :=
  [0x73, 0x6D, 0x34, 0x2D, 0x67, 0x63, 0x6D, 0x74, 0x65, 0x73, 0x74, 0x61, 0x6E, 0x64, 0x68, 0x6F]

/-- The all-zero block. -/
def zero_block : List Nat := List.replicate 16 0

/-- A streaming context whose arrays are zero-filled and whose counters are zero. -/
def Streaming.ctx_zero : Streaming.sm4_gcm_ctx :=
  ⟨zero_block, zero_block, zero_block, zero_block, zero_block, zero_block, 0, 0, 0⟩

/-- Absorb the zero-padded 16-byte blocks of `data` into `Y` with the streaming file's
multiplication: `Y := gcm_mult (Y xor block) H` for each block in order. -/
def Streaming.absorb_ref (H Y data : List Nat) : List Nat :=
  (blocks16 data).foldl (fun Y blk => Streaming.gcm_mult (xor_128 Y (pad16 blk)) H) Y

/-- The tag the streaming sequence is claimed to produce: `Y xor E_K(J0)`, where `Y`
absorbs the zero-padded AAD blocks first, then the zero-padded ciphertext blocks, then the
block `len64_be(8 |AAD|) || len64_be(8 |C|)`, with `H = E_K(0^128)`. -/
def Streaming.tag_ref (E : List Nat → List Nat → List Nat) (key iv aad C : List Nat) :
    List Nat :=
  let H := E key zero_block
  let Y := Streaming.absorb_ref H (Streaming.absorb_ref H zero_block aad) C
  xor_128
    (Streaming.gcm_mult (xor_128 Y (len64_be (8 * aad.length) ++ len64_be (8 * C.length))) H)
    (E key (J0 iv))

/-! ## The specification's linear transform and a streaming example -/

/-- The specification's `rol32(x, n)` on a 32-bit word, for `0 < n < 32`: the low `32 - n`
bits of `x` move up by `n` places and the high `n` bits move to the bottom. -/
def rol32 (x n : Nat) : Nat := x % 2 ^ (32 - n) * 2 ^ n + x / 2 ^ (32 - n)

/-- The specification's `L(b) = b xor rol32(b,2) xor rol32(b,10) xor rol32(b,18) xor
rol32(b,24)`. -/
def L_ref (b : Nat) : Nat := b ^^^ rol32 b 2 ^^^ rol32 b 10 ^^^ rol32 b 18 ^^^ rol32 b 24

/-- The ciphertext the streaming `sm4_gcm_encrypt` produces for the 23 bytes of vector (d)
under the GM/T key and the IV `00 01 .. 0B`. -/
def Streaming.vector_d_cipher : List Nat :=
  [0x1D, 0x63, 0x05, 0xD8, 0xA6, 0xFF, 0x2E, 0x8D, 0x0D, 0x63, 0xE0, 0xD0, 0x78, 0xF0, 0x44, 0x5A,
    0x25, 0x3F, 0xED, 0x73, 0xEE, 0xF5, 0x05]

/-- The context after that call: two blocks absorbed, the counter advanced twice. -/
def Streaming.vector_d_ctx : Streaming.sm4_gcm_ctx :=
  { key := gmt_key
    H := [0x62, 0x56, 0xE7, 0x1D, 0xFA, 0xFF, 0x95, 0xD8, 0xB9, 0xDE, 0x44, 0x23, 0x7B, 0x99, 0x97,
      0xF7]
    J0 := [0, 1, 2, 3, 4, 5, 6, 7, 8, 9, 10, 11, 0, 0, 0, 1]
    counter := [0, 1, 2, 3, 4, 5, 6, 7, 8, 9, 10, 11, 0, 0, 0, 3]
    tag := [0x40, 0xC6, 0xA6, 0xCA, 0x5B, 0x02, 0x76, 0x0A, 0x26, 0x12, 0xFA, 0xA0, 0x23, 0xB2, 0xF5,
      0xCB]
    buf := zero_block
    buf_len := 0
    auth_len := 0
    cipher_len := 23 }

/-! ## AAD bytes supplied in chunks -/

/-- Function `gf_mult(a, b, out)` (lines 125-154) on a memory `mem` in which `a`, `b` and
`out` are offsets, so that the three ranges may overlap: `tmp` is copied from `a` before
the loop, the loop reads `b` and writes only the locals `p` and `tmp`, and `out` is written
once, by the `memcpy` after the loop. The result is the memory after the call. -/
def gf_mult_at (mem : List Nat) (a b out : Nat) : List Nat :=
  let p := List.replicate 16 0
  let tmp := memcpy (List.replicate 16 0) (mem.drop a) 16
  let s := (List.range 128).foldl (gf_mult_step (mem.drop b)) (p, tmp)
  Streaming.memcpy_at mem out s.1 16

/-! ## Blocks as polynomials over GF(2) -/

/-- The value of a byte string read as a little-endian integer. -/
def le_value : List Nat → Nat
  | [] => 0
  | x :: l => x + 256 * le_value l

/-- The value of a byte string read as a big-endian integer. -/
def be_value (l : List Nat) : Nat := le_value l.reverse

/-- Multiplication by `x` modulo `x^128 + x^7 + x^2 + x + 1` on the integer whose bit `i`
is the coefficient of `x^i`: shift left by one bit within 128 bits and xor `0x87` when bit
127 was set. -/
def xtime (u : Nat) : Nat := ((u <<< 1) % 2 ^ 128) ^^^ (if u.testBit 127 then 0x87 else 0)

/-- The xor of `x^i * u` over the set bits `i < n` of `v`. -/
def gf_sum : Nat → Nat → Nat → Nat
  | 0, _, _ => 0
  | n + 1, u, v => gf_sum n u v ^^^ (if v.testBit n then xtime^[n] u else 0)

/-! ## Feistel structure shared by the block functions -/

/-- One round on a window of four words with an arbitrary round function `F`. -/
def fstep (F : Nat → Nat) (k : Nat) (w : Nat × Nat × Nat × Nat) : Nat × Nat × Nat × Nat :=
  (w.2.1, w.2.2.1, w.2.2.2, w.1 ^^^ F (w.2.1 ^^^ w.2.2.1 ^^^ w.2.2.2 ^^^ k))

/-- The window in reverse order. -/
def swap4 (w : Nat × Nat × Nat × Nat) : Nat × Nat × Nat × Nat := (w.2.2.2, w.2.2.1, w.2.1, w.1)

/-- The four little-endian words of a block. -/
def loadw (b : List Nat) : Nat × Nat × Nat × Nat := (load32 b 0, load32 b 1, load32 b 2, load32 b 3)

/-- The output block of a final window: the words in reverse order. -/
def storew (w : Nat × Nat × Nat × Nat) : List Nat :=
  store32 w.2.2.2 ++ store32 w.2.2.1 ++ store32 w.2.1 ++ store32 w.1

/-- Lane 0 of each register of a window. -/
def lane0 (w : M128 × M128 × M128 × M128) : Nat × Nat × Nat × Nat :=
  (w.1.l0, w.2.1.l0, w.2.2.1.l0, w.2.2.2.l0)

/-! ## Theorems -/

/-! ### Feistel inversion -/

theorem xor3_rev (b c d : Nat) : d ^^^ c ^^^ b = b ^^^ c ^^^ d := by
  rw [Nat.xor_comm (d ^^^ c) b, Nat.xor_comm d c, Nat.xor_assoc]

theorem fstep_swap (F : Nat → Nat) (k : Nat) (w : Nat × Nat × Nat × Nat) :
    fstep F k (swap4 (fstep F k w)) = swap4 w := by
  obtain ⟨a, b, c, d⟩ := w
  show (d, c, b, (a ^^^ F (b ^^^ c ^^^ d ^^^ k)) ^^^ F (d ^^^ c ^^^ b ^^^ k)) = (d, c, b, a)
  rw [xor3_rev b c d, Nat.xor_cancel_right]

theorem fold_swap (F : Nat → Nat) (ks : List Nat) (w : Nat × Nat × Nat × Nat) :
    ks.reverse.foldl (fun s k => fstep F k s) (swap4 (ks.foldl (fun s k => fstep F k s) w)) =
      swap4 w := by
  induction ks generalizing w with
  | nil => rfl
  | cons k ks ih =>
    simp only [List.foldl_cons, List.reverse_cons, List.foldl_append, List.foldl_nil]
    rw [ih, fstep_swap]

theorem fold_bound (F : Nat → Nat) (hF : ∀ x, F x < 2 ^ 32) (ks : List Nat)
    (w : Nat × Nat × Nat × Nat)
    (hw : w.1 < 2 ^ 32 ∧ w.2.1 < 2 ^ 32 ∧ w.2.2.1 < 2 ^ 32 ∧ w.2.2.2 < 2 ^ 32) :
    (ks.foldl (fun s k => fstep F k s) w).1 < 2 ^ 32 ∧
      (ks.foldl (fun s k => fstep F k s) w).2.1 < 2 ^ 32 ∧
      (ks.foldl (fun s k => fstep F k s) w).2.2.1 < 2 ^ 32 ∧
      (ks.foldl (fun s k => fstep F k s) w).2.2.2 < 2 ^ 32 := by
  induction ks generalizing w with
  | nil => exact hw
  | cons k ks ih =>
    simp only [List.foldl_cons]
    apply ih
    obtain ⟨h0, h1, h2, h3⟩ := hw
    exact ⟨h1, h2, h3, Nat.xor_lt_two_pow h0 (hF _)⟩

theorem load32_lt (b : List Nat) (k : Nat) : load32 b k < 2 ^ 32 := by
  unfold load32
  omega

theorem loadw_storew (w : Nat × Nat × Nat × Nat)
    (hw : w.1 < 2 ^ 32 ∧ w.2.1 < 2 ^ 32 ∧ w.2.2.1 < 2 ^ 32 ∧ w.2.2.2 < 2 ^ 32) :
    loadw (storew w) = swap4 w := by
  obtain ⟨a, b, c, d⟩ := w
  obtain ⟨ha, hb, hc, hd⟩ := hw
  simp only at ha hb hc hd
  simp only [loadw, storew, store32, load32, swap4, List.cons_append, List.nil_append,
    List.getD_cons_succ, List.getD_cons_zero, Prod.mk.injEq, Nat.mul_zero, Nat.mul_one,
    Nat.zero_add, Nat.reduceMul, Nat.reduceAdd]
  refine ⟨?_, ?_, ?_, ?_⟩ <;> omega

theorem block16_cases (P : List Nat) (h : P.length = 16) :
    ∃ a0 a1 a2 a3 a4 a5 a6 a7 a8 a9 a10 a11 a12 a13 a14 a15,
      P = [a0, a1, a2, a3, a4, a5, a6, a7, a8, a9, a10, a11, a12, a13, a14, a15] := by
  match P, h with
  | [a0, a1, a2, a3, a4, a5, a6, a7, a8, a9, a10, a11, a12, a13, a14, a15], _ =>
    exact ⟨a0, a1, a2, a3, a4, a5, a6, a7, a8, a9, a10, a11, a12, a13, a14, a15, rfl⟩

theorem storew_loadw (P : List Nat) (hP : IsBlock P) : storew (swap4 (loadw P)) = P := by
  obtain ⟨hl, hb⟩ := hP
  obtain ⟨a0, a1, a2, a3, a4, a5, a6, a7, a8, a9, a10, a11, a12, a13, a14, a15, rfl⟩ :=
    block16_cases P hl
  simp only [List.mem_cons, List.mem_singleton, forall_eq_or_imp, forall_eq, List.not_mem_nil,
    IsEmpty.forall_iff, implies_true, and_true] at hb
  simp only [loadw, storew, store32, load32, swap4, List.cons_append, List.nil_append,
    List.getD_cons_succ, List.getD_cons_zero, List.cons.injEq, and_true, Nat.mul_zero,
    Nat.mul_one, Nat.zero_add, Nat.reduceMul, Nat.reduceAdd]
  omega

theorem feistel_round_trip (F : Nat → Nat) (hF : ∀ x, F x < 2 ^ 32) (ks P : List Nat)
    (hP : IsBlock P) :
    storew (ks.reverse.foldl (fun s k => fstep F k s)
      (loadw (storew (ks.foldl (fun s k => fstep F k s) (loadw P))))) = P := by
  have hb := fold_bound F hF ks (loadw P)
    ⟨load32_lt P 0, load32_lt P 1, load32_lt P 2, load32_lt P 3⟩
  rw [loadw_storew _ hb, fold_swap, storew_loadw P hP]

theorem store32_block (a b c d : Nat) : IsBlock (store32 a ++ store32 b ++ store32 c ++ store32 d) := by
  refine ⟨rfl, ?_⟩
  intro x hx
  simp only [store32, List.cons_append, List.nil_append, List.mem_cons, List.mem_singleton,
    List.not_mem_nil, or_false] at hx
  omega

theorem range_map_getD (l : List Nat) (n : Nat) (h : l.length = n) :
    (List.range n).map (fun i => l.getD i 0) = l := by
  apply List.ext_getElem
  · simp [h]
  · intro i h1 h2
    simp only [List.getElem_map, List.getElem_range]
    rw [List.getD_eq_getElem _ _ h2]

set_option maxRecDepth 100000 in
theorem sm4_sbox_lt (x : Nat) : sm4_sbox x < 256 := by
  unfold sm4_sbox
  by_cases h : x < Sbox.length
  · rw [List.getD_eq_getElem _ _ h]
    have hall : ∀ y ∈ Sbox, y < 256 := by decide
    exact hall _ (List.getElem_mem h)
  · rw [List.getD_eq_default _ _ (Nat.le_of_not_lt h)]
    decide

theorem rot_lt (x n m : Nat) (hx : x < 2 ^ 32) : ((x <<< n) % 2 ^ 32) ||| (x >>> m) < 2 ^ 32 := by
  apply Nat.or_lt_two_pow
  · exact Nat.mod_lt _ (by decide)
  · rw [Nat.shiftRight_eq_div_pow]
    exact lt_of_le_of_lt (Nat.div_le_self _ _) hx

theorem sm4_L_lt (x : Nat) (hx : x < 2 ^ 32) : sm4_L x < 2 ^ 32 := by
  unfold sm4_L
  exact Nat.xor_lt_two_pow (Nat.xor_lt_two_pow (Nat.xor_lt_two_pow (Nat.xor_lt_two_pow hx
    (rot_lt x 2 30 hx)) (rot_lt x 10 22 hx)) (rot_lt x 18 14 hx)) (rot_lt x 24 8 hx)

theorem sm4_T_lt (x : Nat) : sm4_T x < 2 ^ 32 := by
  apply sm4_L_lt
  unfold sub_bytes
  have h0 := sm4_sbox_lt (x % 256)
  have h1 := sm4_sbox_lt (x / 2 ^ 8 % 256)
  have h2 := sm4_sbox_lt (x / 2 ^ 16 % 256)
  have h3 := sm4_sbox_lt (x / 2 ^ 24 % 256)
  omega

theorem round_loop_eq (rk : List Nat) (w : Nat × Nat × Nat × Nat) :
    round_loop rk w =
      ((List.range 32).map (fun i => rk.getD i 0)).foldl (fun s k => fstep sm4_T k s) w := by
  unfold round_loop
  rw [List.foldl_map]
  rfl

theorem sm4_encrypt_block_eq (key input rk : List Nat) (h : rk.length = 32) :
    sm4_encrypt_block key input rk =
      storew (rk.foldl (fun s k => fstep sm4_T k s) (loadw input)) := by
  have h1 : sm4_encrypt_block key input rk = storew (round_loop rk (loadw input)) := rfl
  rw [h1, round_loop_eq, range_map_getD rk 32 h]

theorem sm4_encrypt_block_inv (key key' rk P : List Nat) (hrk : rk.length = 32)
    (hP : IsBlock P) :
    sm4_encrypt_block key' (sm4_encrypt_block key P rk) rk.reverse = P := by
  rw [sm4_encrypt_block_eq key P rk hrk,
    sm4_encrypt_block_eq key' _ rk.reverse (by simpa using hrk)]
  exact feistel_round_trip sm4_T sm4_T_lt rk P hP

theorem sm4_encrypt_block_isBlock (key input rk : List Nat) :
    IsBlock (sm4_encrypt_block key input rk) :=
  store32_block _ _ _ _

/-! ### Lane 0 of the SIMD block functions -/

theorem lane0_round_step (tf : M128 → M128) (f : Nat → Nat) (h : ∀ t, (tf t).l0 = f t.l0)
    (rk : M128) (w : M128 × M128 × M128 × M128) :
    lane0 (round_step_simd tf rk w) = fstep f rk.l0 (lane0 w) := by
  obtain ⟨a, b, c, d⟩ := w
  simp only [lane0, round_step_simd, fstep, _mm_xor_si128, h, Nat.xor_assoc]

theorem lane0_fold (tf : M128 → M128) (f : Nat → Nat) (h : ∀ t, (tf t).l0 = f t.l0)
    (rkAt : Nat → M128) (l : List Nat) (w : M128 × M128 × M128 × M128) :
    lane0 (l.foldl (fun s i => round_step_simd tf (rkAt i) s) w) =
      (l.map (fun i => (rkAt i).l0)).foldl (fun s k => fstep f k s) (lane0 w) := by
  induction l generalizing w with
  | nil => rfl
  | cons i l ih =>
    simp only [List.foldl_cons, List.map_cons]
    rw [ih, lane0_round_step tf f h]

theorem block_simd_eq (tf : M128 → M128) (f : Nat → Nat) (h : ∀ t, (tf t).l0 = f t.l0)
    (rkAt : Nat → M128) (input : List Nat) :
    block_simd tf rkAt input =
      storew (((List.range 32).map (fun i => (rkAt i).l0)).foldl (fun s k => fstep f k s)
        (loadw input)) := by
  have h1 := lane0_fold tf f h rkAt (List.range 32)
    (_mm_cvtsi32_si128 (load32 input 0), _mm_cvtsi32_si128 (load32 input 1),
      _mm_cvtsi32_si128 (load32 input 2), _mm_cvtsi32_si128 (load32 input 3))
  have h2 : lane0 (_mm_cvtsi32_si128 (load32 input 0), _mm_cvtsi32_si128 (load32 input 1),
      _mm_cvtsi32_si128 (load32 input 2), _mm_cvtsi32_si128 (load32 input 3)) = loadw input := rfl
  rw [h2] at h1
  rw [← h1]
  rfl

/-- Lane function of the round transform of `sm4_aesni.c`. -/
theorem tf_ni_lane0 (t : M128) :
    (sm4_L_ni (_mm_shuffle_epi8 sbox_ni t)).l0 =
      (sm4_L_ni (_mm_shuffle_epi8 sbox_ni ⟨t.l0, 0, 0, 0⟩)).l0 := by
  simp only [sm4_L_ni, _mm_shuffle_epi8, _mm_xor_si128, _mm_slli_epi32, _mm_srli_epi32, M128.map]

theorem byte_lt (a : M128) (i : Nat) : a.byte i < 256 := by
  unfold M128.byte
  omega

theorem map_bytes_lt (f : Nat → Nat) (hf : ∀ x, f x < 256) (x : Nat) : map_bytes f x < 2 ^ 32 := by
  unfold map_bytes
  have h0 := hf (x % 256)
  have h1 := hf (x / 2 ^ 8 % 256)
  have h2 := hf (x / 2 ^ 16 % 256)
  have h3 := hf (x / 2 ^ 24 % 256)
  omega

theorem shift_pair_lt (x n m : Nat) (hx : x < 2 ^ 32) :
    ((x <<< n) % 2 ^ 32) ^^^ (x >>> m) < 2 ^ 32 := by
  apply Nat.xor_lt_two_pow
  · exact Nat.mod_lt _ (by decide)
  · rw [Nat.shiftRight_eq_div_pow]
    exact lt_of_le_of_lt (Nat.div_le_self _ _) hx

theorem tf_ni_lt (x : Nat) : (sm4_L_ni (_mm_shuffle_epi8 sbox_ni ⟨x, 0, 0, 0⟩)).l0 < 2 ^ 32 := by
  have hy : map_bytes (fun x => if x &&& 0x80 ≠ 0 then 0 else sbox_ni.byte (x &&& 0x0F)) x
      < 2 ^ 32 := by
    apply map_bytes_lt
    intro y
    split
    · decide
    · exact byte_lt _ _
  exact Nat.xor_lt_two_pow (Nat.xor_lt_two_pow (Nat.xor_lt_two_pow (Nat.xor_lt_two_pow hy
    (shift_pair_lt _ 2 30 hy)) (shift_pair_lt _ 10 22 hy)) (shift_pair_lt _ 18 14 hy))
    (shift_pair_lt _ 24 8 hy)

theorem range32_rev (g : Nat → Nat) :
    (List.range 32).map (fun i => g (31 - i)) = ((List.range 32).map g).reverse := rfl

/-- C5: the byte-shuffle variant round-trips a block: for every key buffer `K` and every
16-byte block `P`, `sm4_decrypt_aesni(K, sm4_encrypt_aesni(K, P)) = P`. -/
theorem aesni_block_round_trip (K P : List Nat) (hP : IsBlock P) :
    sm4_decrypt_aesni K (sm4_encrypt_aesni K P) = P := by
  unfold sm4_decrypt_aesni sm4_encrypt_aesni
  simp only []
  rw [block_simd_eq _ (fun x => (sm4_L_ni (_mm_shuffle_epi8 sbox_ni ⟨x, 0, 0, 0⟩)).l0) tf_ni_lane0,
    block_simd_eq _ (fun x => (sm4_L_ni (_mm_shuffle_epi8 sbox_ni ⟨x, 0, 0, 0⟩)).l0) tf_ni_lane0]
  rw [range32_rev (fun i => ((sm4_key_extension_ni K).getD i ⟨0, 0, 0, 0⟩).l0)]
  exact feistel_round_trip _ tf_ni_lt _ P hP

theorem aesni_block_round_trip_witness :
    IsBlock gmt_key ∧ sm4_decrypt_aesni gmt_key (sm4_encrypt_aesni gmt_key gmt_key) = gmt_key :=
  ⟨by decide, aesni_block_round_trip gmt_key gmt_key (by decide)⟩

/-- C6: scalar decryption is encryption with the reversed schedule. For every array `rk`
of 32 round-key words and every 16-byte block `P`, `sm4_encrypt_block` with the round keys
in reverse order applied to the output of `sm4_encrypt_block` with `rk` returns `P`; and
the block function is a bijection of the set of 16-byte blocks onto itself. -/
theorem scalar_reverse_schedule_inverts (key rk P : List Nat) (hrk : rk.length = 32)
    (hP : IsBlock P) :
    sm4_encrypt_block key (sm4_encrypt_block key P rk) rk.reverse = P ∧
      Set.BijOn (fun b => sm4_encrypt_block key b rk) {b | IsBlock b} {b | IsBlock b} := by
  refine ⟨sm4_encrypt_block_inv key key rk P hrk hP, ?_, ?_, ?_⟩
  · intro b _
    exact sm4_encrypt_block_isBlock key b rk
  · intro a ha b hb hab
    have h1 := sm4_encrypt_block_inv key key rk a hrk ha
    have h2 := sm4_encrypt_block_inv key key rk b hrk hb
    simp only at hab
    rw [← h1, ← h2, hab]
  · intro c hc
    refine ⟨sm4_encrypt_block key c rk.reverse, sm4_encrypt_block_isBlock key c rk.reverse, ?_⟩
    have h := sm4_encrypt_block_inv key key rk.reverse c (by simpa using hrk) hc
    rw [List.reverse_reverse] at h
    exact h

theorem scalar_reverse_schedule_inverts_witness :
    (sm4_key_extension gmt_key).length = 32 ∧ IsBlock gmt_key ∧
      sm4_encrypt_block gmt_key
        (sm4_encrypt_block gmt_key gmt_key (sm4_key_extension gmt_key))
        (sm4_key_extension gmt_key).reverse = gmt_key :=
  ⟨by decide, by decide,
    (scalar_reverse_schedule_inverts gmt_key (sm4_key_extension gmt_key) gmt_key
      (by decide) (by decide)).1⟩

/-! ### Concrete evaluations -/

set_option maxRecDepth 100000 in
/-- C3: on the GM/T 0002-2012 single-block example (key and plaintext
`01 23 45 67 89 AB CD EF FE DC BA 98 76 54 32 10`) `sm4_key_extension` followed by
`sm4_encrypt_block` outputs `87 42 5F 82 79 B1 9D EE 01 D2 DA 2E 64 21 61 3A`, which is not
the published ciphertext `68 1E DF 34 D2 06 96 5E 86 B3 E9 4F 53 6E 42 46`. -/
theorem gmt_vector_output :
    sm4_encrypt_block gmt_key gmt_key (sm4_key_extension gmt_key) =
        [0x87, 0x42, 0x5F, 0x82, 0x79, 0xB1, 0x9D, 0xEE, 0x01, 0xD2, 0xDA, 0x2E, 0x64, 0x21,
          0x61, 0x3A] ∧
      sm4_encrypt_block gmt_key gmt_key (sm4_key_extension gmt_key) ≠ gmt_cipher := by
  decide

set_option maxRecDepth 100000 in
/-- C4: on the GM/T key and block the three variants give three different outputs:
`sm4_encrypt_aesni` gives `C8 28 6D 0E 26 22 30 74 57 1B AF A3 9E 03 6C 67` and
`sm4_encrypt_gfni` gives `7E 1C 61 CC 5A D4 14 99 3F 9D 9B DB 45 2A F8 58`, neither equal
to the output of the scalar `sm4_key_extension` and `sm4_encrypt_block`. -/
theorem simd_variants_differ_on_gmt :
    sm4_encrypt_aesni gmt_key gmt_key =
        [0xC8, 0x28, 0x6D, 0x0E, 0x26, 0x22, 0x30, 0x74, 0x57, 0x1B, 0xAF, 0xA3, 0x9E, 0x03,
          0x6C, 0x67] ∧
      sm4_encrypt_gfni gmt_key gmt_key =
        [0x7E, 0x1C, 0x61, 0xCC, 0x5A, 0xD4, 0x14, 0x99, 0x3F, 0x9D, 0x9B, 0xDB, 0x45, 0x2A,
          0xF8, 0x58] ∧
      sm4_encrypt_aesni gmt_key gmt_key ≠
        sm4_encrypt_block gmt_key gmt_key (sm4_key_extension gmt_key) ∧
      sm4_encrypt_gfni gmt_key gmt_key ≠
        sm4_encrypt_block gmt_key gmt_key (sm4_key_extension gmt_key) := by
  decide

set_option maxRecDepth 100000 in
/-- C7: the block `80 00 .. 00` (the field element 1 in the GCM bit convention) is not a
unit for `gf_mult`: `gf_mult(00 .. 00 01, 80 00 .. 00)` is `80 00 .. 00`, not the operand
`00 .. 00 01`; the unit of `gf_mult` on this operand is the block `00 .. 00 01`. -/
theorem gf_mult_gcm_one :
    gf_mult [0, 0, 0, 0, 0, 0, 0, 0, 0, 0, 0, 0, 0, 0, 0, 1]
        [0x80, 0, 0, 0, 0, 0, 0, 0, 0, 0, 0, 0, 0, 0, 0, 0] =
        [0x80, 0, 0, 0, 0, 0, 0, 0, 0, 0, 0, 0, 0, 0, 0, 0] ∧
      gf_mult [0, 0, 0, 0, 0, 0, 0, 0, 0, 0, 0, 0, 0, 0, 0, 1]
        [0x80, 0, 0, 0, 0, 0, 0, 0, 0, 0, 0, 0, 0, 0, 0, 0] ≠
        [0, 0, 0, 0, 0, 0, 0, 0, 0, 0, 0, 0, 0, 0, 0, 1] ∧
      gf_mult [0x80, 0, 0, 0, 0, 0, 0, 0, 0, 0, 0, 0, 0, 0, 0, 0]
        [0, 0, 0, 0, 0, 0, 0, 0, 0, 0, 0, 0, 0, 0, 0, 1] =
        [0x80, 0, 0, 0, 0, 0, 0, 0, 0, 0, 0, 0, 0, 0, 0, 0] := by
  decide!

/-! ### Buffers: reads after writes -/

theorem getD_set (l : List Nat) (i k v : Nat) :
    (l.set i v).getD k 0 = if i = k ∧ i < l.length then v else l.getD k 0 := by
  simp only [List.getD_eq_getElem?_getD, List.getElem?_set]
  by_cases h : i = k
  · subst h
    by_cases h2 : i < l.length
    · simp [h2]
    · simp [h2, List.getElem?_eq_none (Nat.le_of_not_lt h2)]
  · simp [h]

theorem set_loop_spec (f : Nat → Nat) (off len : Nat) (d : List Nat) (h : off + len ≤ d.length) :
    ((List.range len).foldl (fun dst j => dst.set (off + j) (f j)) d).length = d.length ∧
      ∀ k, ((List.range len).foldl (fun dst j => dst.set (off + j) (f j)) d).getD k 0 =
        if off ≤ k ∧ k < off + len then f (k - off) else d.getD k 0 := by
  induction len with
  | zero =>
    refine ⟨rfl, fun k => ?_⟩
    have : ¬ (off ≤ k ∧ k < off + 0) := by omega
    rw [if_neg this]
    rfl
  | succ n ih =>
    obtain ⟨ihl, ihg⟩ := ih (by omega)
    rw [List.range_succ, List.foldl_append]
    simp only [List.foldl_cons, List.foldl_nil, List.length_set]
    refine ⟨ihl, fun k => ?_⟩
    rw [getD_set, ihg, ihl]
    by_cases h1 : off + n = k
    · subst h1
      have h2 : off + n < d.length := by omega
      have h3 : off ≤ off + n ∧ off + n < off + (n + 1) := by omega
      simp [h2, h3]
    · by_cases h4 : off ≤ k ∧ k < off + n
      · have h5 : off ≤ k ∧ k < off + (n + 1) := by omega
        simp [h1, h4, h5]
      · have h5 : ¬ (off ≤ k ∧ k < off + (n + 1)) := by omega
        simp [h1, h4, h5]

theorem foldl_fst_map {σ τ β : Type} (body : σ × τ → Nat → σ × τ) (g : σ → β → σ)
    (blk : Nat → β) (l : List Nat) (h : ∀ s i, i ∈ l → (body s i).1 = g s.1 (blk i))
    (s : σ × τ) : (l.foldl body s).1 = (l.map blk).foldl g s.1 := by
  induction l generalizing s with
  | nil => rfl
  | cons i l ih =>
    simp only [List.foldl_cons, List.map_cons]
    rw [ih (fun s j hj => h s j (List.mem_cons_of_mem _ hj)), h s i (List.mem_cons_self _ _)]

theorem xor_128_take (a b : List Nat) : xor_128 a b = xor_128 a (b.take 16) := by
  unfold xor_128
  apply List.map_congr_left
  intro i hi
  have hi : i < 16 := List.mem_range.mp hi
  simp only [List.getD_eq_getElem?_getD, List.getElem?_take_of_lt hi]

/-! ### GHASH -/


theorem block_len_eq (n i : Nat) (hi : i < (n + 15) / 16) :
    (if (if i = (n + 15) / 16 - 1 then n % 16 else 16) = 0 then 16
      else (if i = (n + 15) / 16 - 1 then n % 16 else 16)) = min 16 (n - 16 * i) := by
  split_ifs <;> omega

theorem chunk_eq (data : List Nat) (n i : Nat) :
    ((data.take n).drop (16 * i)).take 16 = (data.drop (i * 16)).take (min 16 (n - 16 * i)) := by
  rw [List.drop_take, List.take_take, Nat.mul_comm i 16]

theorem ghash_block_eq (data blk : List Nat) (n i : Nat) (hn : n ≤ data.length)
    (hi : i < (n + 15) / 16) :
    (if min 16 (n - 16 * i) < 16 then
        memset (memcpy blk (data.drop (i * 16)) (min 16 (n - 16 * i))) (min 16 (n - 16 * i)) 0
          (16 - min 16 (n - 16 * i))
      else memcpy blk (data.drop (i * 16)) (min 16 (n - 16 * i))).take 16 =
      pad16 (((data.take n).drop (16 * i)).take 16) := by
  rw [chunk_eq]
  unfold memcpy
  generalize hlen : min 16 (n - 16 * i) = len
  have hc : ((data.drop (i * 16)).take len).length = len := by
    rw [List.length_take, List.length_drop]
    omega
  generalize hcd : (data.drop (i * 16)).take len = c at hc
  have hle : len ≤ 16 := by omega
  unfold pad16
  rw [hc]
  split
  · unfold memset
    rw [List.take_left' hc, List.append_assoc]
    rw [List.take_append_eq_append_take, List.take_append_eq_append_take]
    have h1 : List.take 16 c = c := List.take_of_length_le (by omega)
    have h2 : List.take (16 - c.length) (List.replicate (16 - len) 0) = List.replicate (16 - len) 0 :=
      List.take_of_length_le (by simp [hc])
    have h3 : 16 - c.length - (List.replicate (16 - len) 0).length = 0 := by
      simp [hc]
    rw [h1, h2, h3, List.take_zero, List.append_nil]
  · have h16 : len = 16 := by omega
    subst h16
    rw [List.take_left' hc]
    simp

theorem ghash_loop_fst (H data : List Nat) (n : Nat) (hn : n ≤ data.length)
    (h64 : n + 15 < 2 ^ 64) (s : List Nat × List Nat) :
    (ghash_loop H data n s).1 = absorb_ref H s.1 (data.take n) := by
  unfold ghash_loop absorb_ref blocks16
  have hmod : (n + 15) % 2 ^ 64 = n + 15 := Nat.mod_eq_of_lt h64
  have hlen : (data.take n).length = n := by
    rw [List.length_take]
    omega
  rw [hmod, hlen]
  apply foldl_fst_map
  intro s i hi
  have hi : i < (n + 15) / 16 := List.mem_range.mp hi
  simp only []
  rw [block_len_eq n i hi, xor_128_take, ghash_block_eq data s.2 n i hn hi]

theorem len_block_eq (la lc : Nat) : len_block la lc = len64_be (8 * la) ++ len64_be (8 * lc) := by
  unfold len_block len64_be
  simp only [List.range_succ, List.range_zero, List.nil_append, List.cons_append, List.map_cons,
    List.map_nil, Nat.shiftRight_eq_div_pow, List.cons.injEq, and_true]
  refine ⟨?_, ?_, ?_, ?_, ?_, ?_, ?_, ?_, ?_, ?_, ?_, ?_, ?_, ?_, ?_, ?_⟩ <;> omega

theorem ghash_eq (H aad ct : List Nat) (la lc : Nat) (ha : la ≤ aad.length)
    (hc : lc ≤ ct.length) (ha64 : la + 15 < 2 ^ 64) (hc64 : lc + 15 < 2 ^ 64) :
    ghash H aad la ct lc = ghash_ref H (aad.take la) (ct.take lc) := by
  unfold ghash ghash_ref
  simp only []
  rw [ghash_loop_fst H ct lc hc hc64, ghash_loop_fst H aad la ha ha64, len_block_eq]
  have h1 : (aad.take la).length = la := by rw [List.length_take]; omega
  have h2 : (ct.take lc).length = lc := by rw [List.length_take]; omega
  rw [h1, h2]

/-- C8: `ghash` equals the reference fold. For every `H` and all byte strings `aad` and `ct`
(whose lengths plus 15 fit in `size_t`), `ghash(H, aad, |aad|, ct, |ct|)` is the state
reached from zero by absorbing the zero-padded 16-byte blocks of `aad`, then those of
`ct`, then the block `len64_be(8 |aad|) || len64_be(8 |ct|)`; an empty string has no block
and leaves the state unchanged. -/
theorem ghash_eq_reference_fold (H aad ct : List Nat) (ha : aad.length + 15 < 2 ^ 64)
    (hc : ct.length + 15 < 2 ^ 64) :
    ghash H aad aad.length ct ct.length = ghash_ref H aad ct ∧
      blocks16 [] = [] ∧ ∀ Y, absorb_ref H Y [] = Y := by
  refine ⟨?_, rfl, fun Y => rfl⟩
  have h := ghash_eq H aad ct aad.length ct.length (Nat.le_refl _) (Nat.le_refl _) ha hc
  rwa [List.take_length, List.take_length] at h

theorem ghash_eq_reference_fold_witness :
    main_aad.length + 15 < 2 ^ 64 ∧ main_plaintext.length + 15 < 2 ^ 64 ∧
      ghash gmt_key main_aad main_aad.length main_plaintext main_plaintext.length =
        ghash_ref gmt_key main_aad main_plaintext :=
  ⟨by decide, by decide,
    (ghash_eq_reference_fold gmt_key main_aad main_plaintext (by decide) (by decide)).1⟩

/-! ### The CTR loop -/

theorem ctr_step_spec (key rk src : List Nat) (n : Nat) (h64 : n + 15 < 2 ^ 64)
    (s : List Nat × List Nat) (i : Nat) (hi : i < (n + 15) / 16) (hs : n ≤ s.2.length) :
    (ctr_step key rk src n s i).1 = increment_counter s.1 ∧
      (ctr_step key rk src n s i).2.length = s.2.length ∧
      ∀ k, (ctr_step key rk src n s i).2.getD k 0 =
        if 16 * i ≤ k ∧ k < min n (16 * (i + 1)) then
          src.getD k 0 ^^^
            (sm4_encrypt_block key (increment_counter s.1) rk).getD (k - 16 * i) 0
        else s.2.getD k 0 := by
  unfold ctr_step
  simp only []
  rw [Nat.mod_eq_of_lt h64, block_len_eq n i hi]
  have hb : i * 16 + min 16 (n - 16 * i) ≤ s.2.length := by omega
  obtain ⟨hl, hg⟩ := set_loop_spec
    (fun j => src.getD (i * 16 + j) 0 ^^^
      (sm4_encrypt_block key (increment_counter s.1) rk).getD j 0)
    (i * 16) (min 16 (n - 16 * i)) s.2 hb
  refine ⟨trivial, hl, fun k => ?_⟩
  rw [hg k]
  by_cases h1 : i * 16 ≤ k ∧ k < i * 16 + min 16 (n - 16 * i)
  · have h2 : 16 * i ≤ k ∧ k < min n (16 * (i + 1)) := by omega
    have h3 : i * 16 + (k - i * 16) = k := by omega
    have h4 : k - i * 16 = k - 16 * i := by omega
    rw [if_pos h1, if_pos h2, h3, h4]
  · have h2 : ¬ (16 * i ≤ k ∧ k < min n (16 * (i + 1))) := by omega
    rw [if_neg h1, if_neg h2]

theorem ctr_partial (key rk src : List Nat) (n : Nat) (h64 : n + 15 < 2 ^ 64)
    (c0 dst : List Nat) (hn : n ≤ dst.length) (m : Nat) (hm : m ≤ (n + 15) / 16) :
    ((List.range m).foldl (ctr_step key rk src n) (c0, dst)).1 = increment_counter^[m] c0 ∧
      ((List.range m).foldl (ctr_step key rk src n) (c0, dst)).2.length = dst.length ∧
      ∀ k, ((List.range m).foldl (ctr_step key rk src n) (c0, dst)).2.getD k 0 =
        if k < min n (16 * m) then
          src.getD k 0 ^^^
            (sm4_encrypt_block key (increment_counter^[k / 16 + 1] c0) rk).getD (k % 16) 0
        else dst.getD k 0 := by
  induction m with
  | zero =>
    refine ⟨rfl, rfl, fun k => ?_⟩
    have : ¬ k < min n (16 * 0) := by omega
    rw [if_neg this]
    rfl
  | succ m ih =>
    obtain ⟨ih1, ih2, ih3⟩ := ih (by omega)
    rw [List.range_succ, List.foldl_append]
    simp only [List.foldl_cons, List.foldl_nil]
    generalize (List.range m).foldl (ctr_step key rk src n) (c0, dst) = r at ih1 ih2 ih3
    obtain ⟨s1, s2, s3⟩ := ctr_step_spec key rk src n h64 r m (by omega) (by omega)
    refine ⟨?_, ?_, fun k => ?_⟩
    · rw [s1, ih1, Function.iterate_succ_apply']
    · rw [s2, ih2]
    · rw [s3 k, ih3 k, ih1]
      by_cases h1 : 16 * m ≤ k ∧ k < min n (16 * (m + 1))
      · have h2 : k < min n (16 * (m + 1)) := h1.2
        have h3 : k / 16 = m := by omega
        have h4 : k - 16 * m = k % 16 := by omega
        rw [if_pos h1, if_pos h2, h3, h4, Function.iterate_succ_apply']
      · rw [if_neg h1]
        by_cases h5 : k < min n (16 * m)
        · have h6 : k < min n (16 * (m + 1)) := by omega
          rw [if_pos h5, if_pos h6]
        · have h6 : ¬ k < min n (16 * (m + 1)) := by omega
          rw [if_neg h5, if_neg h6]

theorem ctr_loop_spec (key rk src : List Nat) (n : Nat) (h64 : n + 15 < 2 ^ 64)
    (c0 dst : List Nat) (hn : n ≤ dst.length) :
    (ctr_loop key rk src n (c0, dst)).2.length = dst.length ∧
      ∀ k, (ctr_loop key rk src n (c0, dst)).2.getD k 0 =
        if k < n then
          src.getD k 0 ^^^
            (sm4_encrypt_block key (increment_counter^[k / 16 + 1] c0) rk).getD (k % 16) 0
        else dst.getD k 0 := by
  unfold ctr_loop
  rw [Nat.mod_eq_of_lt h64]
  obtain ⟨_, h2, h3⟩ := ctr_partial key rk src n h64 c0 dst hn ((n + 15) / 16) (Nat.le_refl _)
  refine ⟨h2, fun k => ?_⟩
  rw [h3 k]
  have : min n (16 * ((n + 15) / 16)) = n := by omega
  rw [this]

/-! ### Tag comparison -/

theorem getD_tail (a : List Nat) (i : Nat) : a.tail.getD i 0 = a.getD (i + 1) 0 := by
  cases a <;> rfl

theorem headD_eq (a : List Nat) : a.headD 0 = a.getD 0 0 := by
  cases a <;> rfl

theorem memcmp_eq_zero (a b : List Nat) (n : Nat) :
    memcmp a b n = 0 ↔ ∀ i, i < n → a.getD i 0 = b.getD i 0 := by
  induction n generalizing a b with
  | zero => simp [memcmp]
  | succ n ih =>
    unfold memcmp
    split
    · next heq =>
      rw [ih]
      constructor
      · intro h i hi
        cases i with
        | zero => rw [← headD_eq, ← headD_eq]; exact heq
        | succ j =>
          have := h j (by omega)
          rwa [getD_tail, getD_tail] at this
      · intro h i hi
        rw [getD_tail, getD_tail]
        exact h (i + 1) (by omega)
    · next hne =>
      constructor
      · intro h
        exfalso
        apply hne
        omega
      · intro h
        exfalso
        apply hne
        rw [headD_eq, headD_eq]
        exact h 0 (by omega)

theorem take_eq_iff (a b : List Nat) (n : Nat) (ha : n ≤ a.length) (hb : n ≤ b.length) :
    a.take n = b.take n ↔ ∀ i, i < n → a.getD i 0 = b.getD i 0 := by
  constructor
  · intro h i hi
    have h1 : (a.take n).getD i 0 = (b.take n).getD i 0 := by rw [h]
    simpa only [List.getD_eq_getElem?_getD, List.getElem?_take_of_lt hi] using h1
  · intro h
    apply List.ext_getElem
    · simp [ha, hb]
    · intro i h1 h2
      have hi : i < n := by
        rw [List.length_take] at h1
        omega
      have h3 := h i hi
      rw [List.getD_eq_getElem a 0 (by omega), List.getD_eq_getElem b 0 (by omega)] at h3
      rw [List.getElem_take, List.getElem_take]
      exact h3

theorem xor_128_getD (a b : List Nat) (i : Nat) (hi : i < 16) :
    (xor_128 a b).getD i 0 = a.getD i 0 ^^^ b.getD i 0 := by
  unfold xor_128
  rw [List.getD_eq_getElem _ _ (by simpa using hi)]
  simp

theorem xor_128_length (a b : List Nat) : (xor_128 a b).length = 16 := by
  simp [xor_128]

theorem tag_loop_spec (hash mask tag : List Nat) (tag_len : Nat) (h : tag_len ≤ tag.length) :
    ((List.range tag_len).foldl (fun t i => t.set i (hash.getD i 0 ^^^ mask.getD i 0)) tag).length =
        tag.length ∧
      ∀ k, ((List.range tag_len).foldl
          (fun t i => t.set i (hash.getD i 0 ^^^ mask.getD i 0)) tag).getD k 0 =
        if k < tag_len then hash.getD k 0 ^^^ mask.getD k 0 else tag.getD k 0 := by
  have h0 := set_loop_spec (fun j => hash.getD j 0 ^^^ mask.getD j 0) 0 tag_len tag (by omega)
  simp only [Nat.zero_add, Nat.zero_le, true_and, Nat.sub_zero] at h0
  exact h0

theorem encrypt_unfold (key iv aad P ct0 tag0 : List Nat) (aad_len n tag_len : Nat)
    (ht : 1 ≤ tag_len ∧ tag_len ≤ 16) :
    sm4_gcm_encrypt (some key) (some iv) 12 aad aad_len (some P) n (some ct0) (some tag0)
        tag_len =
      (0,
        some (ctr_loop key (sm4_key_extension key) P n (initial_counter iv, ct0)).2,
        some ((List.range tag_len).foldl
          (fun t i => t.set i
            ((ghash (hash_subkey key) aad aad_len
                (ctr_loop key (sm4_key_extension key) P n (initial_counter iv, ct0)).2
                n).getD i 0 ^^^
              (E_K key (initial_counter iv)).getD i 0))
          tag0)) := by
  unfold sm4_gcm_encrypt
  simp only []
  rw [if_neg (by omega), if_neg (by decide)]
  rfl

theorem decrypt_unfold (key iv aad C T pt0 : List Nat) (aad_len n tag_len : Nat)
    (ht : 1 ≤ tag_len ∧ tag_len ≤ 16) :
    sm4_gcm_decrypt (some key) (some iv) 12 aad aad_len (some C) n (some T) tag_len (some pt0) =
      if memcmp (xor_128 (ghash (hash_subkey key) aad aad_len C n) (E_K key (initial_counter iv)))
          T tag_len ≠ 0 then (-1, some pt0)
      else (0, some (ctr_loop key (sm4_key_extension key) C n (initial_counter iv, pt0)).2) := by
  unfold sm4_gcm_decrypt
  simp only []
  rw [if_neg (by omega), if_neg (by decide)]
  rfl

/-! ### The counter -/

theorem list12_cases (l : List Nat) (h : l.length = 12) :
    ∃ a0 a1 a2 a3 a4 a5 a6 a7 a8 a9 a10 a11,
      l = [a0, a1, a2, a3, a4, a5, a6, a7, a8, a9, a10, a11] := by
  match l, h with
  | [a0, a1, a2, a3, a4, a5, a6, a7, a8, a9, a10, a11], _ =>
    exact ⟨a0, a1, a2, a3, a4, a5, a6, a7, a8, a9, a10, a11, rfl⟩

theorem initial_counter_eq (iv : List Nat) (h : iv.length = 12) :
    initial_counter iv = iv ++ [0, 0, 0, 1] := by
  obtain ⟨a0, a1, a2, a3, a4, a5, a6, a7, a8, a9, a10, a11, rfl⟩ := list12_cases iv h
  rfl

theorem increment_counter_from_succ (i : Nat) (c : List Nat) :
    increment_counter_from (i + 1) c =
      if (c.getD i 0 + 1) % 256 ≠ 0 then c.set i ((c.getD i 0 + 1) % 256)
      else increment_counter_from i (c.set i ((c.getD i 0 + 1) % 256)) := rfl

theorem increment_counter_step (iv : List Nat) (h : iv.length = 12) (x : Nat)
    (hx : x + 1 < 2 ^ 32) :
    increment_counter (iv ++ [x / 2 ^ 24 % 256, x / 2 ^ 16 % 256, x / 2 ^ 8 % 256, x % 256]) =
      iv ++ [(x + 1) / 2 ^ 24 % 256, (x + 1) / 2 ^ 16 % 256, (x + 1) / 2 ^ 8 % 256,
        (x + 1) % 256] := by
  obtain ⟨a0, a1, a2, a3, a4, a5, a6, a7, a8, a9, a10, a11, rfl⟩ := list12_cases iv h
  have e : ∀ c, increment_counter c = increment_counter_from (15 + 1) c := fun _ => rfl
  rw [e, increment_counter_from_succ]
  simp only [List.cons_append, List.nil_append, List.getD_cons_succ, List.getD_cons_zero,
    List.set_cons_succ, List.set_cons_zero]
  by_cases h15 : (x % 256 + 1) % 256 ≠ 0
  · rw [if_pos h15]
    simp only [List.cons.injEq, true_and, and_true]
    omega
  rw [if_neg h15, increment_counter_from_succ 14]
  simp only [List.getD_cons_succ, List.getD_cons_zero, List.set_cons_succ, List.set_cons_zero]
  by_cases h14 : (x / 2 ^ 8 % 256 + 1) % 256 ≠ 0
  · rw [if_pos h14]
    simp only [List.cons.injEq, true_and, and_true]
    omega
  rw [if_neg h14, increment_counter_from_succ 13]
  simp only [List.getD_cons_succ, List.getD_cons_zero, List.set_cons_succ, List.set_cons_zero]
  by_cases h13 : (x / 2 ^ 16 % 256 + 1) % 256 ≠ 0
  · rw [if_pos h13]
    simp only [List.cons.injEq, true_and, and_true]
    omega
  rw [if_neg h13, increment_counter_from_succ 12]
  simp only [List.getD_cons_succ, List.getD_cons_zero, List.set_cons_succ, List.set_cons_zero]
  by_cases h12 : (x / 2 ^ 24 % 256 + 1) % 256 ≠ 0
  · rw [if_pos h12]
    simp only [List.cons.injEq, true_and, and_true]
    omega
  exfalso
  omega

theorem increment_counter_iter (iv : List Nat) (h : iv.length = 12) (x m : Nat)
    (hx : x + m < 2 ^ 32) :
    increment_counter^[m]
        (iv ++ [x / 2 ^ 24 % 256, x / 2 ^ 16 % 256, x / 2 ^ 8 % 256, x % 256]) =
      iv ++ [(x + m) / 2 ^ 24 % 256, (x + m) / 2 ^ 16 % 256, (x + m) / 2 ^ 8 % 256,
        (x + m) % 256] := by
  induction m with
  | zero => rfl
  | succ m ih =>
    rw [Function.iterate_succ_apply', ih (by omega), increment_counter_step iv h (x + m) (by omega)]
    rfl

theorem inc32_J0 (iv : List Nat) (h : iv.length = 12) (i : Nat) (hi : 1 + i < 2 ^ 32) :
    inc32 (iv ++ [0, 0, 0, 1]) i =
      iv ++ [(1 + i) / 2 ^ 24 % 256, (1 + i) / 2 ^ 16 % 256, (1 + i) / 2 ^ 8 % 256,
        (1 + i) % 256] := by
  obtain ⟨a0, a1, a2, a3, a4, a5, a6, a7, a8, a9, a10, a11, rfl⟩ := list12_cases iv h
  unfold inc32
  simp only [List.cons_append, List.nil_append, List.getD_cons_succ, List.getD_cons_zero,
    List.take_succ_cons, List.take_zero, Nat.zero_mul, Nat.zero_add, Nat.mod_eq_of_lt hi]

theorem counter_iter_eq_inc32 (iv : List Nat) (h : iv.length = 12) (i : Nat)
    (hi : 1 + i < 2 ^ 32) :
    increment_counter^[i] (initial_counter iv) = inc32 (iv ++ [0, 0, 0, 1]) i := by
  rw [inc32_J0 iv h i hi, initial_counter_eq iv h]
  exact increment_counter_iter iv h 1 i hi

theorem inc32_ne_J0 (iv : List Nat) (h : iv.length = 12) (i : Nat) (h1 : 1 ≤ i)
    (h2 : i ≤ 2 ^ 32 - 2) : inc32 (iv ++ [0, 0, 0, 1]) i ≠ iv ++ [0, 0, 0, 1] := by
  rw [inc32_J0 iv h i (by omega)]
  intro heq
  have h3 := List.append_cancel_left heq
  simp only [List.cons.injEq, and_true] at h3
  omega

theorem inc32_J0_isBlock (iv : List Nat) (h : iv.length = 12) (hb : ∀ b ∈ iv, b < 256) (i : Nat)
    (hi : 1 + i < 2 ^ 32) : IsBlock (inc32 (iv ++ [0, 0, 0, 1]) i) := by
  rw [inc32_J0 iv h i hi]
  refine ⟨by simp [h], ?_⟩
  intro x hx
  rw [List.mem_append] at hx
  rcases hx with hx | hx
  · exact hb x hx
  · simp only [List.mem_cons, List.mem_singleton, List.not_mem_nil, or_false] at hx
    omega

theorem J0_isBlock (iv : List Nat) (h : iv.length = 12) (hb : ∀ b ∈ iv, b < 256) :
    IsBlock (iv ++ [0, 0, 0, 1]) := by
  refine ⟨by simp [h], ?_⟩
  intro x hx
  rw [List.mem_append] at hx
  rcases hx with hx | hx
  · exact hb x hx
  · simp only [List.mem_cons, List.mem_singleton, List.not_mem_nil, or_false] at hx
    omega

theorem key_fold_length (l : List Nat) (s : (Nat × Nat × Nat × Nat) × List Nat) :
    (l.foldl
      (fun (s : (Nat × Nat × Nat × Nat) × List Nat) i =>
        ((key_step (CK.getD i 0) s.1), s.2 ++ [(key_step (CK.getD i 0) s.1).2.2.2])) s).2.length =
      s.2.length + l.length := by
  induction l generalizing s with
  | nil => rfl
  | cons i l ih =>
    simp only [List.foldl_cons]
    rw [ih]
    simp only [List.length_append, List.length_cons, List.length_nil]
    omega

theorem sm4_key_extension_length (key : List Nat) : (sm4_key_extension key).length = 32 := by
  unfold sm4_key_extension key_loop
  exact key_fold_length (List.range 32) _

/-! ### The one-shot AEAD -/

theorem ghash_take (H aad C : List Nat) (la n : Nat) (hn : n ≤ C.length)
    (h64 : n + 15 < 2 ^ 64) : ghash H aad la C n = ghash H aad la (C.take n) n := by
  unfold ghash
  simp only []
  rw [ghash_loop_fst H C n hn h64,
    ghash_loop_fst H (C.take n) n (by rw [List.length_take]; omega) h64, List.take_take,
    Nat.min_self]

theorem tag_take (hash mask tag0 : List Nat) (tag_len : Nat) (ht : tag_len ≤ 16)
    (htag : tag_len ≤ tag0.length) :
    ((List.range tag_len).foldl
        (fun t i => t.set i (hash.getD i 0 ^^^ mask.getD i 0)) tag0).take tag_len =
      (xor_128 hash mask).take tag_len := by
  obtain ⟨htl, htg⟩ := tag_loop_spec hash mask tag0 tag_len htag
  rw [take_eq_iff _ _ _ (by omega) (by rw [xor_128_length]; exact ht)]
  intro i hi
  rw [htg i, if_pos hi, xor_128_getD _ _ i (by omega)]

/-- C1: one-shot AEAD round trip. For every key, IV, AAD, plaintext `P` and `tag_len` in
1..16 (buffers large enough for their declared lengths), `sm4_gcm_encrypt` returns 0 with
outputs `(C, T)`, and `sm4_gcm_decrypt` on `(C, T)` with the same key, IV and AAD returns 0
and leaves the plaintext buffer with its first `|P|` bytes equal to `P`. -/
theorem gcm_round_trip (key iv aad P ct0 tag0 pt0 : List Nat) (aad_len tag_len : Nat)
    (ht : 1 ≤ tag_len ∧ tag_len ≤ 16) (hP : P.length + 15 < 2 ^ 64)
    (hct : P.length ≤ ct0.length) (htag : tag_len ≤ tag0.length)
    (hpt : P.length ≤ pt0.length) :
    ∃ C T,
      sm4_gcm_encrypt (some key) (some iv) 12 aad aad_len (some P) P.length (some ct0)
          (some tag0) tag_len = (0, some C, some T) ∧
        ∃ D,
          sm4_gcm_decrypt (some key) (some iv) 12 aad aad_len (some C) P.length (some T)
              tag_len (some pt0) = (0, some D) ∧
            D.length = pt0.length ∧ D.take P.length = P := by
  refine ⟨_, _, encrypt_unfold key iv aad P ct0 tag0 aad_len P.length tag_len ht, ?_⟩
  rw [decrypt_unfold _ _ _ _ _ _ _ _ _ ht]
  obtain ⟨hcl, hcg⟩ := ctr_loop_spec key (sm4_key_extension key) P P.length hP
    (initial_counter iv) ct0 hct
  generalize (ctr_loop key (sm4_key_extension key) P P.length (initial_counter iv, ct0)).2 = C
    at hcl hcg ⊢
  obtain ⟨_, htg⟩ := tag_loop_spec (ghash (hash_subkey key) aad aad_len C P.length)
    (E_K key (initial_counter iv)) tag0 tag_len htag
  have hm : memcmp
      (xor_128 (ghash (hash_subkey key) aad aad_len C P.length) (E_K key (initial_counter iv)))
      ((List.range tag_len).foldl
        (fun t i => t.set i
          ((ghash (hash_subkey key) aad aad_len C P.length).getD i 0 ^^^
            (E_K key (initial_counter iv)).getD i 0))
        tag0) tag_len = 0 := by
    rw [memcmp_eq_zero]
    intro i hi
    rw [xor_128_getD _ _ i (by omega), htg i, if_pos hi]
  rw [if_neg (by rw [hm]; exact fun h => h rfl)]
  obtain ⟨hdl, hdg⟩ := ctr_loop_spec key (sm4_key_extension key) C P.length hP
    (initial_counter iv) pt0 hpt
  refine ⟨_, rfl, hdl, ?_⟩
  have h1 := (take_eq_iff
    (ctr_loop key (sm4_key_extension key) C P.length (initial_counter iv, pt0)).2 P P.length
    (by omega) (Nat.le_refl _)).2 (fun i hi => by
      rw [hdg i, if_pos hi, hcg i, if_pos hi, Nat.xor_cancel_right])
  rwa [List.take_length] at h1

theorem gcm_round_trip_witness :
    ∃ C T,
      sm4_gcm_encrypt (some gmt_key) (some main_iv) 12 main_aad 8 (some main_plaintext)
          main_plaintext.length (some (List.replicate 32 0)) (some (List.replicate 16 0)) 16 =
          (0, some C, some T) ∧
        ∃ D,
          sm4_gcm_decrypt (some gmt_key) (some main_iv) 12 main_aad 8 (some C)
              main_plaintext.length (some T) 16 (some (List.replicate 32 0)) = (0, some D) ∧
            D.length = (List.replicate 32 0).length ∧ D.take main_plaintext.length = main_plaintext :=
  gcm_round_trip gmt_key main_iv main_aad main_plaintext (List.replicate 32 0)
    (List.replicate 16 0) (List.replicate 32 0) 8 16 (by decide) (by decide) (by decide)
    (by decide) (by decide)

/-- C2: verify before reveal. For every key, 12-byte IV, AAD, ciphertext `C`, tag `T` and
`tag_len` in 1..16, `sm4_gcm_decrypt` returns 0 if and only if the first `tag_len` bytes of
`T` equal the first `tag_len` bytes of `GHASH_H(AAD, C) xor E_K(IV || 00000001)`; when they
differ it returns -1 and the plaintext buffer is exactly as before the call. -/
theorem gcm_decrypt_verifies_first (key iv aad C T pt0 : List Nat) (tag_len : Nat)
    (ht : 1 ≤ tag_len ∧ tag_len ≤ 16) (hiv : iv.length = 12) (hT : tag_len ≤ T.length) :
    ((sm4_gcm_decrypt (some key) (some iv) 12 aad aad.length (some C) C.length (some T) tag_len
          (some pt0)).1 = 0 ↔
        T.take tag_len =
          (xor_128 (ghash (hash_subkey key) aad aad.length C C.length) (E_K key (J0 iv))).take
            tag_len) ∧
      (T.take tag_len ≠
          (xor_128 (ghash (hash_subkey key) aad aad.length C C.length) (E_K key (J0 iv))).take
            tag_len →
        sm4_gcm_decrypt (some key) (some iv) 12 aad aad.length (some C) C.length (some T)
          tag_len (some pt0) = (-1, some pt0)) := by
  rw [decrypt_unfold _ _ _ _ _ _ _ _ _ ht, initial_counter_eq iv hiv]
  have hX := xor_128_length (ghash (hash_subkey key) aad aad.length C C.length)
    (E_K key (J0 iv))
  unfold J0 at hX ⊢
  generalize xor_128 (ghash (hash_subkey key) aad aad.length C C.length)
    (E_K key (iv ++ [0, 0, 0, 1])) = X at hX ⊢
  have hiff : memcmp X T tag_len = 0 ↔ T.take tag_len = X.take tag_len := by
    rw [memcmp_eq_zero, take_eq_iff T X tag_len hT (by omega)]
    constructor <;> intro h i hi <;> exact (h i hi).symm
  by_cases hm : memcmp X T tag_len = 0
  · rw [if_neg (not_not.mpr hm)]
    exact ⟨⟨fun _ => hiff.1 hm, fun _ => rfl⟩, fun hne => absurd (hiff.1 hm) hne⟩
  · rw [if_pos hm]
    exact ⟨⟨fun h => absurd (show (-1 : Int) = 0 from h) (by decide),
      fun h => absurd (hiff.2 h) hm⟩, fun _ => rfl⟩

theorem gcm_decrypt_verifies_first_witness :
    ((sm4_gcm_decrypt (some gmt_key) (some main_iv) 12 main_aad main_aad.length
          (some main_plaintext) main_plaintext.length (some (List.replicate 16 0)) 16
          (some (List.replicate 32 7))).1 = 0 ↔
        (List.replicate 16 0).take 16 =
          (xor_128
            (ghash (hash_subkey gmt_key) main_aad main_aad.length main_plaintext
              main_plaintext.length)
            (E_K gmt_key (J0 main_iv))).take 16) ∧
      ((List.replicate 16 0).take 16 ≠
          (xor_128
            (ghash (hash_subkey gmt_key) main_aad main_aad.length main_plaintext
              main_plaintext.length)
            (E_K gmt_key (J0 main_iv))).take 16 →
        sm4_gcm_decrypt (some gmt_key) (some main_iv) 12 main_aad main_aad.length
          (some main_plaintext) main_plaintext.length (some (List.replicate 16 0)) 16
          (some (List.replicate 32 7)) = (-1, some (List.replicate 32 7))) :=
  gcm_decrypt_verifies_first gmt_key main_iv main_aad main_plaintext (List.replicate 16 0)
    (List.replicate 32 7) 16 (by decide) (by decide) (by decide)

/-- C9: tag derivation. For every key, 12-byte IV, AAD, plaintext and `tag_len` in 1..16,
`sm4_gcm_encrypt` returns 0 and the first `tag_len` bytes of the tag buffer are the first
`tag_len` bytes of `ghash(H, AAD, C) xor E_K(J0)`, with `H = E_K(0^128)`,
`J0 = IV || 00 00 00 01` and `C` the `|P|` ciphertext bytes the same call produced; and
the call with `tag_len = 16` produces the same ciphertext and a tag of which this tag is
a leading part. -/
theorem gcm_tag_derivation (key iv aad P ct0 tag0 : List Nat) (tag_len : Nat)
    (ht : 1 ≤ tag_len ∧ tag_len ≤ 16) (hiv : iv.length = 12) (hP : P.length + 15 < 2 ^ 64)
    (hct : P.length ≤ ct0.length) (htag : tag_len ≤ tag0.length) :
    ∃ C T,
      sm4_gcm_encrypt (some key) (some iv) 12 aad aad.length (some P) P.length (some ct0)
          (some tag0) tag_len = (0, some C, some T) ∧
        T.take tag_len =
          (xor_128 (ghash (hash_subkey key) aad aad.length (C.take P.length) P.length)
            (E_K key (J0 iv))).take tag_len ∧
        ∀ tag16 : List Nat, 16 ≤ tag16.length →
          ∃ T16,
            sm4_gcm_encrypt (some key) (some iv) 12 aad aad.length (some P) P.length (some ct0)
                (some tag16) 16 = (0, some C, some T16) ∧
              T.take tag_len = (T16.take 16).take tag_len := by
  refine ⟨_, _, encrypt_unfold key iv aad P ct0 tag0 aad.length P.length tag_len ht, ?_, ?_⟩
  · obtain ⟨hcl, _⟩ := ctr_loop_spec key (sm4_key_extension key) P P.length hP
      (initial_counter iv) ct0 hct
    rw [tag_take _ _ _ _ ht.2 htag, ← ghash_take _ _ _ _ _ (by omega) hP, J0,
      initial_counter_eq iv hiv]
  · intro tag16 h16
    refine ⟨_, encrypt_unfold key iv aad P ct0 tag16 aad.length P.length 16 (by omega), ?_⟩
    rw [tag_take _ _ _ _ ht.2 htag, tag_take _ _ _ _ (Nat.le_refl _) h16, List.take_take,
      Nat.min_eq_left ht.2]

theorem gcm_tag_derivation_witness :
    ∃ C T,
      sm4_gcm_encrypt (some gmt_key) (some main_iv) 12 main_aad main_aad.length
          (some main_plaintext) main_plaintext.length (some (List.replicate 32 0))
          (some (List.replicate 16 0)) 5 = (0, some C, some T) ∧
        T.take 5 =
          (xor_128
            (ghash (hash_subkey gmt_key) main_aad main_aad.length (C.take main_plaintext.length)
              main_plaintext.length)
            (E_K gmt_key (J0 main_iv))).take 5 ∧
        ∀ tag16 : List Nat, 16 ≤ tag16.length →
          ∃ T16,
            sm4_gcm_encrypt (some gmt_key) (some main_iv) 12 main_aad main_aad.length
                (some main_plaintext) main_plaintext.length (some (List.replicate 32 0))
                (some tag16) 16 = (0, some C, some T16) ∧
              T.take 5 = (T16.take 16).take 5 :=
  gcm_tag_derivation gmt_key main_iv main_aad main_plaintext (List.replicate 32 0)
    (List.replicate 16 0) 5 (by decide) (by decide) (by decide) (by decide) (by decide)

theorem E_K_injective (key a b : List Nat) (ha : IsBlock a) (hb : IsBlock b)
    (h : E_K key a = E_K key b) : a = b := by
  have h1 := sm4_encrypt_block_inv key key (sm4_key_extension key) a
    (sm4_key_extension_length key) ha
  have h2 := sm4_encrypt_block_inv key key (sm4_key_extension key) b
    (sm4_key_extension_length key) hb
  unfold E_K at h
  rw [← h1, ← h2, h]

/-- C10: CTR encryption. For every key, 12-byte IV and plaintext `P` of at most
`2^32 - 2` blocks, `sm4_gcm_encrypt` returns 0, writes exactly the first `|P|` bytes of the
ciphertext buffer (its length and its other bytes are unchanged), and for every `k < |P|`,
`C[k] = P[k] xor S_i[k mod 16]` with `i = k / 16 + 1` and `S_i = E_K(inc32(J0, i))`,
`J0 = IV || 00000001`; no counter block used for the keystream is `J0`, and no keystream
block is `E_K(J0)`. -/
theorem gcm_ctr_keystream (key iv aad P ct0 tag0 : List Nat) (aad_len tag_len : Nat)
    (ht : 1 ≤ tag_len ∧ tag_len ≤ 16) (hiv : iv.length = 12)
    (hP : (P.length + 15) / 16 ≤ 2 ^ 32 - 2) (hct : P.length ≤ ct0.length) :
    ∃ C T,
      sm4_gcm_encrypt (some key) (some iv) 12 aad aad_len (some P) P.length (some ct0)
          (some tag0) tag_len = (0, some C, some T) ∧
        C.length = ct0.length ∧
        (∀ k, k < P.length →
          C.getD k 0 =
            P.getD k 0 ^^^ (E_K key (inc32 (J0 iv) (k / 16 + 1))).getD (k % 16) 0) ∧
        (∀ k, P.length ≤ k → C.getD k 0 = ct0.getD k 0) ∧
        (∀ i, 1 ≤ i → i ≤ 2 ^ 32 - 2 → inc32 (J0 iv) i ≠ J0 iv) ∧
        ((∀ b ∈ iv, b < 256) →
          ∀ i, 1 ≤ i → i ≤ 2 ^ 32 - 2 → E_K key (inc32 (J0 iv) i) ≠ E_K key (J0 iv)) := by
  have h64 : P.length + 15 < 2 ^ 64 := by omega
  obtain ⟨hcl, hcg⟩ := ctr_loop_spec key (sm4_key_extension key) P P.length h64
    (initial_counter iv) ct0 hct
  refine ⟨_, _, encrypt_unfold key iv aad P ct0 tag0 aad_len P.length tag_len ht, hcl, ?_, ?_,
    ?_, ?_⟩
  · intro k hk
    rw [hcg k, if_pos hk, counter_iter_eq_inc32 iv hiv (k / 16 + 1) (by omega)]
    rfl
  · intro k hk
    rw [hcg k, if_neg (by omega)]
  · intro i h1 h2
    exact inc32_ne_J0 iv hiv i h1 h2
  · intro hb i h1 h2 heq
    exact inc32_ne_J0 iv hiv i h1 h2
      (E_K_injective key _ _ (inc32_J0_isBlock iv hiv hb i (by omega)) (J0_isBlock iv hiv hb) heq)

theorem gcm_ctr_keystream_witness :
    ∃ C T,
      sm4_gcm_encrypt (some gmt_key) (some main_iv) 12 main_aad 8 (some main_plaintext)
          main_plaintext.length (some (List.replicate 32 0)) (some (List.replicate 16 0)) 16 =
          (0, some C, some T) ∧
        C.length = (List.replicate 32 0).length ∧
        (∀ k, k < main_plaintext.length →
          C.getD k 0 =
            main_plaintext.getD k 0 ^^^
              (E_K gmt_key (inc32 (J0 main_iv) (k / 16 + 1))).getD (k % 16) 0) ∧
        (∀ k, main_plaintext.length ≤ k → C.getD k 0 = (List.replicate 32 0).getD k 0) ∧
        (∀ i, 1 ≤ i → i ≤ 2 ^ 32 - 2 → inc32 (J0 main_iv) i ≠ J0 main_iv) ∧
        ((∀ b ∈ main_iv, b < 256) →
          ∀ i, 1 ≤ i → i ≤ 2 ^ 32 - 2 →
            E_K gmt_key (inc32 (J0 main_iv) i) ≠ E_K gmt_key (J0 main_iv)) :=
  gcm_ctr_keystream gmt_key main_iv main_aad main_plaintext (List.replicate 32 0)
    (List.replicate 16 0) 8 16 (by decide) (by decide) (by decide) (by decide)

/-! ### `increment_counter` on an arbitrary block -/

theorem increment_counter_from_length (i : Nat) (c : List Nat) :
    (increment_counter_from i c).length = c.length := by
  induction i generalizing c with
  | zero => rfl
  | succ i ih =>
    rw [increment_counter_from_succ]
    split
    · simp
    · rw [ih]
      simp

theorem increment_counter_from_getD_ge (i : Nat) (c : List Nat) (k : Nat) (hk : i ≤ k) :
    (increment_counter_from i c).getD k 0 = c.getD k 0 := by
  induction i generalizing c with
  | zero => rfl
  | succ i ih =>
    rw [increment_counter_from_succ]
    split
    · rw [getD_set, if_neg (by omega)]
    · rw [ih _ (by omega), getD_set, if_neg (by omega)]

/-- C11 (counterexample): on the block `00 .. 00 FF FF FF FF` `increment_counter` changes
byte 11 from `00` to `01`, so bytes 0..11 are not unchanged. -/
theorem increment_counter_carries_past_byte_12 :
    increment_counter [0, 0, 0, 0, 0, 0, 0, 0, 0, 0, 0, 0, 0xFF, 0xFF, 0xFF, 0xFF] =
        [0, 0, 0, 0, 0, 0, 0, 0, 0, 0, 0, 1, 0, 0, 0, 0] ∧
      (increment_counter [0, 0, 0, 0, 0, 0, 0, 0, 0, 0, 0, 0, 0xFF, 0xFF, 0xFF, 0xFF]).take 12 ≠
        ([0, 0, 0, 0, 0, 0, 0, 0, 0, 0, 0, 0, 0xFF, 0xFF, 0xFF, 0xFF] : List Nat).take 12 := by
  decide

/-- C11 (amended): for every 16-byte counter block, after `increment_counter` the block
still has 16 bytes and bytes 12..15, read as a big-endian 32-bit integer, equal the old
value plus 1 modulo `2^32` (also when they were `FF FF FF FF`); bytes 0..11 are unchanged
whenever bytes 12..15 were not `FF FF FF FF`. -/
theorem increment_counter_low32 (c : List Nat) (hc : IsBlock c) :
    (increment_counter c).length = 16 ∧
      (increment_counter c).getD 12 0 * 2 ^ 24 + (increment_counter c).getD 13 0 * 2 ^ 16 +
          (increment_counter c).getD 14 0 * 2 ^ 8 + (increment_counter c).getD 15 0 =
        (c.getD 12 0 * 2 ^ 24 + c.getD 13 0 * 2 ^ 16 + c.getD 14 0 * 2 ^ 8 + c.getD 15 0 + 1) %
          2 ^ 32 ∧
      (c.getD 12 0 * 2 ^ 24 + c.getD 13 0 * 2 ^ 16 + c.getD 14 0 * 2 ^ 8 + c.getD 15 0 ≠
          2 ^ 32 - 1 →
        (increment_counter c).take 12 = c.take 12) := by
  obtain ⟨hl, hb⟩ := hc
  obtain ⟨a0, a1, a2, a3, a4, a5, a6, a7, a8, a9, a10, a11, a12, a13, a14, a15, rfl⟩ :=
    block16_cases c hl
  simp only [List.mem_cons, List.mem_singleton, forall_eq_or_imp, forall_eq, List.not_mem_nil,
    IsEmpty.forall_iff, implies_true, and_true] at hb
  obtain ⟨-, -, -, -, -, -, -, -, -, -, -, -, h12, h13, h14, h15⟩ := hb
  simp only [List.getD_cons_succ, List.getD_cons_zero]
  by_cases hx : a12 * 2 ^ 24 + a13 * 2 ^ 16 + a14 * 2 ^ 8 + a15 + 1 < 2 ^ 32
  · have hstep := increment_counter_step [a0, a1, a2, a3, a4, a5, a6, a7, a8, a9, a10, a11] rfl
      (a12 * 2 ^ 24 + a13 * 2 ^ 16 + a14 * 2 ^ 8 + a15) hx
    have e12 : (a12 * 2 ^ 24 + a13 * 2 ^ 16 + a14 * 2 ^ 8 + a15) / 2 ^ 24 % 256 = a12 := by omega
    have e13 : (a12 * 2 ^ 24 + a13 * 2 ^ 16 + a14 * 2 ^ 8 + a15) / 2 ^ 16 % 256 = a13 := by omega
    have e14 : (a12 * 2 ^ 24 + a13 * 2 ^ 16 + a14 * 2 ^ 8 + a15) / 2 ^ 8 % 256 = a14 := by omega
    have e15 : (a12 * 2 ^ 24 + a13 * 2 ^ 16 + a14 * 2 ^ 8 + a15) % 256 = a15 := by omega
    rw [e12, e13, e14, e15] at hstep
    simp only [List.cons_append, List.nil_append] at hstep
    rw [hstep]
    simp only [List.getD_cons_succ, List.getD_cons_zero, List.length_cons, List.length_nil,
      List.take_succ_cons, List.take_zero]
    refine ⟨trivial, ?_, fun _ => trivial⟩
    omega
  · have h12' : a12 = 255 := by omega
    have h13' : a13 = 255 := by omega
    have h14' : a14 = 255 := by omega
    have h15' : a15 = 255 := by omega
    subst h12' h13' h14' h15'
    have e0 : ∀ c, increment_counter c = increment_counter_from (15 + 1) c := fun _ => rfl
    have e : increment_counter [a0, a1, a2, a3, a4, a5, a6, a7, a8, a9, a10, a11, 255, 255, 255, 255] =
        increment_counter_from 12 [a0, a1, a2, a3, a4, a5, a6, a7, a8, a9, a10, a11, 0, 0, 0, 0] := by
      rw [e0, increment_counter_from_succ]
      simp only [List.getD_cons_succ, List.getD_cons_zero, List.set_cons_succ, List.set_cons_zero]
      rw [if_neg (by decide), increment_counter_from_succ 14]
      simp only [List.getD_cons_succ, List.getD_cons_zero, List.set_cons_succ, List.set_cons_zero]
      rw [if_neg (by decide), increment_counter_from_succ 13]
      simp only [List.getD_cons_succ, List.getD_cons_zero, List.set_cons_succ, List.set_cons_zero]
      rw [if_neg (by decide), increment_counter_from_succ 12]
      simp only [List.getD_cons_succ, List.getD_cons_zero, List.set_cons_succ, List.set_cons_zero]
      rw [if_neg (by decide)]
    rw [e, increment_counter_from_length,
      increment_counter_from_getD_ge 12 _ 12 (Nat.le_refl _),
      increment_counter_from_getD_ge 12 _ 13 (by omega),
      increment_counter_from_getD_ge 12 _ 14 (by omega),
      increment_counter_from_getD_ge 12 _ 15 (by omega)]
    simp only [List.getD_cons_succ, List.getD_cons_zero]
    exact ⟨rfl, by decide, fun h => absurd rfl h⟩

theorem increment_counter_low32_witness :
    IsBlock (main_iv ++ [0, 0, 0, 1]) ∧
      (increment_counter (main_iv ++ [0, 0, 0, 1])).length = 16 ∧
      (increment_counter (main_iv ++ [0, 0, 0, 1])).getD 12 0 * 2 ^ 24 +
          (increment_counter (main_iv ++ [0, 0, 0, 1])).getD 13 0 * 2 ^ 16 +
          (increment_counter (main_iv ++ [0, 0, 0, 1])).getD 14 0 * 2 ^ 8 +
          (increment_counter (main_iv ++ [0, 0, 0, 1])).getD 15 0 =
        ((main_iv ++ [0, 0, 0, 1]).getD 12 0 * 2 ^ 24 +
          (main_iv ++ [0, 0, 0, 1]).getD 13 0 * 2 ^ 16 +
          (main_iv ++ [0, 0, 0, 1]).getD 14 0 * 2 ^ 8 + (main_iv ++ [0, 0, 0, 1]).getD 15 0 + 1) %
          2 ^ 32 ∧
      ((main_iv ++ [0, 0, 0, 1]).getD 12 0 * 2 ^ 24 +
          (main_iv ++ [0, 0, 0, 1]).getD 13 0 * 2 ^ 16 +
          (main_iv ++ [0, 0, 0, 1]).getD 14 0 * 2 ^ 8 + (main_iv ++ [0, 0, 0, 1]).getD 15 0 ≠
          2 ^ 32 - 1 →
        (increment_counter (main_iv ++ [0, 0, 0, 1])).take 12 =
          (main_iv ++ [0, 0, 0, 1]).take 12) :=
  ⟨by decide, increment_counter_low32 (main_iv ++ [0, 0, 0, 1]) (by decide)⟩

/-! ### The S-box table and the key-schedule constants -/

set_option maxRecDepth 100000 in
/-- C12: the table `Sbox` is not a permutation of the byte values: the distinct indices
`0x1A` and `0xC0` both hold `0x13`, so the table has a repeated entry. -/
theorem sbox_not_injective :
    sm4_sbox 0x1A = 0x13 ∧ sm4_sbox 0xC0 = 0x13 ∧ (0x1A : Nat) ≠ 0xC0 ∧ ¬ Sbox.Nodup := by
  decide

set_option maxRecDepth 100000 in
/-- C20: key-schedule constants. In each of the three source files, byte `j` (most
significant first) of `CK[i]` is `(4 i + j) * 7 mod 256` for `i < 32`, `j < 4`, the table
has 32 entries, and `FK` is `{0xA3B1BAC6, 0x56AA3350, 0x677D9197, 0xB27022DC}`. -/
theorem key_schedule_constants :
    (CK.length = 32 ∧ Aesni.CK.length = 32 ∧ Gfni.CK.length = 32) ∧
      (∀ i, i < 32 → ∀ j, j < 4 →
        CK.getD i 0 / 2 ^ (8 * (3 - j)) % 256 = (4 * i + j) * 7 % 256 ∧
        Aesni.CK.getD i 0 / 2 ^ (8 * (3 - j)) % 256 = (4 * i + j) * 7 % 256 ∧
        Gfni.CK.getD i 0 / 2 ^ (8 * (3 - j)) % 256 = (4 * i + j) * 7 % 256) ∧
      FK = [0xA3B1BAC6, 0x56AA3350, 0x677D9197, 0xB27022DC] ∧
      Aesni.FK = [0xA3B1BAC6, 0x56AA3350, 0x677D9197, 0xB27022DC] ∧
      Gfni.FK = [0xA3B1BAC6, 0x56AA3350, 0x677D9197, 0xB27022DC] := by
  decide

/-! ### Argument validation of the one-shot API -/

/-- C13: argument validation of the one-shot API. With all buffers present,
`sm4_gcm_encrypt` returns 0 if and only if `1 ≤ tag_len ≤ 16` and `iv_len = 12`, and
otherwise returns -1 with the ciphertext and tag buffers unchanged; `sm4_gcm_decrypt`
returns -1 with the plaintext buffer unchanged whenever `tag_len = 0`, `tag_len > 16` or
`iv_len ≠ 12`. -/
theorem one_shot_argument_validation (key iv aad P C T ct0 tag0 pt0 : List Nat)
    (iv_len aad_len plen clen tag_len : Nat) :
    ((sm4_gcm_encrypt (some key) (some iv) iv_len aad aad_len (some P) plen (some ct0)
          (some tag0) tag_len).1 = 0 ↔ 1 ≤ tag_len ∧ tag_len ≤ 16 ∧ iv_len = 12) ∧
      (¬ (1 ≤ tag_len ∧ tag_len ≤ 16 ∧ iv_len = 12) →
        sm4_gcm_encrypt (some key) (some iv) iv_len aad aad_len (some P) plen (some ct0)
          (some tag0) tag_len = (-1, some ct0, some tag0)) ∧
      (tag_len = 0 ∨ tag_len > 16 ∨ iv_len ≠ 12 →
        sm4_gcm_decrypt (some key) (some iv) iv_len aad aad_len (some C) clen (some T) tag_len
          (some pt0) = (-1, some pt0)) := by
  unfold sm4_gcm_encrypt sm4_gcm_decrypt
  simp only []
  refine ⟨?_, ?_, ?_⟩
  · by_cases h1 : tag_len = 0 ∨ tag_len > 16
    · rw [if_pos h1]
      constructor
      · intro h
        exact absurd (show (-1 : Int) = 0 from h) (by decide)
      · intro h
        omega
    · rw [if_neg h1]
      by_cases h2 : iv_len ≠ 12
      · rw [if_pos h2]
        constructor
        · intro h
          exact absurd (show (-1 : Int) = 0 from h) (by decide)
        · intro h
          exact absurd h.2.2 h2
      · rw [if_neg h2]
        constructor
        · intro _
          omega
        · intro _
          rfl
  · intro h
    by_cases h1 : tag_len = 0 ∨ tag_len > 16
    · rw [if_pos h1]
    · rw [if_neg h1, if_pos (by omega)]
  · intro h
    by_cases h1 : tag_len = 0 ∨ tag_len > 16
    · rw [if_pos h1]
    · rw [if_neg h1, if_pos (by omega)]

/-! ### The streaming file -/

/-- C14: `sm4_gcm_init` does not reject an unsupported nonce: with `key_len = 16` it returns
0 for every `iv_len` (for `iv_len = 8` in particular), and when `iv_len ≠ 12` the field `J0`
keeps the bytes it had before the call; with `key_len ≠ 16` it returns -1 and leaves the
context as it was. -/
theorem stream_init_accepts_any_iv_len (E : List Nat → List Nat → List Nat)
    (ctx : Streaming.sm4_gcm_ctx) (key iv aad : List Nat) (key_len iv_len aad_len : Nat) :
    (Streaming.sm4_gcm_init E ctx key 16 iv iv_len aad aad_len).1 = 0 ∧
      (Streaming.sm4_gcm_init E ctx key 16 iv 8 aad 0).1 = 0 ∧
      (iv_len ≠ 12 → (Streaming.sm4_gcm_init E ctx key 16 iv iv_len aad 0).2.J0 = ctx.J0) ∧
      (key_len ≠ 16 →
        Streaming.sm4_gcm_init E ctx key key_len iv iv_len aad aad_len = (-1, ctx)) := by
  refine ⟨rfl, rfl, ?_, ?_⟩
  · intro h
    unfold Streaming.sm4_gcm_init
    simp only [if_neg h]
    rfl
  · intro h
    unfold Streaming.sm4_gcm_init
    rw [if_pos h]

set_option maxRecDepth 100000 in
/-- C19: `gcm_mult` is not the GF(2^128) product in the GCM bit convention: the block
`80 00 .. 00` (the field element 1) is not a unit, `gcm_mult(x, 80 00 .. 00)` is the zero
block for `x = 80 00 .. 00` and for the GM/T key block; the loop has 64 iterations and
reads only the last 8 bytes of `y`, starting from the least significant bit. -/
theorem gcm_mult_gcm_one :
    Streaming.gcm_mult [0x80, 0, 0, 0, 0, 0, 0, 0, 0, 0, 0, 0, 0, 0, 0, 0]
        [0x80, 0, 0, 0, 0, 0, 0, 0, 0, 0, 0, 0, 0, 0, 0, 0] =
        [0, 0, 0, 0, 0, 0, 0, 0, 0, 0, 0, 0, 0, 0, 0, 0] ∧
      Streaming.gcm_mult gmt_key [0x80, 0, 0, 0, 0, 0, 0, 0, 0, 0, 0, 0, 0, 0, 0, 0] =
        [0, 0, 0, 0, 0, 0, 0, 0, 0, 0, 0, 0, 0, 0, 0, 0] ∧
      Streaming.gcm_mult gmt_key [0x80, 0, 0, 0, 0, 0, 0, 0, 0, 0, 0, 0, 0, 0, 0, 0] ≠ gmt_key ∧
      Streaming.gcm_mult gmt_key [0, 0, 0, 0, 0, 0, 0, 0, 0, 0, 0, 0, 0, 0, 0, 1] = gmt_key := by
  decide

/-! ### Empty inputs -/

theorem foldl_fixed {α β : Type} (f : α → β → α) (s : α) (l : List β) (h : ∀ b, f s b = s) :
    l.foldl f s = s := by
  induction l with
  | nil => rfl
  | cons b l ih => rw [List.foldl_cons, h b, ih]

theorem gf_mult_step_zero (b : List Nat) (i : Nat) :
    gf_mult_step b (zero_block, zero_block) i = (zero_block, zero_block) := by
  have h1 : xor_128 zero_block zero_block = zero_block := by decide
  have h2 : shift_left_one zero_block = (zero_block, 0) := by decide
  unfold gf_mult_step
  simp only [h1, h2, ite_self]
  rfl

theorem gf_mult_zero (b : List Nat) : gf_mult zero_block b = zero_block := by
  unfold gf_mult
  have h : memcpy (List.replicate 16 0) zero_block 16 = zero_block := by decide
  rw [h]
  show ((List.range 128).foldl (gf_mult_step b) (zero_block, zero_block)).1 = zero_block
  rw [foldl_fixed _ _ _ (gf_mult_step_zero b)]

theorem ghash_empty (H : List Nat) : ghash H [] 0 [] 0 = zero_block := by
  have h : ghash H [] 0 [] 0 = gf_mult (xor_128 zero_block (len_block 0 0)) H := rfl
  have h1 : xor_128 zero_block (len_block 0 0) = zero_block := by decide
  rw [h, h1, gf_mult_zero]

theorem xor_128_zero_left (X : List Nat) (h : X.length = 16) : xor_128 zero_block X = X := by
  obtain ⟨a0, a1, a2, a3, a4, a5, a6, a7, a8, a9, a10, a11, a12, a13, a14, a15, rfl⟩ :=
    block16_cases X h
  simp [xor_128, zero_block, List.range_succ]

/-- C16: empty-input boundary. For every key and 12-byte IV, `sm4_gcm_encrypt` with empty
AAD and empty plaintext returns 0 and leaves the ciphertext buffer untouched; the GHASH
state after absorbing only the all-zero length block is `gf_mult(0^128, H) = 0^128`, and
the first `tag_len` bytes of the tag are the first `tag_len` bytes of `Y xor E_K(J0)`,
that is, of `E_K(IV || 00000001)`. -/
theorem gcm_empty_input (key iv ct0 tag0 : List Nat) (tag_len : Nat)
    (ht : 1 ≤ tag_len ∧ tag_len ≤ 16) (hiv : iv.length = 12) (htag : tag_len ≤ tag0.length) :
    ∃ T,
      sm4_gcm_encrypt (some key) (some iv) 12 [] 0 (some []) 0 (some ct0) (some tag0) tag_len =
          (0, some ct0, some T) ∧
        ghash (hash_subkey key) [] 0 [] 0 = gf_mult zero_block (hash_subkey key) ∧
        gf_mult zero_block (hash_subkey key) = zero_block ∧
        T.take tag_len =
          (xor_128 (ghash (hash_subkey key) [] 0 [] 0) (E_K key (J0 iv))).take tag_len ∧
        T.take tag_len = (E_K key (J0 iv)).take tag_len := by
  have hc : (ctr_loop key (sm4_key_extension key) [] 0 (initial_counter iv, ct0)).2 = ct0 := rfl
  have he := encrypt_unfold key iv [] [] ct0 tag0 0 0 tag_len ht
  rw [hc] at he
  refine ⟨_, he, ?_, gf_mult_zero _, ?_, ?_⟩
  · rw [ghash_empty, gf_mult_zero]
  · rw [tag_take _ _ _ _ ht.2 htag, initial_counter_eq iv hiv]
    rfl
  · have hg : ghash (hash_subkey key) [] 0 ct0 0 = ghash (hash_subkey key) [] 0 [] 0 := rfl
    rw [tag_take _ _ _ _ ht.2 htag, initial_counter_eq iv hiv, hg, ghash_empty,
      xor_128_zero_left (E_K key (iv ++ [0, 0, 0, 1])) (sm4_encrypt_block_isBlock _ _ _).1]
    rfl

theorem gcm_empty_input_witness :
    ∃ T,
      sm4_gcm_encrypt (some zero_block) (some (List.replicate 12 0)) 12 [] 0 (some []) 0
          (some []) (some zero_block) 16 = (0, some [], some T) ∧
        ghash (hash_subkey zero_block) [] 0 [] 0 = gf_mult zero_block (hash_subkey zero_block) ∧
        gf_mult zero_block (hash_subkey zero_block) = zero_block ∧
        T.take 16 =
          (xor_128 (ghash (hash_subkey zero_block) [] 0 [] 0)
            (E_K zero_block (J0 (List.replicate 12 0)))).take 16 ∧
        T.take 16 = (E_K zero_block (J0 (List.replicate 12 0))).take 16 :=
  gcm_empty_input zero_block (List.replicate 12 0) [] zero_block 16 (by decide) (by decide)
    (by decide)

/-! ### Vector (d): intermediate values -/

theorem ghash_ref_one_two (H aad ct a c0 c1 : List Nat) (h1 : blocks16 aad = [a])
    (h2 : blocks16 ct = [c0, c1]) :
    ghash_ref H aad ct =
      gf_mult
        (xor_128
          (gf_mult
            (xor_128
              (gf_mult (xor_128 (gf_mult (xor_128 (List.replicate 16 0) (pad16 a)) H) (pad16 c0))
                H)
              (pad16 c1))
            H)
          (len64_be (8 * aad.length) ++ len64_be (8 * ct.length)))
        H := by
  unfold ghash_ref absorb_ref
  rw [h1, h2]
  rfl

set_option maxRecDepth 100000 in
theorem vec_hash_subkey : hash_subkey gmt_key =
    [0x62, 0x56, 0xE7, 0x1D, 0xFA, 0xFF, 0x95, 0xD8, 0xB9, 0xDE, 0x44, 0x23, 0x7B, 0x99,
    0x97, 0xF7] := by
  decide

set_option maxRecDepth 100000 in
theorem vec_mask : E_K gmt_key (initial_counter main_iv) =
    [0x6E, 0x0E, 0x31, 0xF5, 0xC1, 0x9C, 0x43, 0xF9, 0x68, 0x10, 0x94, 0xB1, 0x16, 0x94,
    0x2C, 0x35] := by
  decide

set_option maxRecDepth 100000 in
theorem vec_ciphertext :
    (ctr_loop gmt_key (sm4_key_extension gmt_key) vector_d_plaintext 23
      (initial_counter main_iv, List.replicate 23 0)).2 =
    [0x21, 0x33, 0xAB, 0x3B, 0xF0, 0xF9, 0x1D, 0x5A, 0xDB, 0x02, 0x78, 0x3D, 0xF5, 0xA7,
    0xFC, 0x33, 0x7C, 0x9D, 0xDB, 0xA7, 0xF1, 0x6B, 0xEC] := by
  decide

theorem vec_aad_block :
    gf_mult
        [0x11, 0x22, 0x33, 0x44, 0x55, 0x66, 0x77, 0x88, 0x00, 0x00, 0x00, 0x00, 0x00,
        0x00, 0x00, 0x00]
        [0x62, 0x56, 0xE7, 0x1D, 0xFA, 0xFF, 0x95, 0xD8, 0xB9, 0xDE, 0x44, 0x23, 0x7B,
        0x99, 0x97, 0xF7] =
      [0xBD, 0x6A, 0xD5, 0xE8, 0x60, 0xAB, 0x01, 0xD4, 0xAC, 0xC2, 0x3E, 0x06, 0x3C,
      0x61, 0xBC, 0x48] := by
  decide!

theorem vec_orig_step1 :
    gf_mult
        [0x9C, 0x59, 0x7E, 0xD3, 0x90, 0x52, 0x1C, 0x8E, 0x77, 0xC0, 0x46, 0x3B, 0xC9,
        0xC6, 0x40, 0x7B]
        [0x62, 0x56, 0xE7, 0x1D, 0xFA, 0xFF, 0x95, 0xD8, 0xB9, 0xDE, 0x44, 0x23, 0x7B,
        0x99, 0x97, 0xF7] =
      [0xDA, 0x14, 0x03, 0x6E, 0x01, 0x31, 0xBA, 0x39, 0xF0, 0xC9, 0x2E, 0x0D, 0x8D,
      0xAD, 0xF5, 0x30] := by
  decide!

theorem vec_orig_step2 :
    gf_mult
        [0xA6, 0x89, 0xD8, 0xC9, 0xF0, 0x5A, 0x56, 0x39, 0xF0, 0xC9, 0x2E, 0x0D, 0x8D,
        0xAD, 0xF5, 0x30]
        [0x62, 0x56, 0xE7, 0x1D, 0xFA, 0xFF, 0x95, 0xD8, 0xB9, 0xDE, 0x44, 0x23, 0x7B,
        0x99, 0x97, 0xF7] =
      [0x3F, 0x90, 0x4C, 0x8E, 0x6D, 0xC3, 0xE3, 0x63, 0xCF, 0x39, 0xE0, 0x04, 0x3C,
      0x30, 0x0D, 0xA7] := by
  decide!

theorem vec_orig_step3 :
    gf_mult
        [0x3F, 0x90, 0x4C, 0x8E, 0x6D, 0xC3, 0xE3, 0x23, 0xCF, 0x39, 0xE0, 0x04, 0x3C,
        0x30, 0x0D, 0x1F]
        [0x62, 0x56, 0xE7, 0x1D, 0xFA, 0xFF, 0x95, 0xD8, 0xB9, 0xDE, 0x44, 0x23, 0x7B,
        0x99, 0x97, 0xF7] =
      [0x02, 0xCD, 0xC2, 0x05, 0xE9, 0xB4, 0x49, 0x8B, 0xB1, 0x85, 0x46, 0x91, 0x57,
      0x19, 0xA5, 0x6E] := by
  decide!

theorem vec_orig_ghash :
    ghash
        [0x62, 0x56, 0xE7, 0x1D, 0xFA, 0xFF, 0x95, 0xD8, 0xB9, 0xDE, 0x44, 0x23, 0x7B,
        0x99, 0x97, 0xF7]
        main_aad 8
        [0x21, 0x33, 0xAB, 0x3B, 0xF0, 0xF9, 0x1D, 0x5A, 0xDB, 0x02, 0x78, 0x3D, 0xF5,
        0xA7, 0xFC, 0x33, 0x7C, 0x9D, 0xDB, 0xA7, 0xF1, 0x6B, 0xEC]
        23 =
      [0x02, 0xCD, 0xC2, 0x05, 0xE9, 0xB4, 0x49, 0x8B, 0xB1, 0x85, 0x46, 0x91, 0x57,
      0x19, 0xA5, 0x6E] := by
  have ht1 : main_aad.take 8 = main_aad := by decide
  have ht2 : List.take 23
      [0x21, 0x33, 0xAB, 0x3B, 0xF0, 0xF9, 0x1D, 0x5A, 0xDB, 0x02, 0x78, 0x3D, 0xF5,
      0xA7, 0xFC, 0x33, 0x7C, 0x9D, 0xDB, 0xA7, 0xF1, 0x6B, 0xEC] =
      [0x21, 0x33, 0xAB, 0x3B, 0xF0, 0xF9, 0x1D, 0x5A, 0xDB, 0x02, 0x78, 0x3D, 0xF5,
      0xA7, 0xFC, 0x33, 0x7C, 0x9D, 0xDB, 0xA7, 0xF1, 0x6B, 0xEC] := by
    decide
  have hb1 : blocks16 main_aad = [main_aad] := by decide
  have hb2 : blocks16
      [0x21, 0x33, 0xAB, 0x3B, 0xF0, 0xF9, 0x1D, 0x5A, 0xDB, 0x02, 0x78, 0x3D, 0xF5,
      0xA7, 0xFC, 0x33, 0x7C, 0x9D, 0xDB, 0xA7, 0xF1, 0x6B, 0xEC] =
      [[0x21, 0x33, 0xAB, 0x3B, 0xF0, 0xF9, 0x1D, 0x5A, 0xDB, 0x02, 0x78, 0x3D, 0xF5,
        0xA7, 0xFC, 0x33],
        [0x7C, 0x9D, 0xDB, 0xA7, 0xF1, 0x6B, 0xEC]] := by
    decide
  rw [ghash_eq _ _ _ 8 23 (by decide) (by decide) (by decide) (by decide), ht1, ht2,
    ghash_ref_one_two _ _ _ _ _ _ hb1 hb2]
  have x1 : xor_128 (List.replicate 16 0) (pad16 main_aad) =
      [0x11, 0x22, 0x33, 0x44, 0x55, 0x66, 0x77, 0x88, 0x00, 0x00, 0x00, 0x00, 0x00,
      0x00, 0x00, 0x00] := by
    decide
  rw [x1, vec_aad_block]
  have x2 : xor_128
      [0xBD, 0x6A, 0xD5, 0xE8, 0x60, 0xAB, 0x01, 0xD4, 0xAC, 0xC2, 0x3E, 0x06, 0x3C,
      0x61, 0xBC, 0x48]
      (pad16
        [0x21, 0x33, 0xAB, 0x3B, 0xF0, 0xF9, 0x1D, 0x5A, 0xDB, 0x02, 0x78, 0x3D, 0xF5,
        0xA7, 0xFC, 0x33]) =
      [0x9C, 0x59, 0x7E, 0xD3, 0x90, 0x52, 0x1C, 0x8E, 0x77, 0xC0, 0x46, 0x3B, 0xC9,
      0xC6, 0x40, 0x7B] := by
    decide
  rw [x2, vec_orig_step1]
  have x3 : xor_128
      [0xDA, 0x14, 0x03, 0x6E, 0x01, 0x31, 0xBA, 0x39, 0xF0, 0xC9, 0x2E, 0x0D, 0x8D,
      0xAD, 0xF5, 0x30]
      (pad16 [0x7C, 0x9D, 0xDB, 0xA7, 0xF1, 0x6B, 0xEC]) =
      [0xA6, 0x89, 0xD8, 0xC9, 0xF0, 0x5A, 0x56, 0x39, 0xF0, 0xC9, 0x2E, 0x0D, 0x8D,
      0xAD, 0xF5, 0x30] := by
    decide
  rw [x3, vec_orig_step2]
  have x4 : xor_128
      [0x3F, 0x90, 0x4C, 0x8E, 0x6D, 0xC3, 0xE3, 0x63, 0xCF, 0x39, 0xE0, 0x04, 0x3C,
      0x30, 0x0D, 0xA7]
      (len64_be (8 * main_aad.length) ++
        len64_be (8 * List.length
          [0x21, 0x33, 0xAB, 0x3B, 0xF0, 0xF9, 0x1D, 0x5A, 0xDB, 0x02, 0x78, 0x3D, 0xF5,
          0xA7, 0xFC, 0x33, 0x7C, 0x9D, 0xDB, 0xA7, 0xF1, 0x6B, 0xEC])) =
      [0x3F, 0x90, 0x4C, 0x8E, 0x6D, 0xC3, 0xE3, 0x23, 0xCF, 0x39, 0xE0, 0x04, 0x3C,
      0x30, 0x0D, 0x1F] := by
    decide
  rw [x4, vec_orig_step3]

theorem vec_low_step1 :
    gf_mult
        [0x9D, 0x59, 0x7E, 0xD3, 0x90, 0x52, 0x1C, 0x8E, 0x77, 0xC0, 0x46, 0x3B, 0xC9,
        0xC6, 0x40, 0x7B]
        [0x62, 0x56, 0xE7, 0x1D, 0xFA, 0xFF, 0x95, 0xD8, 0xB9, 0xDE, 0x44, 0x23, 0x7B,
        0x99, 0x97, 0xF7] =
      [0x1D, 0x10, 0xD0, 0x55, 0xAD, 0xAA, 0x8E, 0x3C, 0xA7, 0x0B, 0x17, 0xC0, 0xD8,
      0x03, 0xF2, 0x55] := by
  decide!

theorem vec_low_step2 :
    gf_mult
        [0x61, 0x8D, 0x0B, 0xF2, 0x5C, 0xC1, 0x62, 0x3C, 0xA7, 0x0B, 0x17, 0xC0, 0xD8,
        0x03, 0xF2, 0x55]
        [0x62, 0x56, 0xE7, 0x1D, 0xFA, 0xFF, 0x95, 0xD8, 0xB9, 0xDE, 0x44, 0x23, 0x7B,
        0x99, 0x97, 0xF7] =
      [0xC9, 0xEA, 0x32, 0xC3, 0xCC, 0xBE, 0xD4, 0x39, 0x0E, 0xB0, 0xDF, 0x67, 0x4A,
      0x7D, 0xDE, 0x75] := by
  decide!

theorem vec_low_step3 :
    gf_mult
        [0xC9, 0xEA, 0x32, 0xC3, 0xCC, 0xBE, 0xD4, 0x79, 0x0E, 0xB0, 0xDF, 0x67, 0x4A,
        0x7D, 0xDE, 0xCD]
        [0x62, 0x56, 0xE7, 0x1D, 0xFA, 0xFF, 0x95, 0xD8, 0xB9, 0xDE, 0x44, 0x23, 0x7B,
        0x99, 0x97, 0xF7] =
      [0x38, 0xE5, 0x07, 0xEE, 0xA4, 0x30, 0xA3, 0x3F, 0x8E, 0xA8, 0xFF, 0xAB, 0xE4,
      0x4A, 0x24, 0xFE] := by
  decide!

theorem vec_low_ghash :
    ghash
        [0x62, 0x56, 0xE7, 0x1D, 0xFA, 0xFF, 0x95, 0xD8, 0xB9, 0xDE, 0x44, 0x23, 0x7B,
        0x99, 0x97, 0xF7]
        main_aad 8
        [0x20, 0x33, 0xAB, 0x3B, 0xF0, 0xF9, 0x1D, 0x5A, 0xDB, 0x02, 0x78, 0x3D, 0xF5,
        0xA7, 0xFC, 0x33, 0x7C, 0x9D, 0xDB, 0xA7, 0xF1, 0x6B, 0xEC]
        23 =
      [0x38, 0xE5, 0x07, 0xEE, 0xA4, 0x30, 0xA3, 0x3F, 0x8E, 0xA8, 0xFF, 0xAB, 0xE4,
      0x4A, 0x24, 0xFE] := by
  have ht1 : main_aad.take 8 = main_aad := by decide
  have ht2 : List.take 23
      [0x20, 0x33, 0xAB, 0x3B, 0xF0, 0xF9, 0x1D, 0x5A, 0xDB, 0x02, 0x78, 0x3D, 0xF5,
      0xA7, 0xFC, 0x33, 0x7C, 0x9D, 0xDB, 0xA7, 0xF1, 0x6B, 0xEC] =
      [0x20, 0x33, 0xAB, 0x3B, 0xF0, 0xF9, 0x1D, 0x5A, 0xDB, 0x02, 0x78, 0x3D, 0xF5,
      0xA7, 0xFC, 0x33, 0x7C, 0x9D, 0xDB, 0xA7, 0xF1, 0x6B, 0xEC] := by
    decide
  have hb1 : blocks16 main_aad = [main_aad] := by decide
  have hb2 : blocks16
      [0x20, 0x33, 0xAB, 0x3B, 0xF0, 0xF9, 0x1D, 0x5A, 0xDB, 0x02, 0x78, 0x3D, 0xF5,
      0xA7, 0xFC, 0x33, 0x7C, 0x9D, 0xDB, 0xA7, 0xF1, 0x6B, 0xEC] =
      [[0x20, 0x33, 0xAB, 0x3B, 0xF0, 0xF9, 0x1D, 0x5A, 0xDB, 0x02, 0x78, 0x3D, 0xF5,
        0xA7, 0xFC, 0x33],
        [0x7C, 0x9D, 0xDB, 0xA7, 0xF1, 0x6B, 0xEC]] := by
    decide
  rw [ghash_eq _ _ _ 8 23 (by decide) (by decide) (by decide) (by decide), ht1, ht2,
    ghash_ref_one_two _ _ _ _ _ _ hb1 hb2]
  have x1 : xor_128 (List.replicate 16 0) (pad16 main_aad) =
      [0x11, 0x22, 0x33, 0x44, 0x55, 0x66, 0x77, 0x88, 0x00, 0x00, 0x00, 0x00, 0x00,
      0x00, 0x00, 0x00] := by
    decide
  rw [x1, vec_aad_block]
  have x2 : xor_128
      [0xBD, 0x6A, 0xD5, 0xE8, 0x60, 0xAB, 0x01, 0xD4, 0xAC, 0xC2, 0x3E, 0x06, 0x3C,
      0x61, 0xBC, 0x48]
      (pad16
        [0x20, 0x33, 0xAB, 0x3B, 0xF0, 0xF9, 0x1D, 0x5A, 0xDB, 0x02, 0x78, 0x3D, 0xF5,
        0xA7, 0xFC, 0x33]) =
      [0x9D, 0x59, 0x7E, 0xD3, 0x90, 0x52, 0x1C, 0x8E, 0x77, 0xC0, 0x46, 0x3B, 0xC9,
      0xC6, 0x40, 0x7B] := by
    decide
  rw [x2, vec_low_step1]
  have x3 : xor_128
      [0x1D, 0x10, 0xD0, 0x55, 0xAD, 0xAA, 0x8E, 0x3C, 0xA7, 0x0B, 0x17, 0xC0, 0xD8,
      0x03, 0xF2, 0x55]
      (pad16 [0x7C, 0x9D, 0xDB, 0xA7, 0xF1, 0x6B, 0xEC]) =
      [0x61, 0x8D, 0x0B, 0xF2, 0x5C, 0xC1, 0x62, 0x3C, 0xA7, 0x0B, 0x17, 0xC0, 0xD8,
      0x03, 0xF2, 0x55] := by
    decide
  rw [x3, vec_low_step2]
  have x4 : xor_128
      [0xC9, 0xEA, 0x32, 0xC3, 0xCC, 0xBE, 0xD4, 0x39, 0x0E, 0xB0, 0xDF, 0x67, 0x4A,
      0x7D, 0xDE, 0x75]
      (len64_be (8 * main_aad.length) ++
        len64_be (8 * List.length
          [0x20, 0x33, 0xAB, 0x3B, 0xF0, 0xF9, 0x1D, 0x5A, 0xDB, 0x02, 0x78, 0x3D, 0xF5,
          0xA7, 0xFC, 0x33, 0x7C, 0x9D, 0xDB, 0xA7, 0xF1, 0x6B, 0xEC])) =
      [0xC9, 0xEA, 0x32, 0xC3, 0xCC, 0xBE, 0xD4, 0x79, 0x0E, 0xB0, 0xDF, 0x67, 0x4A,
      0x7D, 0xDE, 0xCD] := by
    decide
  rw [x4, vec_low_step3]

theorem vec_high_step1 :
    gf_mult
        [0x1C, 0x59, 0x7E, 0xD3, 0x90, 0x52, 0x1C, 0x8E, 0x77, 0xC0, 0x46, 0x3B, 0xC9,
        0xC6, 0x40, 0x7B]
        [0x62, 0x56, 0xE7, 0x1D, 0xFA, 0xFF, 0x95, 0xD8, 0xB9, 0xDE, 0x44, 0x23, 0x7B,
        0x99, 0x97, 0xF7] =
      [0x58, 0x7D, 0x9E, 0xB8, 0x4C, 0xAB, 0xB8, 0x92, 0x11, 0xD5, 0xC8, 0xA7, 0x5A,
      0xAE, 0x77, 0x19] := by
  decide!

theorem vec_high_step2 :
    gf_mult
        [0x24, 0xE0, 0x45, 0x1F, 0xBD, 0xC0, 0x54, 0x92, 0x11, 0xD5, 0xC8, 0xA7, 0x5A,
        0xAE, 0x77, 0x19]
        [0x62, 0x56, 0xE7, 0x1D, 0xFA, 0xFF, 0x95, 0xD8, 0xB9, 0xDE, 0x44, 0x23, 0x7B,
        0x99, 0x97, 0xF7] =
      [0x02, 0xAF, 0x6A, 0x5E, 0xD3, 0x58, 0x4E, 0x03, 0x0B, 0xA6, 0x51, 0xBF, 0x1A,
      0xD9, 0xD8, 0x46] := by
  decide!

theorem vec_high_step3 :
    gf_mult
        [0x02, 0xAF, 0x6A, 0x5E, 0xD3, 0x58, 0x4E, 0x43, 0x0B, 0xA6, 0x51, 0xBF, 0x1A,
        0xD9, 0xD8, 0xFE]
        [0x62, 0x56, 0xE7, 0x1D, 0xFA, 0xFF, 0x95, 0xD8, 0xB9, 0xDE, 0x44, 0x23, 0x7B,
        0x99, 0x97, 0xF7] =
      [0x16, 0xAF, 0x37, 0xA3, 0x2B, 0xC1, 0x13, 0x94, 0x27, 0x59, 0xDB, 0xC8, 0xFE,
      0xD9, 0x63, 0xBD] := by
  decide!

theorem vec_high_ghash :
    ghash
        [0x62, 0x56, 0xE7, 0x1D, 0xFA, 0xFF, 0x95, 0xD8, 0xB9, 0xDE, 0x44, 0x23, 0x7B,
        0x99, 0x97, 0xF7]
        main_aad 8
        [0xA1, 0x33, 0xAB, 0x3B, 0xF0, 0xF9, 0x1D, 0x5A, 0xDB, 0x02, 0x78, 0x3D, 0xF5,
        0xA7, 0xFC, 0x33, 0x7C, 0x9D, 0xDB, 0xA7, 0xF1, 0x6B, 0xEC]
        23 =
      [0x16, 0xAF, 0x37, 0xA3, 0x2B, 0xC1, 0x13, 0x94, 0x27, 0x59, 0xDB, 0xC8, 0xFE,
      0xD9, 0x63, 0xBD] := by
  have ht1 : main_aad.take 8 = main_aad := by decide
  have ht2 : List.take 23
      [0xA1, 0x33, 0xAB, 0x3B, 0xF0, 0xF9, 0x1D, 0x5A, 0xDB, 0x02, 0x78, 0x3D, 0xF5,
      0xA7, 0xFC, 0x33, 0x7C, 0x9D, 0xDB, 0xA7, 0xF1, 0x6B, 0xEC] =
      [0xA1, 0x33, 0xAB, 0x3B, 0xF0, 0xF9, 0x1D, 0x5A, 0xDB, 0x02, 0x78, 0x3D, 0xF5,
      0xA7, 0xFC, 0x33, 0x7C, 0x9D, 0xDB, 0xA7, 0xF1, 0x6B, 0xEC] := by
    decide
  have hb1 : blocks16 main_aad = [main_aad] := by decide
  have hb2 : blocks16
      [0xA1, 0x33, 0xAB, 0x3B, 0xF0, 0xF9, 0x1D, 0x5A, 0xDB, 0x02, 0x78, 0x3D, 0xF5,
      0xA7, 0xFC, 0x33, 0x7C, 0x9D, 0xDB, 0xA7, 0xF1, 0x6B, 0xEC] =
      [[0xA1, 0x33, 0xAB, 0x3B, 0xF0, 0xF9, 0x1D, 0x5A, 0xDB, 0x02, 0x78, 0x3D, 0xF5,
        0xA7, 0xFC, 0x33],
        [0x7C, 0x9D, 0xDB, 0xA7, 0xF1, 0x6B, 0xEC]] := by
    decide
  rw [ghash_eq _ _ _ 8 23 (by decide) (by decide) (by decide) (by decide), ht1, ht2,
    ghash_ref_one_two _ _ _ _ _ _ hb1 hb2]
  have x1 : xor_128 (List.replicate 16 0) (pad16 main_aad) =
      [0x11, 0x22, 0x33, 0x44, 0x55, 0x66, 0x77, 0x88, 0x00, 0x00, 0x00, 0x00, 0x00,
      0x00, 0x00, 0x00] := by
    decide
  rw [x1, vec_aad_block]
  have x2 : xor_128
      [0xBD, 0x6A, 0xD5, 0xE8, 0x60, 0xAB, 0x01, 0xD4, 0xAC, 0xC2, 0x3E, 0x06, 0x3C,
      0x61, 0xBC, 0x48]
      (pad16
        [0xA1, 0x33, 0xAB, 0x3B, 0xF0, 0xF9, 0x1D, 0x5A, 0xDB, 0x02, 0x78, 0x3D, 0xF5,
        0xA7, 0xFC, 0x33]) =
      [0x1C, 0x59, 0x7E, 0xD3, 0x90, 0x52, 0x1C, 0x8E, 0x77, 0xC0, 0x46, 0x3B, 0xC9,
      0xC6, 0x40, 0x7B] := by
    decide
  rw [x2, vec_high_step1]
  have x3 : xor_128
      [0x58, 0x7D, 0x9E, 0xB8, 0x4C, 0xAB, 0xB8, 0x92, 0x11, 0xD5, 0xC8, 0xA7, 0x5A,
      0xAE, 0x77, 0x19]
      (pad16 [0x7C, 0x9D, 0xDB, 0xA7, 0xF1, 0x6B, 0xEC]) =
      [0x24, 0xE0, 0x45, 0x1F, 0xBD, 0xC0, 0x54, 0x92, 0x11, 0xD5, 0xC8, 0xA7, 0x5A,
      0xAE, 0x77, 0x19] := by
    decide
  rw [x3, vec_high_step2]
  have x4 : xor_128
      [0x02, 0xAF, 0x6A, 0x5E, 0xD3, 0x58, 0x4E, 0x03, 0x0B, 0xA6, 0x51, 0xBF, 0x1A,
      0xD9, 0xD8, 0x46]
      (len64_be (8 * main_aad.length) ++
        len64_be (8 * List.length
          [0xA1, 0x33, 0xAB, 0x3B, 0xF0, 0xF9, 0x1D, 0x5A, 0xDB, 0x02, 0x78, 0x3D, 0xF5,
          0xA7, 0xFC, 0x33, 0x7C, 0x9D, 0xDB, 0xA7, 0xF1, 0x6B, 0xEC])) =
      [0x02, 0xAF, 0x6A, 0x5E, 0xD3, 0x58, 0x4E, 0x43, 0x0B, 0xA6, 0x51, 0xBF, 0x1A,
      0xD9, 0xD8, 0xFE] := by
    decide
  rw [x4, vec_high_step3]

set_option maxRecDepth 100000 in
/-- C15: tamper detection on vector (d). With the GM/T key, IV `00 01 .. 0B`, AAD
`11 22 .. 88`, the 23-byte plaintext and `tag_len = 16`, `sm4_gcm_encrypt` returns 0 with
a ciphertext `C` and a tag `T`; `sm4_gcm_decrypt` on `C` with the least significant bit
of `C[0]` flipped returns -1 and leaves the plaintext buffer unchanged, and so does
`sm4_gcm_decrypt` with the most significant bit of `C[0]` flipped. -/
theorem tamper_detected_on_vector_d :
    sm4_gcm_encrypt (some gmt_key) (some main_iv) 12 main_aad 8 (some vector_d_plaintext) 23
        (some (List.replicate 23 0)) (some zero_block) 16 =
        (0,
          some [0x21, 0x33, 0xAB, 0x3B, 0xF0, 0xF9, 0x1D, 0x5A, 0xDB, 0x02, 0x78, 0x3D,
            0xF5, 0xA7, 0xFC, 0x33, 0x7C, 0x9D, 0xDB, 0xA7, 0xF1, 0x6B, 0xEC],
          some [0x6C, 0xC3, 0xF3, 0xF0, 0x28, 0x28, 0x0A, 0x72, 0xD9, 0x95, 0xD2, 0x20,
            0x41, 0x8D, 0x89, 0x5B]) ∧
      sm4_gcm_decrypt (some gmt_key) (some main_iv) 12 main_aad 8
        (some [0x20, 0x33, 0xAB, 0x3B, 0xF0, 0xF9, 0x1D, 0x5A, 0xDB, 0x02, 0x78, 0x3D, 0xF5,
          0xA7, 0xFC, 0x33, 0x7C, 0x9D, 0xDB, 0xA7, 0xF1, 0x6B, 0xEC]) 23
        (some [0x6C, 0xC3, 0xF3, 0xF0, 0x28, 0x28, 0x0A, 0x72, 0xD9, 0x95, 0xD2, 0x20, 0x41,
          0x8D, 0x89, 0x5B]) 16 (some (List.replicate 23 0)) =
        (-1, some (List.replicate 23 0)) ∧
      sm4_gcm_decrypt (some gmt_key) (some main_iv) 12 main_aad 8
        (some [0xA1, 0x33, 0xAB, 0x3B, 0xF0, 0xF9, 0x1D, 0x5A, 0xDB, 0x02, 0x78, 0x3D, 0xF5,
          0xA7, 0xFC, 0x33, 0x7C, 0x9D, 0xDB, 0xA7, 0xF1, 0x6B, 0xEC]) 23
        (some [0x6C, 0xC3, 0xF3, 0xF0, 0x28, 0x28, 0x0A, 0x72, 0xD9, 0x95, 0xD2, 0x20, 0x41,
          0x8D, 0x89, 0x5B]) 16 (some (List.replicate 23 0)) =
        (-1, some (List.replicate 23 0)) := by
  refine ⟨?_, ?_, ?_⟩
  · rw [encrypt_unfold _ _ _ _ _ _ _ _ _ (by decide), vec_ciphertext, vec_hash_subkey,
      vec_orig_ghash, vec_mask]
    decide
  · rw [decrypt_unfold _ _ _ _ _ _ _ _ _ (by decide), vec_hash_subkey, vec_low_ghash, vec_mask,
      if_pos (by decide)]
  · rw [decrypt_unfold _ _ _ _ _ _ _ _ _ (by decide), vec_hash_subkey, vec_high_ghash,
      vec_mask, if_pos (by decide)]

set_option maxRecDepth 100000 in
/-- C17: the streaming API uses `E_K(J0)` as its first keystream block. With `E` the scalar
`E_K`, the GM/T key, the IV `00 01 .. 0B`, no AAD and a zero-filled context, after
`sm4_gcm_init` the 16 ciphertext bytes of the streaming `sm4_gcm_encrypt` are
`P xor E_K(J0)`, not `P xor E_K(inc32(J0, 1))`, and `J0` is the block whose encryption
`sm4_gcm_final` xors into the tag. -/
theorem stream_first_keystream_block :
    (Streaming.sm4_gcm_encrypt E_K
        (Streaming.sm4_gcm_init E_K Streaming.ctx_zero gmt_key 16 main_iv 12 [] 0).2
        block_plaintext zero_block 16).map (fun r => (r.2, r.1.J0)) =
        some (xor_128 block_plaintext (E_K gmt_key (J0 main_iv)), J0 main_iv) ∧
      xor_128 block_plaintext (E_K gmt_key (J0 main_iv)) =
        [0x1D, 0x63, 0x05, 0xD8, 0xA6, 0xFF, 0x2E, 0x8D, 0x0D, 0x63, 0xE0, 0xD0, 0x78, 0xF0,
          0x44, 0x5A] ∧
      xor_128 block_plaintext (E_K gmt_key (inc32 (J0 main_iv) 1)) =
        [0x21, 0x33, 0xAB, 0x3B, 0xF0, 0xF9, 0x1D, 0x5A, 0xDB, 0x02, 0x78, 0x3D, 0xF5, 0xA7,
          0xFC, 0x33] := by
  decide

set_option maxRecDepth 100000 in
/-- C18: with an AAD whose length is not a multiple of 16 the streaming sequence does not
produce the claimed tag. With `E` the scalar `E_K`, the GM/T key, the IV `00 01 .. 0B`,
the 8-byte AAD `11 22 .. 88` and one 16-byte plaintext block, `sm4_gcm_init`, one
`sm4_gcm_encrypt` over the whole plaintext and `sm4_gcm_final(tag, 16)` give the tag
`CA 92 09 53 ..`, while absorbing the padded AAD block, then the ciphertext block, then
the length block gives `A8 5E C1 30 ..`. -/
theorem stream_tag_partial_aad :
    (Streaming.sm4_gcm_encrypt E_K
        (Streaming.sm4_gcm_init E_K Streaming.ctx_zero gmt_key 16 main_iv 12 main_aad 8).2
        block_plaintext zero_block 16).map
        (fun r => ((Streaming.sm4_gcm_final E_K r.1 zero_block 16).2, r.2)) =
        some
          ([0xCA, 0x92, 0x09, 0x53, 0x47, 0x20, 0xFA, 0x4E, 0x5F, 0x61, 0xD5, 0xF9, 0x03, 0xF6,
              0x47, 0x30],
            [0x1D, 0x63, 0x05, 0xD8, 0xA6, 0xFF, 0x2E, 0x8D, 0x0D, 0x63, 0xE0, 0xD0, 0x78, 0xF0,
              0x44, 0x5A]) ∧
      Streaming.tag_ref E_K gmt_key main_iv main_aad
          [0x1D, 0x63, 0x05, 0xD8, 0xA6, 0xFF, 0x2E, 0x8D, 0x0D, 0x63, 0xE0, 0xD0, 0x78, 0xF0,
            0x44, 0x5A] =
        [0xA8, 0x5E, 0xC1, 0x30, 0x42, 0x52, 0xAF, 0x2E, 0xB7, 0x3C, 0x45, 0xBF, 0x7E, 0xDC,
          0xAD, 0x09] := by
  decide

/-! ### The linear transform `L` -/

theorem mul_add_eq_xor (a b i : Nat) (hb : b < 2 ^ i) : 2 ^ i * a + b = 2 ^ i * a ^^^ b := by
  apply Nat.eq_of_testBit_eq
  intro j
  rw [Nat.testBit_mul_pow_two_add a hb, Nat.testBit_xor, Nat.testBit_mul_pow_two]
  by_cases hj : j < i
  · have h1 : ¬ i ≤ j := by omega
    simp [hj, h1]
  · have h1 : i ≤ j := by omega
    have h2 : b.testBit j = false :=
      Nat.testBit_lt_two_pow (Nat.lt_of_lt_of_le hb (Nat.pow_le_pow_right (by decide) h1))
    simp [hj, h1, h2]

theorem rot_or_eq_rol32 (x n : Nat) (hx : x < 2 ^ 32) (hn : n ≤ 32) :
    ((x <<< n) % 2 ^ 32) ||| (x >>> (32 - n)) = rol32 x n := by
  have hp : (2 : Nat) ^ 32 = 2 ^ (32 - n) * 2 ^ n := by
    rw [← Nat.pow_add]
    congr 1
    omega
  have hlt : x / 2 ^ (32 - n) < 2 ^ n := by
    rw [Nat.div_lt_iff_lt_mul (Nat.pow_pos (by decide))]
    rw [Nat.mul_comm, ← hp]
    exact hx
  unfold rol32
  rw [Nat.shiftLeft_eq, Nat.shiftRight_eq_div_pow]
  rw [show (x * 2 ^ n) % 2 ^ 32 = x % 2 ^ (32 - n) * 2 ^ n by
    rw [hp, Nat.mul_mod_mul_right]]
  rw [Nat.mul_comm (x % 2 ^ (32 - n)) (2 ^ n), Nat.mul_add_lt_is_or hlt]

theorem rot_xor_eq_rol32 (x n : Nat) (hx : x < 2 ^ 32) (hn : n ≤ 32) :
    ((x <<< n) % 2 ^ 32) ^^^ (x >>> (32 - n)) = rol32 x n := by
  have hp : (2 : Nat) ^ 32 = 2 ^ (32 - n) * 2 ^ n := by
    rw [← Nat.pow_add]
    congr 1
    omega
  have hlt : x / 2 ^ (32 - n) < 2 ^ n := by
    rw [Nat.div_lt_iff_lt_mul (Nat.pow_pos (by decide))]
    rw [Nat.mul_comm, ← hp]
    exact hx
  unfold rol32
  rw [Nat.shiftLeft_eq, Nat.shiftRight_eq_div_pow]
  rw [show (x * 2 ^ n) % 2 ^ 32 = x % 2 ^ (32 - n) * 2 ^ n by
    rw [hp, Nat.mul_mod_mul_right]]
  rw [Nat.mul_comm (x % 2 ^ (32 - n)) (2 ^ n), mul_add_eq_xor _ _ _ hlt]

theorem sm4_L_eq_ref (x : Nat) (hx : x < 2 ^ 32) : sm4_L x = L_ref x := by
  have h2 := rot_or_eq_rol32 x 2 hx (by decide)
  have h10 := rot_or_eq_rol32 x 10 hx (by decide)
  have h18 := rot_or_eq_rol32 x 18 hx (by decide)
  have h24 := rot_or_eq_rol32 x 24 hx (by decide)
  simp only [Nat.reduceSub] at h2 h10 h18 h24
  unfold sm4_L L_ref
  rw [h2, h10, h18, h24]

theorem L_ni_word_eq_ref (x : Nat) (hx : x < 2 ^ 32) :
    x ^^^ (((x <<< 2) % 2 ^ 32) ^^^ (x >>> 30)) ^^^ (((x <<< 10) % 2 ^ 32) ^^^ (x >>> 22)) ^^^
        (((x <<< 18) % 2 ^ 32) ^^^ (x >>> 14)) ^^^ (((x <<< 24) % 2 ^ 32) ^^^ (x >>> 8)) =
      L_ref x := by
  have h2 := rot_xor_eq_rol32 x 2 hx (by decide)
  have h10 := rot_xor_eq_rol32 x 10 hx (by decide)
  have h18 := rot_xor_eq_rol32 x 18 hx (by decide)
  have h24 := rot_xor_eq_rol32 x 24 hx (by decide)
  simp only [Nat.reduceSub] at h2 h10 h18 h24
  unfold L_ref
  rw [h2, h10, h18, h24]

theorem L_gfni_word_eq_ref (x : Nat) (hx : x < 2 ^ 32) :
    x ^^^ (((x <<< 2) % 2 ^ 32) ||| (x >>> (32 - 2))) ^^^
        (((x <<< 10) % 2 ^ 32) ||| (x >>> (32 - 10))) ^^^
        (((x <<< 18) % 2 ^ 32) ||| (x >>> (32 - 18))) ^^^
        (((x <<< 24) % 2 ^ 32) ||| (x >>> (32 - 24))) =
      L_ref x := by
  unfold L_ref
  rw [rot_or_eq_rol32 x 2 hx (by decide), rot_or_eq_rol32 x 10 hx (by decide),
    rot_or_eq_rol32 x 18 hx (by decide), rot_or_eq_rol32 x 24 hx (by decide)]

/-- C22: the three realisations of the linear transform agree with the specification's `L`.
For every 32-bit word `x`, the scalar `sm4_L x` equals
`x xor rol32(x,2) xor rol32(x,10) xor rol32(x,18) xor rol32(x,24)`, and for every register
`v` and every lane `j` holding `x`, lane `j` of `sm4_L_ni v` (shift pairs combined by xor)
and lane `j` of `sm4_L_gfni v` (rotate instructions) equal the same word. -/
theorem linear_transform_variants_agree (x : Nat) (hx : x < 2 ^ 32) (v : M128) (j : Nat)
    (hv : v.lane j = x) :
    sm4_L x = L_ref x ∧ (sm4_L_ni v).lane j = L_ref x ∧ (sm4_L_gfni v).lane j = L_ref x := by
  refine ⟨sm4_L_eq_ref x hx, ?_, ?_⟩
  · subst hv
    obtain ⟨l0, l1, l2, l3⟩ := v
    match j with
    | 0 => exact L_ni_word_eq_ref l0 hx
    | 1 => exact L_ni_word_eq_ref l1 hx
    | 2 => exact L_ni_word_eq_ref l2 hx
    | _ + 3 => exact L_ni_word_eq_ref l3 hx
  · subst hv
    obtain ⟨l0, l1, l2, l3⟩ := v
    match j with
    | 0 => exact L_gfni_word_eq_ref l0 hx
    | 1 => exact L_gfni_word_eq_ref l1 hx
    | 2 => exact L_gfni_word_eq_ref l2 hx
    | _ + 3 => exact L_gfni_word_eq_ref l3 hx

theorem linear_transform_variants_agree_witness :
    (0x01234567 : Nat) < 2 ^ 32 ∧
      (⟨0xFEDCBA98, 0x01234567, 0, 0xFFFFFFFF⟩ : M128).lane 1 = 0x01234567 ∧
      sm4_L 0x01234567 = L_ref 0x01234567 ∧
      (sm4_L_ni ⟨0xFEDCBA98, 0x01234567, 0, 0xFFFFFFFF⟩).lane 1 = L_ref 0x01234567 ∧
      (sm4_L_gfni ⟨0xFEDCBA98, 0x01234567, 0, 0xFFFFFFFF⟩).lane 1 = L_ref 0x01234567 :=
  ⟨by decide, rfl,
    linear_transform_variants_agree 0x01234567 (by decide)
      ⟨0xFEDCBA98, 0x01234567, 0, 0xFFFFFFFF⟩ 1 rfl⟩

/-! ### AAD chunks in the streaming file -/

theorem counter_loop_succ (i : Nat) (c : List Nat) :
    Streaming.counter_loop (i + 1) c =
      if (c.getD i 0 + 1) % 256 ≠ 0 then some (c.set i ((c.getD i 0 + 1) % 256))
      else Streaming.counter_loop i (c.set i ((c.getD i 0 + 1) % 256)) := rfl

theorem counter_loop_some (i : Nat) (c : List Nat)
    (h : ∃ k, k < i ∧ (c.getD k 0 + 1) % 256 ≠ 0) :
    Streaming.counter_loop i c = some (increment_counter_from i c) := by
  induction i generalizing c with
  | zero =>
    obtain ⟨k, hk, -⟩ := h
    omega
  | succ i ih =>
    rw [counter_loop_succ, increment_counter_from_succ]
    by_cases hv : (c.getD i 0 + 1) % 256 ≠ 0
    · rw [if_pos hv, if_pos hv]
    · rw [if_neg hv, if_neg hv]
      obtain ⟨k, hk, hne⟩ := h
      have hki : k ≠ i := fun e => hv (e ▸ hne)
      refine ih _ ⟨k, by omega, ?_⟩
      rw [getD_set, if_neg (by omega)]
      exact hne

theorem increment_counter_from_getD_lt (i j : Nat) (c : List Nat)
    (h : ∃ k, j ≤ k ∧ k < i ∧ (c.getD k 0 + 1) % 256 ≠ 0) (m : Nat) (hm : m < j) :
    (increment_counter_from i c).getD m 0 = c.getD m 0 := by
  induction i generalizing c with
  | zero =>
    obtain ⟨k, -, hk, -⟩ := h
    omega
  | succ i ih =>
    obtain ⟨k, hjk, hk, hne⟩ := h
    rw [increment_counter_from_succ]
    by_cases hv : (c.getD i 0 + 1) % 256 ≠ 0
    · rw [if_pos hv, getD_set, if_neg (by omega)]
    · have hki : k ≠ i := fun e => hv (e ▸ hne)
      rw [if_neg hv, ih _ ⟨k, hjk, by omega, ?_⟩, getD_set, if_neg (by omega)]
      rw [getD_set, if_neg (by omega)]
      exact hne

theorem exists_byte_ne_255 (c : List Nat) (hl : c.length = 16)
    (h : c ≠ List.replicate 16 255) : ∃ k, k < 16 ∧ c.getD k 0 ≠ 255 := by
  by_contra hn
  apply h
  have hall : ∀ k, k < 16 → c.getD k 0 = 255 := fun k hk => by
    by_contra hk2
    exact hn ⟨k, hk, hk2⟩
  obtain ⟨a0, a1, a2, a3, a4, a5, a6, a7, a8, a9, a10, a11, a12, a13, a14, a15, rfl⟩ :=
    block16_cases c hl
  have h0 := hall 0 (by omega)
  have h1 := hall 1 (by omega)
  have h2 := hall 2 (by omega)
  have h3 := hall 3 (by omega)
  have h4 := hall 4 (by omega)
  have h5 := hall 5 (by omega)
  have h6 := hall 6 (by omega)
  have h7 := hall 7 (by omega)
  have h8 := hall 8 (by omega)
  have h9 := hall 9 (by omega)
  have h10 := hall 10 (by omega)
  have h11 := hall 11 (by omega)
  have h12 := hall 12 (by omega)
  have h13 := hall 13 (by omega)
  have h14 := hall 14 (by omega)
  have h15 := hall 15 (by omega)
  simp only [List.getD_cons_succ, List.getD_cons_zero] at h0 h1 h2 h3 h4 h5 h6 h7
  simp only [List.getD_cons_succ, List.getD_cons_zero] at h8 h9 h10 h11 h12 h13 h14 h15
  subst h0 h1 h2 h3 h4 h5 h6 h7 h8 h9 h10 h11 h12 h13 h14 h15
  rfl

/-- Away from `FF .. FF` the counter loop of the streaming file is safe: for every other
16-byte counter it returns with every access at an index 0..15, the counter still has 16
bytes, and bytes 0..11 are unchanged whenever bytes 12..15 were not `FF FF FF FF`. -/
theorem counter_loop_safe_elsewhere (c : List Nat) (hc : IsBlock c)
    (hne : c ≠ List.replicate 16 0xFF) :
    ∃ c1, Streaming.counter_loop 16 c = some c1 ∧ c1.length = 16 ∧
      (¬ (c.getD 12 0 = 0xFF ∧ c.getD 13 0 = 0xFF ∧ c.getD 14 0 = 0xFF ∧ c.getD 15 0 = 0xFF) →
        c1.take 12 = c.take 12) := by
  obtain ⟨k, hk, hk2⟩ := exists_byte_ne_255 c hc.1 hne
  have hb : ∀ j, c.getD j 0 < 256 := fun j => by
    rw [List.getD_eq_getElem?_getD]
    by_cases hj : j < c.length
    · rw [List.getElem?_eq_getElem hj]
      exact hc.2 _ (List.getElem_mem hj)
    · rw [List.getElem?_eq_none (by omega)]
      decide
  have hstep : ∀ j, c.getD j 0 ≠ 255 → (c.getD j 0 + 1) % 256 ≠ 0 := fun j hj => by
    have := hb j
    omega
  refine ⟨increment_counter_from 16 c, counter_loop_some 16 c ⟨k, hk, hstep k hk2⟩, ?_, ?_⟩
  · rw [increment_counter_from_length, hc.1]
  · intro hlow
    have hex : ∃ k, 12 ≤ k ∧ k < 16 ∧ (c.getD k 0 + 1) % 256 ≠ 0 := by
      by_cases h12 : c.getD 12 0 = 255
      · by_cases h13 : c.getD 13 0 = 255
        · by_cases h14 : c.getD 14 0 = 255
          · by_cases h15 : c.getD 15 0 = 255
            · exact absurd ⟨h12, h13, h14, h15⟩ hlow
            · exact ⟨15, by omega, by omega, hstep 15 h15⟩
          · exact ⟨14, by omega, by omega, hstep 14 h14⟩
        · exact ⟨13, by omega, by omega, hstep 13 h13⟩
      · exact ⟨12, by omega, by omega, hstep 12 h12⟩
    rw [take_eq_iff _ _ 12 (by rw [increment_counter_from_length, hc.1]; omega)
      (by rw [hc.1]; omega)]
    intro m hm
    exact increment_counter_from_getD_lt 16 12 c hex m hm

/-- C24: the counter loop of the streaming file is not safe on the counter `FF .. FF`. Every
byte wraps to `00`, the `size_t` index passes 0 and the next access is outside the counter
array, so the streaming `sm4_gcm_encrypt` and `sm4_gcm_decrypt` called on one byte from a
context with that counter do not return inside the array, whatever the block function and
the buffers; the one-shot `increment_counter`, whose index is an `int`, stops on the same
input with the counter `00 .. 00`. -/
theorem stream_counter_loop_leaves_array (E : List Nat → List Nat → List Nat)
    (ctx : Streaming.sm4_gcm_ctx) (src dst : List Nat) :
    Streaming.counter_loop 16 (List.replicate 16 0xFF) = none ∧
      increment_counter (List.replicate 16 0xFF) = List.replicate 16 0 ∧
      Streaming.sm4_gcm_encrypt E { ctx with counter := List.replicate 16 0xFF } src dst 1 =
        none ∧
      Streaming.sm4_gcm_decrypt E { ctx with counter := List.replicate 16 0xFF } src dst 1 =
        none := by
  have h : Streaming.counter_loop 16 (List.replicate 16 0xFF) = none := by decide
  refine ⟨h, by decide, ?_, ?_⟩
  · simp only [Streaming.sm4_gcm_encrypt, Streaming.encrypt_loop, h, Nat.one_ne_zero, if_false]
  · simp only [Streaming.sm4_gcm_decrypt, Streaming.decrypt_loop, h, Nat.one_ne_zero, if_false]

/-! ### The streaming round trip -/

theorem getD_drop (l : List Nat) (off i : Nat) : (l.drop off).getD i 0 = l.getD (off + i) 0 := by
  simp only [List.getD_eq_getElem?_getD, List.getElem?_drop]

theorem encrypt_loop_succ (E : List Nat → List Nat → List Nat) (fuel : Nat)
    (ctx : Streaming.sm4_gcm_ctx) (P ct : List Nat) (off len : Nat) (hlen : len ≠ 0) :
    Streaming.encrypt_loop E (fuel + 1) ctx P ct off len =
      match Streaming.counter_loop 16 ctx.counter with
      | none => none
      | some counter =>
        Streaming.encrypt_loop E fuel
          { ctx with
            counter := counter
            tag := Streaming.gcm_mult (xor_128 ctx.tag
              (memcpy (memset (List.replicate 16 0) 0 0 16)
                (((List.range (if len < 16 then len else 16)).foldl
                  (fun c i => c.set (off + i) (P.getD (off + i) 0 ^^^ (E ctx.key ctx.counter).getD i 0))
                  ct).drop off) (if len < 16 then len else 16))) ctx.H
            cipher_len := (ctx.cipher_len + (if len < 16 then len else 16)) % 2 ^ 64 }
          P ((List.range (if len < 16 then len else 16)).foldl
            (fun c i => c.set (off + i) (P.getD (off + i) 0 ^^^ (E ctx.key ctx.counter).getD i 0))
            ct)
          (off + (if len < 16 then len else 16)) (len - (if len < 16 then len else 16)) := by
  rw [Streaming.encrypt_loop, if_neg hlen]

theorem decrypt_loop_succ (E : List Nat → List Nat → List Nat) (fuel : Nat)
    (ctx : Streaming.sm4_gcm_ctx) (C pt : List Nat) (off len : Nat) (hlen : len ≠ 0) :
    Streaming.decrypt_loop E (fuel + 1) ctx C pt off len =
      match Streaming.counter_loop 16 ctx.counter with
      | none => none
      | some counter =>
        Streaming.decrypt_loop E fuel
          { ctx with
            counter := counter
            tag := Streaming.gcm_mult (xor_128 ctx.tag
              (memcpy (memset (List.replicate 16 0) 0 0 16) (C.drop off)
                (if len < 16 then len else 16))) ctx.H
            cipher_len := (ctx.cipher_len + (if len < 16 then len else 16)) % 2 ^ 64 }
          C ((List.range (if len < 16 then len else 16)).foldl
            (fun p i => p.set (off + i) (C.getD (off + i) 0 ^^^ (E ctx.key ctx.counter).getD i 0))
            pt)
          (off + (if len < 16 then len else 16)) (len - (if len < 16 then len else 16)) := by
  rw [Streaming.decrypt_loop, if_neg hlen]

theorem encrypt_loop_frame (E : List Nat → List Nat → List Nat) (fuel : Nat)
    (ctx : Streaming.sm4_gcm_ctx) (P ct : List Nat) (off len : Nat)
    (r : Streaming.sm4_gcm_ctx × List Nat) (hct : off + len ≤ ct.length)
    (h : Streaming.encrypt_loop E fuel ctx P ct off len = some r) :
    r.2.length = ct.length ∧ ∀ k, k < off → r.2.getD k 0 = ct.getD k 0 := by
  induction fuel generalizing ctx ct off len with
  | zero =>
    rw [Streaming.encrypt_loop] at h
    by_cases hlen : len = 0
    · rw [if_pos hlen] at h
      cases h
      exact ⟨rfl, fun _ _ => rfl⟩
    · rw [if_neg hlen] at h
      cases h
  | succ fuel ih =>
    by_cases hlen : len = 0
    · rw [Streaming.encrypt_loop, if_pos hlen] at h
      cases h
      exact ⟨rfl, fun _ _ => rfl⟩
    · rw [encrypt_loop_succ E fuel ctx P ct off len hlen] at h
      cases hcl : Streaming.counter_loop 16 ctx.counter with
      | none =>
        rw [hcl] at h
        cases h
      | some counter =>
        rw [hcl] at h
        have hbl : (if len < 16 then len else 16) ≤ len := by split <;> omega
        have hs := set_loop_spec (fun j => P.getD (off + j) 0 ^^^ (E ctx.key ctx.counter).getD j 0)
          off (if len < 16 then len else 16) ct (by omega)
        obtain ⟨hl1, hg1⟩ := hs
        obtain ⟨hl, hg⟩ := ih _ _ _ _ (by rw [hl1]; omega) h
        refine ⟨hl.trans hl1, fun k hk => ?_⟩
        rw [hg k (by omega), hg1 k, if_neg (by omega)]

theorem stream_loops_inverse (E : List Nat → List Nat → List Nat) (fuel : Nat)
    (ctx ctx1 : Streaming.sm4_gcm_ctx) (P ct pt C : List Nat) (off len : Nat)
    (hct : off + len ≤ ct.length) (hpt : off + len ≤ pt.length)
    (h : Streaming.encrypt_loop E fuel ctx P ct off len = some (ctx1, C)) :
    ∃ D, Streaming.decrypt_loop E fuel ctx C pt off len = some (ctx1, D) ∧
      D.length = pt.length ∧
      (∀ k, off ≤ k → k < off + len → D.getD k 0 = P.getD k 0) ∧
      ∀ k, k < off → D.getD k 0 = pt.getD k 0 := by
  induction fuel generalizing ctx ct pt off len with
  | zero =>
    rw [Streaming.encrypt_loop] at h
    by_cases hlen : len = 0
    · rw [if_pos hlen] at h
      cases h
      refine ⟨pt, ?_, rfl, fun k h1 h2 => ?_, fun _ _ => rfl⟩
      · rw [Streaming.decrypt_loop, if_pos hlen]
      · omega
    · rw [if_neg hlen] at h
      cases h
  | succ fuel ih =>
    by_cases hlen : len = 0
    · rw [Streaming.encrypt_loop, if_pos hlen] at h
      cases h
      refine ⟨pt, ?_, rfl, fun k h1 h2 => ?_, fun _ _ => rfl⟩
      · rw [Streaming.decrypt_loop, if_pos hlen]
      · omega
    · rw [encrypt_loop_succ E fuel ctx P ct off len hlen] at h
      rw [decrypt_loop_succ E fuel ctx C pt off len hlen]
      cases hcl : Streaming.counter_loop 16 ctx.counter with
      | none =>
        rw [hcl] at h
        cases h
      | some counter =>
        rw [hcl] at h
        have hbl : (if len < 16 then len else 16) ≤ len := by split <;> omega
        obtain ⟨hl1, hg1⟩ := set_loop_spec
          (fun j => P.getD (off + j) 0 ^^^ (E ctx.key ctx.counter).getD j 0)
          off (if len < 16 then len else 16) ct (by omega)
        obtain ⟨hlC, hgC⟩ := encrypt_loop_frame E fuel _ P _ _ _ _ (by rw [hl1]; omega) h
        obtain ⟨hl2, hg2⟩ := set_loop_spec
          (fun j => C.getD (off + j) 0 ^^^ (E ctx.key ctx.counter).getD j 0)
          off (if len < 16 then len else 16) pt (by omega)
        have htemp : memcpy (memset (List.replicate 16 0) 0 0 16) (C.drop off)
              (if len < 16 then len else 16) =
            memcpy (memset (List.replicate 16 0) 0 0 16)
              (((List.range (if len < 16 then len else 16)).foldl
                (fun c i => c.set (off + i)
                  (P.getD (off + i) 0 ^^^ (E ctx.key ctx.counter).getD i 0)) ct).drop off)
              (if len < 16 then len else 16) := by
          unfold memcpy
          congr 1
          rw [take_eq_iff _ _ _ (by rw [List.length_drop, hlC, hl1]; omega)
            (by rw [List.length_drop, hl1]; omega)]
          intro i hi
          rw [getD_drop, getD_drop]
          exact hgC (off + i) (by omega)
        rw [htemp]
        obtain ⟨D, hD, hDl, hDg, hDf⟩ := ih _ _ _ _ _ (by rw [hl1]; omega)
          (show off + (if len < 16 then len else 16) + (len - (if len < 16 then len else 16)) ≤
            ((List.range (if len < 16 then len else 16)).foldl
              (fun p i => p.set (off + i)
                (C.getD (off + i) 0 ^^^ (E ctx.key ctx.counter).getD i 0)) pt).length by
            rw [hl2]; omega) h
        refine ⟨D, hD, hDl.trans hl2, fun k h1 h2 => ?_, fun k hk => ?_⟩
        · by_cases hk : k < off + (if len < 16 then len else 16)
          · rw [hDf k hk, hg2 k, if_pos ⟨h1, hk⟩]
            have e : off + (k - off) = k := by omega
            rw [e, hgC k hk, hg1 k, if_pos ⟨h1, hk⟩]
            simp only [e]
            exact Nat.xor_cancel_right _ _
          · exact hDg k (by omega) (by omega)
        · rw [hDf k (by omega), hg2 k, if_neg (by omega)]

/-- C25: the streaming round trip. For every block function `E` and every context `ctx`, if
the streaming `sm4_gcm_encrypt` over `len` bytes of `P` returns (the counter loop never
leaves the counter array) with ciphertext buffer `C` and context `ctx1`, then the streaming
`sm4_gcm_decrypt` started from the same `ctx` on `C` returns too, its first `len` plaintext
bytes are those of `P`, and its final context is `ctx1` itself: same tag accumulator,
counter and `cipher_len`, so `sm4_gcm_final` yields the same tag on both sides. -/
theorem stream_round_trip (E : List Nat → List Nat → List Nat)
    (ctx ctx1 : Streaming.sm4_gcm_ctx) (P ct0 pt0 C : List Nat) (len : Nat)
    (hP : len ≤ P.length) (hct : len ≤ ct0.length) (hpt : len ≤ pt0.length)
    (h : Streaming.sm4_gcm_encrypt E ctx P ct0 len = some (ctx1, C)) :
    ∃ D, Streaming.sm4_gcm_decrypt E ctx C pt0 len = some (ctx1, D) ∧
      D.take len = P.take len ∧
      ∀ (tag : List Nat) (tag_len : Nat),
        (Streaming.sm4_gcm_decrypt E ctx C pt0 len).map
            (fun r => (Streaming.sm4_gcm_final E r.1 tag tag_len).2) =
          some (Streaming.sm4_gcm_final E ctx1 tag tag_len).2 := by
  obtain ⟨D, hD, hDl, hDg, -⟩ := stream_loops_inverse E len ctx ctx1 P ct0 pt0 C 0 len
    (by omega) (by omega) h
  refine ⟨D, hD, ?_, fun tag tag_len => ?_⟩
  · rw [take_eq_iff _ _ _ (by omega) hP]
    intro i hi
    exact hDg i (by omega) (by omega)
  · unfold Streaming.sm4_gcm_decrypt
    rw [hD]
    rfl

set_option maxRecDepth 100000 in
theorem stream_round_trip_witness :
    23 ≤ vector_d_plaintext.length ∧ 23 ≤ (List.replicate 23 0).length ∧
      Streaming.sm4_gcm_encrypt E_K
          (Streaming.sm4_gcm_init E_K Streaming.ctx_zero gmt_key 16 main_iv 12 [] 0).2
          vector_d_plaintext (List.replicate 23 0) 23 =
        some (Streaming.vector_d_ctx, Streaming.vector_d_cipher) ∧
      ∃ D, Streaming.sm4_gcm_decrypt E_K
            (Streaming.sm4_gcm_init E_K Streaming.ctx_zero gmt_key 16 main_iv 12 [] 0).2
            Streaming.vector_d_cipher (List.replicate 23 0) 23 =
          some (Streaming.vector_d_ctx, D) ∧
        D.take 23 = vector_d_plaintext.take 23 ∧
        ∀ (tag : List Nat) (tag_len : Nat),
          (Streaming.sm4_gcm_decrypt E_K
              (Streaming.sm4_gcm_init E_K Streaming.ctx_zero gmt_key 16 main_iv 12 [] 0).2
              Streaming.vector_d_cipher (List.replicate 23 0) 23).map
              (fun r => (Streaming.sm4_gcm_final E_K r.1 tag tag_len).2) =
            some (Streaming.sm4_gcm_final E_K Streaming.vector_d_ctx tag tag_len).2 :=
  ⟨by decide, by decide, by decide,
    stream_round_trip E_K
      (Streaming.sm4_gcm_init E_K Streaming.ctx_zero gmt_key 16 main_iv 12 [] 0).2
      Streaming.vector_d_ctx vector_d_plaintext (List.replicate 23 0) (List.replicate 23 0)
      Streaming.vector_d_cipher 23 (by decide) (by decide) (by decide) (by decide)⟩

/-! ### The product of `gf_mult` on integers -/

theorem xtime_zero : xtime 0 = 0 := by decide

theorem xtime_xor (u v : Nat) : xtime (u ^^^ v) = xtime u ^^^ xtime v := by
  have h : ((u ^^^ v) <<< 1) % 2 ^ 128 = ((u <<< 1) % 2 ^ 128) ^^^ ((v <<< 1) % 2 ^ 128) := by
    apply Nat.eq_of_testBit_eq
    intro i
    simp only [Nat.testBit_mod_two_pow, Nat.testBit_xor, Nat.testBit_shiftLeft]
    cases decide (i < 128) <;> cases decide (i ≥ 1) <;> simp
  unfold xtime
  rw [h, Nat.testBit_xor]
  cases u.testBit 127 <;> cases v.testBit 127 <;>
    simp only [Bool.xor_false, Bool.xor_true, Bool.not_false, Bool.not_true, if_true, if_false,
      Bool.false_eq_true, Nat.xor_zero] <;>
    apply Nat.eq_of_testBit_eq <;> intro i <;> simp only [Nat.testBit_xor] <;>
    cases (((u <<< 1) % 2 ^ 128).testBit i) <;> cases (((v <<< 1) % 2 ^ 128).testBit i) <;>
    cases (Nat.testBit 135 i) <;> rfl

theorem xtime_of_lt (u : Nat) (h : u < 2 ^ 127) : xtime u = 2 * u := by
  unfold xtime
  rw [Nat.testBit_lt_two_pow h, Nat.shiftLeft_eq, Nat.mod_eq_of_lt (by omega)]
  simp only [Bool.false_eq_true, if_false, Nat.xor_zero]
  omega

theorem xtime_iter_xor (n u v : Nat) : xtime^[n] (u ^^^ v) = xtime^[n] u ^^^ xtime^[n] v := by
  induction n with
  | zero => rfl
  | succ n ih => rw [Function.iterate_succ_apply', Function.iterate_succ_apply',
      Function.iterate_succ_apply', ih, xtime_xor]

theorem xtime_iter_zero (n : Nat) : xtime^[n] 0 = 0 := by
  induction n with
  | zero => rfl
  | succ n ih => rw [Function.iterate_succ_apply', ih, xtime_zero]

theorem xtime_iter_one (n : Nat) (h : n ≤ 127) : xtime^[n] 1 = 2 ^ n := by
  induction n with
  | zero => rfl
  | succ n ih =>
    rw [Function.iterate_succ_apply', ih (by omega),
      xtime_of_lt _ (Nat.pow_lt_pow_right (by decide) (by omega)), Nat.pow_succ, Nat.mul_comm]

theorem xor_ite_zero (c : Prop) [Decidable c] (x y : Nat) :
    (if c then x ^^^ y else 0) = (if c then x else 0) ^^^ (if c then y else 0) := by
  split <;> simp

theorem xor_xor_xor_comm (a b c d : Nat) : (a ^^^ b) ^^^ (c ^^^ d) = (a ^^^ c) ^^^ (b ^^^ d) := by
  rw [Nat.xor_assoc, Nat.xor_assoc, ← Nat.xor_assoc b c d, Nat.xor_comm b c, Nat.xor_assoc c b d]

theorem gf_sum_xor_left (n u v w : Nat) :
    gf_sum n (u ^^^ v) w = gf_sum n u w ^^^ gf_sum n v w := by
  induction n with
  | zero => simp [gf_sum]
  | succ n ih => rw [gf_sum, gf_sum, gf_sum, ih, xtime_iter_xor, xor_ite_zero, xor_xor_xor_comm]

theorem gf_sum_zero_left (n w : Nat) : gf_sum n 0 w = 0 := by
  induction n with
  | zero => rfl
  | succ n ih =>
    rw [gf_sum, ih, xtime_iter_zero]
    simp

theorem gf_sum_xtime (n u w : Nat) : gf_sum n (xtime u) w = xtime (gf_sum n u w) := by
  induction n with
  | zero => exact xtime_zero.symm
  | succ n ih =>
    rw [gf_sum, gf_sum, ih, xtime_xor, ← Function.iterate_succ_apply,
      Function.iterate_succ_apply']
    congr 1
    split
    · rfl
    · exact xtime_zero.symm

theorem gf_sum_xtime_iter (k n u w : Nat) :
    gf_sum n (xtime^[k] u) w = xtime^[k] (gf_sum n u w) := by
  induction k with
  | zero => rfl
  | succ k ih => rw [Function.iterate_succ_apply', Function.iterate_succ_apply', gf_sum_xtime, ih]

theorem mod_two_pow_succ_xor (v n : Nat) :
    (v % 2 ^ n) ^^^ (if v.testBit n then 2 ^ n else 0) = v % 2 ^ (n + 1) := by
  apply Nat.eq_of_testBit_eq
  intro i
  rw [Nat.testBit_xor, Nat.testBit_mod_two_pow, Nat.testBit_mod_two_pow]
  by_cases h1 : i < n
  · have h2 : i < n + 1 := by omega
    have h3 : n ≠ i := by omega
    split <;> simp [h1, h2, h3, Nat.testBit_two_pow]
  · by_cases h2 : i = n
    · subst h2
      cases hb : v.testBit i <;> simp [hb, Nat.testBit_two_pow]
    · have h3 : ¬ i < n + 1 := by omega
      have h4 : n ≠ i := by omega
      split <;> simp [h1, h3, h4, Nat.testBit_two_pow]

theorem gf_sum_one (n v : Nat) (h : n ≤ 128) : gf_sum n 1 v = v % 2 ^ n := by
  induction n with
  | zero => simp [gf_sum, Nat.mod_one]
  | succ n ih => rw [gf_sum, ih (by omega), xtime_iter_one n (by omega), mod_two_pow_succ_xor]

theorem gf_sum_two_pow (n u : Nat) (hn : n ≤ 127) (hu : u < 2 ^ 128) :
    gf_sum 128 (2 ^ n) u = xtime^[n] u := by
  rw [← xtime_iter_one n hn, gf_sum_xtime_iter, gf_sum_one 128 u (Nat.le_refl _),
    Nat.mod_eq_of_lt hu]

theorem gf_sum_comm_aux (n u v : Nat) (hn : n ≤ 128) (hu : u < 2 ^ 128) :
    gf_sum n u v = gf_sum 128 (v % 2 ^ n) u := by
  induction n with
  | zero => rw [gf_sum, Nat.pow_zero, Nat.mod_one, gf_sum_zero_left]
  | succ n ih =>
    rw [gf_sum, ih (by omega), ← mod_two_pow_succ_xor, gf_sum_xor_left]
    congr 1
    split
    · exact (gf_sum_two_pow n u (by omega) hu).symm
    · exact (gf_sum_zero_left 128 u).symm

theorem gf_sum_comm (u v : Nat) (hu : u < 2 ^ 128) (hv : v < 2 ^ 128) :
    gf_sum 128 u v = gf_sum 128 v u := by
  rw [gf_sum_comm_aux 128 u v (Nat.le_refl _) hu, Nat.mod_eq_of_lt hv]

/-! ### Blocks as integers -/

theorem le_value_testBit (l : List Nat) (hl : ∀ x ∈ l, x < 256) (i : Nat) :
    (le_value l).testBit i = (l.getD (i / 8) 0).testBit (i % 8) := by
  induction l generalizing i with
  | nil => simp [le_value]
  | cons x l ih =>
    have hx : x < 2 ^ 8 := hl x (List.mem_cons_self _ _)
    have e : le_value (x :: l) = 2 ^ 8 * le_value l + x := by
      rw [le_value]
      omega
    rw [e, Nat.testBit_mul_pow_two_add _ hx]
    by_cases h : i < 8
    · have h0 : i / 8 = 0 := by omega
      have h1 : i % 8 = i := by omega
      rw [if_pos h, h0, h1]
      rfl
    · have h0 : i / 8 = (i - 8) / 8 + 1 := by omega
      have h1 : i % 8 = (i - 8) % 8 := by omega
      rw [if_neg h, ih (fun y hy => hl y (List.mem_cons_of_mem _ hy)), h0, h1]
      rfl

theorem le_value_inj (a b : List Nat) (hl : a.length = b.length) (ha : ∀ x ∈ a, x < 256)
    (hb : ∀ x ∈ b, x < 256) (h : le_value a = le_value b) : a = b := by
  induction a generalizing b with
  | nil =>
    cases b with
    | nil => rfl
    | cons y b => simp at hl
  | cons x a ih =>
    cases b with
    | nil => simp at hl
    | cons y b =>
      have hx := ha x (List.mem_cons_self _ _)
      have hy := hb y (List.mem_cons_self _ _)
      rw [le_value, le_value] at h
      have e1 : x = y := by omega
      have e2 : le_value a = le_value b := by omega
      rw [e1, ih b (by simpa using hl) (fun z hz => ha z (List.mem_cons_of_mem _ hz))
        (fun z hz => hb z (List.mem_cons_of_mem _ hz)) e2]

theorem be_value_inj (a b : List Nat) (ha : IsBlock a) (hb : IsBlock b)
    (h : be_value a = be_value b) : a = b := by
  have hr : a.reverse = b.reverse :=
    le_value_inj _ _ (by rw [List.length_reverse, List.length_reverse, ha.1, hb.1])
      (fun x hx => ha.2 x (List.mem_reverse.mp hx)) (fun x hx => hb.2 x (List.mem_reverse.mp hx)) h
  exact List.reverse_injective hr

theorem getD_lt (l : List Nat) (hl : ∀ x ∈ l, x < 256) (k : Nat) : l.getD k 0 < 256 := by
  rw [List.getD_eq_getElem?_getD]
  by_cases hk : k < l.length
  · rw [List.getElem?_eq_getElem hk]
    exact hl _ (List.getElem_mem hk)
  · rw [List.getElem?_eq_none (by omega)]
    decide

theorem be_value_testBit (l : List Nat) (hl : IsBlock l) (i : Nat) :
    (be_value l).testBit i = (decide (i < 128) && (l.getD (15 - i / 8) 0).testBit (i % 8)) := by
  unfold be_value
  rw [le_value_testBit _ (fun x hx => hl.2 x (List.mem_reverse.mp hx))]
  by_cases hi : i < 128
  · have hk : i / 8 < l.length := by rw [hl.1]; omega
    rw [List.getD_eq_getElem?_getD, List.getElem?_reverse hk, ← List.getD_eq_getElem?_getD, hl.1]
    simp [hi]
  · rw [List.getD_eq_getElem?_getD, List.getElem?_eq_none (by
      rw [List.length_reverse, hl.1]; omega)]
    simp [hi]

theorem be_value_lt (l : List Nat) (hl : IsBlock l) : be_value l < 2 ^ 128 := by
  apply Nat.lt_pow_two_of_testBit
  intro i hi
  rw [be_value_testBit l hl]
  have : ¬ i < 128 := by omega
  simp [this]

theorem xor_128_isBlock (a b : List Nat) (ha : IsBlock a) (hb : IsBlock b) :
    IsBlock (xor_128 a b) := by
  refine ⟨xor_128_length a b, fun x hx => ?_⟩
  unfold xor_128 at hx
  obtain ⟨i, -, rfl⟩ := List.mem_map.mp hx
  exact Nat.xor_lt_two_pow (n := 8) (getD_lt a ha.2 i) (getD_lt b hb.2 i)

theorem be_value_xor (a b : List Nat) (ha : IsBlock a) (hb : IsBlock b) :
    be_value (xor_128 a b) = be_value a ^^^ be_value b := by
  apply Nat.eq_of_testBit_eq
  intro i
  rw [Nat.testBit_xor, be_value_testBit _ (xor_128_isBlock a b ha hb), be_value_testBit a ha,
    be_value_testBit b hb]
  by_cases hi : i < 128
  · rw [xor_128_getD a b _ (by omega), Nat.testBit_xor]
    simp [hi]
  · simp [hi]


theorem be_value_16 (a0 a1 a2 a3 a4 a5 a6 a7 a8 a9 a10 a11 a12 a13 a14 a15 : Nat) :
    be_value [a0, a1, a2, a3, a4, a5, a6, a7, a8, a9, a10, a11, a12, a13, a14, a15] =
      a15 + 256 * (a14 + 256 * (a13 + 256 * (a12 + 256 * (a11 + 256 * (a10 + 256 * (a9 + 256 *
        (a8 + 256 * (a7 + 256 * (a6 + 256 * (a5 + 256 * (a4 + 256 * (a3 + 256 * (a2 + 256 *
          (a1 + 256 * (a0 + 256 * 0))))))))))))))) := rfl

theorem shift_left_one_16 (a0 a1 a2 a3 a4 a5 a6 a7 a8 a9 a10 a11 a12 a13 a14 a15 : Nat) :
    shift_left_one [a0, a1, a2, a3, a4, a5, a6, a7, a8, a9, a10, a11, a12, a13, a14, a15] =
      ([((a0 <<< 1) % 256) ||| ((a1 >>> 7) &&& 1), ((a1 <<< 1) % 256) ||| ((a2 >>> 7) &&& 1),
        ((a2 <<< 1) % 256) ||| ((a3 >>> 7) &&& 1), ((a3 <<< 1) % 256) ||| ((a4 >>> 7) &&& 1),
        ((a4 <<< 1) % 256) ||| ((a5 >>> 7) &&& 1), ((a5 <<< 1) % 256) ||| ((a6 >>> 7) &&& 1),
        ((a6 <<< 1) % 256) ||| ((a7 >>> 7) &&& 1), ((a7 <<< 1) % 256) ||| ((a8 >>> 7) &&& 1),
        ((a8 <<< 1) % 256) ||| ((a9 >>> 7) &&& 1), ((a9 <<< 1) % 256) ||| ((a10 >>> 7) &&& 1),
        ((a10 <<< 1) % 256) ||| ((a11 >>> 7) &&& 1), ((a11 <<< 1) % 256) ||| ((a12 >>> 7) &&& 1),
        ((a12 <<< 1) % 256) ||| ((a13 >>> 7) &&& 1), ((a13 <<< 1) % 256) ||| ((a14 >>> 7) &&& 1),
        ((a14 <<< 1) % 256) ||| ((a15 >>> 7) &&& 1), ((a15 <<< 1) % 256) ||| 0],
        (a0 >>> 7) &&& 1) := by
  have hr : List.range 16 = [0, 1, 2, 3, 4, 5, 6, 7, 8, 9, 10, 11, 12, 13, 14, 15] := by decide
  unfold shift_left_one
  rw [hr]
  simp only [List.foldl_cons, List.foldl_nil, Nat.reduceSub, List.getD_cons_succ,
    List.getD_cons_zero, List.set_cons_succ, List.set_cons_zero]

theorem carry_eq (y : Nat) : (y >>> 7) &&& 1 = y / 128 % 2 := by
  rw [Nat.and_one_is_mod, Nat.shiftRight_eq_div_pow]

theorem byte_shl_carry (x y : Nat) :
    ((x <<< 1) % 256) ||| (y / 128 % 2) = 2 * (x % 128) + y / 128 % 2 := by
  have h2 : (x <<< 1) % 256 = 2 ^ 1 * (x % 128) := by
    rw [Nat.shiftLeft_eq]
    omega
  have h3 : y / 128 % 2 < 2 ^ 1 := by omega
  rw [h2, ← Nat.mul_add_lt_is_or h3]

theorem byte_shl_zero (x : Nat) : ((x <<< 1) % 256) ||| 0 = 2 * (x % 128) := by
  rw [Nat.or_zero, Nat.shiftLeft_eq]
  omega

theorem low_byte_xor (r x k : Nat) (hx : x < 256) (hk : k < 256) :
    (x + 256 * r) ^^^ k = (x ^^^ k) + 256 * r := by
  have e1 : x + 256 * r = 2 ^ 8 * r + x := by omega
  have e2 : (x ^^^ k) + 256 * r = 2 ^ 8 * r + (x ^^^ k) := by omega
  rw [e1, e2]
  apply Nat.eq_of_testBit_eq
  intro j
  rw [Nat.testBit_xor, Nat.testBit_mul_pow_two_add _ (show x < 2 ^ 8 from hx),
    Nat.testBit_mul_pow_two_add _ (Nat.xor_lt_two_pow (n := 8) hx hk)]
  by_cases hj : j < 8
  · simp [hj]
  · have hle : (2 : Nat) ^ 8 ≤ 2 ^ j := Nat.pow_le_pow_right (by decide) (by omega)
    have hkj : k.testBit j = false := Nat.testBit_lt_two_pow (Nat.lt_of_lt_of_le hk hle)
    simp [hj, hkj]

theorem shifted_value (a0 a1 a2 a3 a4 a5 a6 a7 a8 a9 a10 a11 a12 a13 a14 a15 : Nat)
    (h1 : a1 < 256) (h2 : a2 < 256) (h3 : a3 < 256) (h4 : a4 < 256) (h5 : a5 < 256) (h6 : a6 < 256) (h7 : a7 < 256) (h8 : a8 < 256) (h9 : a9 < 256) (h10 : a10 < 256) (h11 : a11 < 256) (h12 : a12 < 256) (h13 : a13 < 256) (h14 : a14 < 256) (h15 : a15 < 256) :
    be_value [
        2 * (a0 % 128) + a1 / 128 % 2, 2 * (a1 % 128) + a2 / 128 % 2,
        2 * (a2 % 128) + a3 / 128 % 2, 2 * (a3 % 128) + a4 / 128 % 2,
        2 * (a4 % 128) + a5 / 128 % 2, 2 * (a5 % 128) + a6 / 128 % 2,
        2 * (a6 % 128) + a7 / 128 % 2, 2 * (a7 % 128) + a8 / 128 % 2,
        2 * (a8 % 128) + a9 / 128 % 2, 2 * (a9 % 128) + a10 / 128 % 2,
        2 * (a10 % 128) + a11 / 128 % 2, 2 * (a11 % 128) + a12 / 128 % 2,
        2 * (a12 % 128) + a13 / 128 % 2, 2 * (a13 % 128) + a14 / 128 % 2,
        2 * (a14 % 128) + a15 / 128 % 2, 2 * (a15 % 128)] =
      (be_value [a0, a1, a2, a3, a4, a5, a6, a7, a8, a9, a10, a11, a12, a13, a14, a15] * 2) % 2 ^ 128 := by
  rw [be_value_16, be_value_16]
  omega

theorem shifted_value_reduced (a0 a1 a2 a3 a4 a5 a6 a7 a8 a9 a10 a11 a12 a13 a14 a15 : Nat)
    (h1 : a1 < 256) (h2 : a2 < 256) (h3 : a3 < 256) (h4 : a4 < 256) (h5 : a5 < 256) (h6 : a6 < 256) (h7 : a7 < 256) (h8 : a8 < 256) (h9 : a9 < 256) (h10 : a10 < 256) (h11 : a11 < 256) (h12 : a12 < 256) (h13 : a13 < 256) (h14 : a14 < 256) (h15 : a15 < 256) :
    be_value [
        2 * (a0 % 128) + a1 / 128 % 2, 2 * (a1 % 128) + a2 / 128 % 2,
        2 * (a2 % 128) + a3 / 128 % 2, 2 * (a3 % 128) + a4 / 128 % 2,
        2 * (a4 % 128) + a5 / 128 % 2, 2 * (a5 % 128) + a6 / 128 % 2,
        2 * (a6 % 128) + a7 / 128 % 2, 2 * (a7 % 128) + a8 / 128 % 2,
        2 * (a8 % 128) + a9 / 128 % 2, 2 * (a9 % 128) + a10 / 128 % 2,
        2 * (a10 % 128) + a11 / 128 % 2, 2 * (a11 % 128) + a12 / 128 % 2,
        2 * (a12 % 128) + a13 / 128 % 2, 2 * (a13 % 128) + a14 / 128 % 2,
        2 * (a14 % 128) + a15 / 128 % 2, (2 * (a15 % 128)) ^^^ 0x87] =
      ((be_value [a0, a1, a2, a3, a4, a5, a6, a7, a8, a9, a10, a11, a12, a13, a14, a15] * 2) % 2 ^ 128) ^^^ 0x87 := by
  rw [← shifted_value a0 a1 a2 a3 a4 a5 a6 a7 a8 a9 a10 a11 a12 a13 a14 a15 h1 h2 h3 h4 h5 h6 h7 h8
    h9 h10 h11 h12 h13 h14 h15, be_value_16, be_value_16,
    low_byte_xor _ _ _ (show 2 * (a15 % 128) < 256 by omega) (by decide)]

theorem shifted_isBlock (a0 a1 a2 a3 a4 a5 a6 a7 a8 a9 a10 a11 a12 a13 a14 a15 c : Nat) (hc : c < 256) :
    IsBlock [
        2 * (a0 % 128) + a1 / 128 % 2, 2 * (a1 % 128) + a2 / 128 % 2,
        2 * (a2 % 128) + a3 / 128 % 2, 2 * (a3 % 128) + a4 / 128 % 2,
        2 * (a4 % 128) + a5 / 128 % 2, 2 * (a5 % 128) + a6 / 128 % 2,
        2 * (a6 % 128) + a7 / 128 % 2, 2 * (a7 % 128) + a8 / 128 % 2,
        2 * (a8 % 128) + a9 / 128 % 2, 2 * (a9 % 128) + a10 / 128 % 2,
        2 * (a10 % 128) + a11 / 128 % 2, 2 * (a11 % 128) + a12 / 128 % 2,
        2 * (a12 % 128) + a13 / 128 % 2, 2 * (a13 % 128) + a14 / 128 % 2,
        2 * (a14 % 128) + a15 / 128 % 2, c] := by
  refine ⟨rfl, fun x hx => ?_⟩
  simp only [List.mem_cons, List.mem_singleton, List.not_mem_nil, or_false] at hx
  rcases hx with h | h | h | h | h | h | h | h | h | h | h | h | h | h | h | h <;>
    subst h <;> omega

theorem top_bit_eq (a0 a1 a2 a3 a4 a5 a6 a7 a8 a9 a10 a11 a12 a13 a14 a15 : Nat)
    (h1 : a1 < 256) (h2 : a2 < 256) (h3 : a3 < 256) (h4 : a4 < 256) (h5 : a5 < 256) (h6 : a6 < 256) (h7 : a7 < 256) (h8 : a8 < 256) (h9 : a9 < 256) (h10 : a10 < 256) (h11 : a11 < 256) (h12 : a12 < 256) (h13 : a13 < 256) (h14 : a14 < 256) (h15 : a15 < 256) :
    (be_value [a0, a1, a2, a3, a4, a5, a6, a7, a8, a9, a10, a11, a12, a13, a14, a15]).testBit 127 =
      decide (a0 / 128 % 2 ≠ 0) := by
  rw [Nat.testBit_to_div_mod, be_value_16]
  congr 1
  apply propext
  constructor <;> intro h <;> omega

theorem shift_reduce_spec (t : List Nat) (ht : IsBlock t) :
    IsBlock (if (shift_left_one t).2 ≠ 0 then
        (shift_left_one t).1.set 15 ((shift_left_one t).1.getD 15 0 ^^^ 0x87)
      else (shift_left_one t).1) ∧
      be_value (if (shift_left_one t).2 ≠ 0 then
        (shift_left_one t).1.set 15 ((shift_left_one t).1.getD 15 0 ^^^ 0x87)
      else (shift_left_one t).1) = xtime (be_value t) := by
  obtain ⟨hl, hb⟩ := ht
  obtain ⟨a0, a1, a2, a3, a4, a5, a6, a7, a8, a9, a10, a11, a12, a13, a14, a15, rfl⟩ :=
    block16_cases t hl
  simp only [List.mem_cons, List.mem_singleton, forall_eq_or_imp, forall_eq, List.not_mem_nil,
    IsEmpty.forall_iff, implies_true, and_true] at hb
  obtain ⟨-, h1, h2, h3, h4, h5, h6, h7, h8, h9, h10, h11, h12, h13, h14, h15⟩ := hb
  rw [shift_left_one_16]
  simp only [carry_eq, byte_shl_carry, byte_shl_zero, List.getD_cons_succ, List.getD_cons_zero,
    List.set_cons_succ, List.set_cons_zero]
  unfold xtime
  rw [top_bit_eq a0 a1 a2 a3 a4 a5 a6 a7 a8 a9 a10 a11 a12 a13 a14 a15 h1 h2 h3 h4 h5 h6 h7 h8 h9
    h10 h11 h12 h13 h14 h15, Nat.shiftLeft_eq, Nat.pow_one]
  by_cases hc : a0 / 128 % 2 ≠ 0
  · rw [if_pos hc, decide_eq_true hc, if_pos rfl]
    exact ⟨shifted_isBlock _ _ _ _ _ _ _ _ _ _ _ _ _ _ _ _ _
        (Nat.xor_lt_two_pow (n := 8) (show 2 * (a15 % 128) < 256 by omega) (by decide)),
      shifted_value_reduced a0 a1 a2 a3 a4 a5 a6 a7 a8 a9 a10 a11 a12 a13 a14 a15 h1 h2 h3 h4 h5
        h6 h7 h8 h9 h10 h11 h12 h13 h14 h15⟩
  · rw [if_neg hc, decide_eq_false hc, if_neg Bool.false_ne_true, Nat.xor_zero]
    exact ⟨shifted_isBlock _ _ _ _ _ _ _ _ _ _ _ _ _ _ _ _ _ (show 2 * (a15 % 128) < 256 by omega),
      shifted_value a0 a1 a2 a3 a4 a5 a6 a7 a8 a9 a10 a11 a12 a13 a14 a15 h1 h2 h3 h4 h5 h6 h7 h8
        h9 h10 h11 h12 h13 h14 h15⟩

theorem bit_eq (b : List Nat) (hb : IsBlock b) (i : Nat) (hi : i < 128) :
    ((b.getD ((127 - i) / 8) 0 >>> (7 - (127 - i) % 8)) &&& 1 ≠ 0) ↔
      (be_value b).testBit i = true := by
  have e1 : (127 - i) / 8 = 15 - i / 8 := by omega
  have e2 : 7 - (127 - i) % 8 = i % 8 := by omega
  rw [be_value_testBit b hb, e1, e2, decide_eq_true hi, Bool.true_and, Nat.testBit,
    Nat.and_comm]
  simp

theorem gf_mult_step_spec (b : List Nat) (hb : IsBlock b) (s : List Nat × List Nat) (i : Nat)
    (hi : i < 128) (h1 : IsBlock s.1) (h2 : IsBlock s.2) :
    IsBlock (gf_mult_step b s i).1 ∧ IsBlock (gf_mult_step b s i).2 ∧
      be_value (gf_mult_step b s i).1 =
        be_value s.1 ^^^ (if (be_value b).testBit i then be_value s.2 else 0) ∧
      be_value (gf_mult_step b s i).2 = xtime (be_value s.2) := by
  obtain ⟨hs1, hs2⟩ := shift_reduce_spec s.2 h2
  refine ⟨?_, hs1, ?_, hs2⟩
  · unfold gf_mult_step
    simp only
    split
    · exact xor_128_isBlock _ _ h1 h2
    · exact h1
  · unfold gf_mult_step
    simp only
    by_cases hbit : (b.getD ((127 - i) / 8) 0 >>> (7 - (127 - i) % 8)) &&& 1 ≠ 0
    · rw [if_pos hbit, if_pos ((bit_eq b hb i hi).mp hbit), be_value_xor _ _ h1 h2]
    · rw [if_neg hbit, if_neg (fun h => hbit ((bit_eq b hb i hi).mpr h)), Nat.xor_zero]

theorem gf_mult_fold_spec (a b : List Nat) (ha : IsBlock a) (hb : IsBlock b) (n : Nat)
    (hn : n ≤ 128) :
    IsBlock ((List.range n).foldl (gf_mult_step b) (List.replicate 16 0, a)).1 ∧
      IsBlock ((List.range n).foldl (gf_mult_step b) (List.replicate 16 0, a)).2 ∧
      be_value ((List.range n).foldl (gf_mult_step b) (List.replicate 16 0, a)).1 =
        gf_sum n (be_value a) (be_value b) ∧
      be_value ((List.range n).foldl (gf_mult_step b) (List.replicate 16 0, a)).2 =
        xtime^[n] (be_value a) := by
  induction n with
  | zero =>
    have hz : IsBlock (List.replicate 16 0) := by decide
    exact ⟨hz, ha, rfl, rfl⟩
  | succ n ih =>
    obtain ⟨i1, i2, i3, i4⟩ := ih (by omega)
    obtain ⟨s1, s2, s3, s4⟩ := gf_mult_step_spec b hb _ n (by omega) i1 i2
    rw [List.range_succ, List.foldl_append, List.foldl_cons, List.foldl_nil]
    refine ⟨s1, s2, ?_, ?_⟩
    · rw [s3, i3, i4, gf_sum]
    · rw [s4, i4, Function.iterate_succ_apply']

theorem memcpy_block (a : List Nat) (h : a.length = 16) :
    memcpy (List.replicate 16 0) a 16 = a := by
  unfold memcpy
  rw [List.take_of_length_le (by omega)]
  simp

theorem gf_mult_value (a b : List Nat) (ha : IsBlock a) (hb : IsBlock b) :
    IsBlock (gf_mult a b) ∧ be_value (gf_mult a b) = gf_sum 128 (be_value a) (be_value b) := by
  unfold gf_mult
  rw [memcpy_block a ha.1]
  obtain ⟨h1, -, h3, -⟩ := gf_mult_fold_spec a b ha hb 128 (Nat.le_refl _)
  exact ⟨h1, h3⟩

theorem gf_mult_step_take (y : List Nat) (s : List Nat × List Nat) (i : Nat) :
    gf_mult_step (y.take 16) s i = gf_mult_step y s i := by
  unfold gf_mult_step
  have e : (y.take 16).getD ((127 - i) / 8) 0 = y.getD ((127 - i) / 8) 0 := by
    rw [List.getD_eq_getElem?_getD, List.getD_eq_getElem?_getD,
      List.getElem?_take_of_lt (by omega)]
  simp only [e]

theorem gf_mult_take (x y : List Nat) : gf_mult (x.take 16) (y.take 16) = gf_mult x y := by
  unfold gf_mult memcpy
  rw [List.take_take, Nat.min_self]
  congr 2
  funext s i
  exact gf_mult_step_take y s i

theorem gf_mult_length (x y : List Nat) : (gf_mult x y).length = 16 := by
  unfold gf_mult
  have h : ∀ (n : Nat) (s : List Nat × List Nat), s.1.length = 16 →
      ((List.range n).foldl (gf_mult_step y) s).1.length = 16 := by
    intro n
    induction n with
    | zero => exact fun s hs => hs
    | succ n ih =>
      intro s hs
      rw [List.range_succ, List.foldl_append, List.foldl_cons, List.foldl_nil]
      unfold gf_mult_step
      simp only
      split
      · exact xor_128_length _ _
      · exact ih s hs
  exact h 128 _ (by simp)

theorem gf_mult_at_out (mem : List Nat) (a b out : Nat) (h : out + 16 ≤ mem.length) :
    ((gf_mult_at mem a b out).drop out).take 16 =
      gf_mult ((mem.drop a).take 16) ((mem.drop b).take 16) := by
  have e : gf_mult_at mem a b out =
      Streaming.memcpy_at mem out (gf_mult (mem.drop a) (mem.drop b)) 16 := rfl
  rw [e, gf_mult_take]
  unfold Streaming.memcpy_at
  rw [List.take_of_length_le (Nat.le_of_eq (gf_mult_length _ _)), List.append_assoc,
    List.drop_left' (by rw [List.length_take]; omega),
    List.take_left' (gf_mult_length _ _)]

/-- C26: `gf_mult` is a commutative, xor-bilinear product. For all 16-byte blocks `a`, `a1`
and `b`, `gf_mult a b = gf_mult b a`, `gf_mult (a xor a1) b = gf_mult a b xor gf_mult a1 b`
and the same in the second argument; and in a memory where `a`, `b` and `out` are offsets,
the 16 bytes at `out` after the call are the product of the operands as they were before
the call also when `out = a`, as in the `gf_mult(state, H, state)` of `ghash`. -/
theorem gf_mult_comm_bilinear (a a1 b : List Nat) (ha : IsBlock a) (ha1 : IsBlock a1)
    (hb : IsBlock b) (mem : List Nat) (pa pb : Nat) (hpa : pa + 16 ≤ mem.length) :
    gf_mult a b = gf_mult b a ∧
      gf_mult (xor_128 a a1) b = xor_128 (gf_mult a b) (gf_mult a1 b) ∧
      gf_mult b (xor_128 a a1) = xor_128 (gf_mult b a) (gf_mult b a1) ∧
      ((gf_mult_at mem pa pb pa).drop pa).take 16 =
        gf_mult ((mem.drop pa).take 16) ((mem.drop pb).take 16) := by
  have hx := xor_128_isBlock a a1 ha ha1
  obtain ⟨k1, v1⟩ := gf_mult_value a b ha hb
  obtain ⟨k2, v2⟩ := gf_mult_value b a hb ha
  obtain ⟨k3, v3⟩ := gf_mult_value a1 b ha1 hb
  obtain ⟨k4, v4⟩ := gf_mult_value b a1 hb ha1
  obtain ⟨k5, v5⟩ := gf_mult_value (xor_128 a a1) b hx hb
  obtain ⟨k6, v6⟩ := gf_mult_value b (xor_128 a a1) hb hx
  have la := be_value_lt a ha
  have la1 := be_value_lt a1 ha1
  have lb := be_value_lt b hb
  have c1 := gf_sum_comm (be_value a) (be_value b) la lb
  have c2 := gf_sum_comm (be_value a1) (be_value b) la1 lb
  refine ⟨be_value_inj _ _ k1 k2 (by rw [v1, v2, c1]),
    be_value_inj _ _ k5 (xor_128_isBlock _ _ k1 k3) ?_,
    be_value_inj _ _ k6 (xor_128_isBlock _ _ k2 k4) ?_, gf_mult_at_out mem pa pb pa hpa⟩
  · rw [v5, be_value_xor _ _ k1 k3, v1, v3, be_value_xor a a1 ha ha1, gf_sum_xor_left]
  · rw [v6, be_value_xor _ _ k2 k4, v2, v4, be_value_xor a a1 ha ha1, ← c1, ← c2,
      ← gf_sum_xor_left,
      gf_sum_comm _ _ lb (Nat.xor_lt_two_pow la la1)]

theorem gf_mult_comm_bilinear_witness :
    IsBlock gmt_key ∧ IsBlock gmt_cipher ∧ IsBlock block_plaintext ∧
      0 + 16 ≤ (gmt_key ++ block_plaintext).length ∧
      gf_mult gmt_key block_plaintext = gf_mult block_plaintext gmt_key ∧
      gf_mult (xor_128 gmt_key gmt_cipher) block_plaintext =
        xor_128 (gf_mult gmt_key block_plaintext) (gf_mult gmt_cipher block_plaintext) ∧
      gf_mult block_plaintext (xor_128 gmt_key gmt_cipher) =
        xor_128 (gf_mult block_plaintext gmt_key) (gf_mult block_plaintext gmt_cipher) ∧
      ((gf_mult_at (gmt_key ++ block_plaintext) 0 16 0).drop 0).take 16 =
        gf_mult (((gmt_key ++ block_plaintext).drop 0).take 16)
          (((gmt_key ++ block_plaintext).drop 16).take 16) :=
  ⟨by decide, by decide, by decide, by decide,
    gf_mult_comm_bilinear gmt_key gmt_cipher block_plaintext (by decide) (by decide) (by decide)
      (gmt_key ++ block_plaintext) 0 16 (by decide)⟩

end SM4
